import Mathlib

/-! tokamak-draw: the model description parser of `model.c`

A shallow embedding of `src/model.c`.  C strings are lists of characters
(the terminating NUL is the end of the list), the `float` type is an
arbitrary type `F` with the four arithmetic operations, and the parts that
live outside `model.c` (libc's `sscanf`, the macro `PI`, the contents of
fresh memory) are collected in the record `Ext`.  The camera function
`move_camera` of `src/tokamak_draw.c` is embedded over an ordered field.
-/

namespace TokamakDraw

/-! ## Data model (`model.h`) -/

/-- Modelled from the spec: `model.h` is not among the sources.  The item
kinds are the three tags used by `model_load`; the zeroed tag left by
`memset` ("type unset") is `none` in the field `TModelItem.type`. -/
inductive DrawType
  | DRAW_SOLID
  | DRAW_LINE
  | DRAW_PLANES
  deriving DecidableEq, Repr

/-- Modelled from the spec: `TColor` of `model.h`, three channels and the
transparency. -/
structure TColor (F : Type) where
  r : F
  g : F
  b : F
  alpha : F
  deriving DecidableEq, Repr

/-- Modelled from the spec: `TModelItem` of `model.h`, with the field names
used by `model_load`. -/
structure TModelItem (F : Type) where
  type : Option DrawType
  color : TColor F
  elongation : F
  triangularity : F
  major_radius : F
  minor_radius : F
  number : Int
  m : Int
  n : Int
  phi0 : F
  phi1 : F
  deriving DecidableEq, Repr

/-- Modelled from the spec: `TModel` of `model.h`, the item count and the
heap array `item`. -/
structure TModel (F : Type) where
  nitems : Int
  item : List (TModelItem F)
  deriving DecidableEq, Repr

/-- What `model.c` takes from outside: the macro `PI`, the two `sscanf`
conversions it uses (`none` when `sscanf` does not return 1), and the
indeterminate contents of freshly allocated memory and of the
uninitialised local `val`. -/
structure Ext (F : Type) where
  PI : F
  sscanf_f : List Char → Option F
  sscanf_d : List Char → Option Int
  fresh : TModelItem F
  val0 : F

/-! ## String helpers -/

/-- The delimiters `DELIMS`, a space and a comma. -/
def DELIMS : List Char := [' ', ',']

/-- The number of token slots `MAX_ARGS`. -/
def MAX_ARGS : Nat := 10

/-- The test `strncmp(a, b, n) == 0` of libc. -/
def strncmp_eq : List Char → List Char → Nat → Bool
  | _, _, 0 => true
  | [], [], _ + 1 => true
  | [], _ :: _, _ + 1 => false
  | _ :: _, [], _ + 1 => false
  | x :: a, y :: b, n + 1 => x == y && strncmp_eq a b n

/-- The scan of `next_str` after its first `s++`: stop at a delimiter or at
the end of the string. -/
def next_str_scan (delim : List Char) : List Char → List Char
  | [] => []
  | c :: t => if c ∈ delim then c :: t else next_str_scan delim t

/-- The function `next_str`: the suffix of `s` starting at the first delimiter
found strictly after the first character (the empty suffix if there is
none). -/
def next_str (s : List Char) (delim : List Char) : List Char :=
  match s with
  | [] => []
  | _ :: t => next_str_scan delim t

/-- The inner `do ... while` of `split_args`, entered after `args[i]++` has
stepped over the delimiter that was overwritten: skip further delimiters. -/
def skip_delims (delims : List Char) : List Char → List Char
  | [] => []
  | c :: t => if c ∈ delims then skip_delims delims t else c :: t

/-- The `for` loop of `split_args`.  `cur` is `args[i-1]`, `k` the number of
iterations left (`MAX_ARGS - i`); the result lists `args[i-1], args[i], ...`
up to `args[nargs-1]` as they read once the loop has terminated them. -/
def split_args_loop (delims : List Char) : Nat → List Char → List (List Char)
  | 0, cur => [cur]
  | k + 1, cur =>
    match next_str cur delims with
    | [] => [cur]
    | d :: t =>
      let tok := cur.take (cur.length - (d :: t).length)
      match skip_delims delims t with
      | [] => [tok]
      | c :: u => tok :: split_args_loop delims k (c :: u)

/-- The function `split_args`: the filled token slots `args[0 .. nargs-1]`;
`*nargs` is the length of the result. -/
def split_args (s : List Char) (delims : List Char) : List (List Char) :=
  split_args_loop delims (MAX_ARGS - 1) s

/-! ## Colours and numbers -/

/-- The table `color_table` without its `NULL` sentinel. -/
def color_table {F : Type} [Zero F] [One F] : List (List Char × F × F × F) :=
  [ ("WHITE".toList, 1, 1, 1),
    ("BLACK".toList, 0, 0, 0),
    ("RED".toList, 1, 0, 0),
    ("GREEN".toList, 0, 1, 0),
    ("BLUE".toList, 0, 0, 1) ]

/-- The loop of `find_color` over the table entries. -/
def find_color_loop {F : Type} (name : List Char) (color : TColor F) :
    List (List Char × F × F × F) → Nat × TColor F
  | [] => (1, color)
  | (nm, r, g, b) :: rest =>
    if name = nm then (0, { color with r := r, g := g, b := b })
    else find_color_loop name color rest

/-- The function `find_color`: the return code (0 found, 1 not found) and the
colour record after the call. -/
def find_color {F : Type} [Zero F] [One F] (name : List Char) (color : TColor F) :
    Nat × TColor F :=
  find_color_loop name color color_table

/-- The enumeration `NUM_OP`. -/
inductive NUM_OP
  | NUM_INVALID
  | NUM_SET
  | NUM_ADD
  | NUM_SUB
  | NUM_MUL
  | NUM_DIV
  deriving DecidableEq, Repr

open NUM_OP DrawType

/-- The `switch` of `str_to_num`: the operation chosen from `s[0]` and the
text handed to `sscanf`. -/
def str_to_num_op : List Char → NUM_OP × List Char
  | '+' :: t => (NUM_ADD, t)
  | '-' :: t => (NUM_SUB, t)
  | '*' :: t => (NUM_MUL, t)
  | '/' :: t => (NUM_DIV, t)
  | s => (NUM_SET, s)

/-- The function `str_to_num`: the returned operation and the contents of
`*val` after the call (`val` is its contents before). -/
def str_to_num {F : Type} (ext : Ext F) (s : List Char) (val : F) : NUM_OP × F :=
  match ext.sscanf_f (str_to_num_op s).2 with
  | none => (NUM_INVALID, val)
  | some v => ((str_to_num_op s).1, v)

/-! ## The model store -/

/-- The function `model_additem`: the model after the call and the index of
the returned slot `model->item + (model->nitems-1)`.  `malloc` yields one
fresh slot, `realloc` keeps the old slots and adds a fresh one; the `exit(1)`
on allocation failure is not modelled (allocation succeeds). -/
def model_additem {F : Type} (ext : Ext F) (model : TModel F) : TModel F × Nat :=
  if model.nitems ≤ 0 then
    ({ nitems := 1, item := [ext.fresh] }, 0)
  else
    ({ nitems := model.nitems + 1, item := model.item ++ [ext.fresh] },
      (model.nitems + 1 - 1).toNat)

/-- The function `model_free`; `none` is the `NULL` model.  Releasing the
array leaves no slot. -/
def model_free {F : Type} : Option (TModel F) → Option (TModel F)
  | none => none
  | some model =>
    if model.nitems > 0 then some { nitems := 0, item := [] }
    else some { model with nitems := 0 }

/-- The items a reader of the model sees: the first `nitems` slots. -/
def TModel.items {F : Type} (model : TModel F) : List (TModelItem F) :=
  model.item.take model.nitems.toNat

/-! ## The line loop of `model_load` -/

/-- The value of the pointer `item`: `&def`, or a slot of `model->item`. -/
inductive ItemPtr
  | to_def
  | to_item (i : Nat)
  deriving DecidableEq, Repr

/-- The messages of `model_load`, by kind, with the values printed. -/
inductive Diag
  | unknown_setting (linenr : Nat) (buffer : List Char) (name : List Char)
  | usage (linenr : Nat) (command : List Char)
  | color_not_known (linenr : Nat) (name : List Char)
  | unknown_command (linenr : Nat) (buffer : List Char)
  | reading (description : List Char)
  deriving DecidableEq, Repr

/-- The variables of `model_load` that live across lines: the model, the
local record `def`, the pointer `item`, the local `val`, and what has been
printed so far. -/
structure LoadState (F : Type) where
  model : TModel F
  defl : TModelItem F
  item : ItemPtr
  val : F
  out : List Diag
  deriving DecidableEq, Repr

/-- A write `item->... = ...` through the pointer `item`. -/
def LoadState.store {F : Type} (st : LoadState F) (f : TModelItem F → TModelItem F) :
    LoadState F :=
  match st.item with
  | .to_def => { st with defl := f st.defl }
  | .to_item i => { st with model := { st.model with item := st.model.item.modify f i } }

/-- A read `*item` through the pointer `item`. -/
def LoadState.load {F : Type} (ext : Ext F) (st : LoadState F) : TModelItem F :=
  match st.item with
  | .to_def => st.defl
  | .to_item i => st.model.item.getD i ext.fresh

/-- One `fprintf`/`printf`. -/
def LoadState.print {F : Type} (st : LoadState F) (d : Diag) : LoadState F :=
  { st with out := st.out ++ [d] }

/-- The character `s[i]`, the terminating NUL at the end of the string. -/
def char_at (s : List Char) (i : Nat) : Char :=
  s.getD i (Char.ofNat 0)

/-- The test of the macro `CHECK_SETTING`: true when the setting is accepted
(`strncmp(buffer, name, n) == 0`), false when the macro prints and breaks. -/
def CHECK_SETTING (buffer : List Char) (name : List Char) (n : Nat) : Bool :=
  strncmp_eq buffer name n

/-- A numeric field of `TModelItem`, as the macro `GET_VALUE` uses it: read in
`def`, written through `item`. -/
structure Dest (F : Type) where
  get : TModelItem F → F
  set : F → TModelItem F → TModelItem F

/-- The field `color.alpha`. -/
def Dest.alpha {F : Type} : Dest F :=
  ⟨fun it => it.color.alpha, fun v it => { it with color := { it.color with alpha := v } }⟩

/-- The field `color.r`. -/
def Dest.r {F : Type} : Dest F :=
  ⟨fun it => it.color.r, fun v it => { it with color := { it.color with r := v } }⟩

/-- The field `color.g`. -/
def Dest.g {F : Type} : Dest F :=
  ⟨fun it => it.color.g, fun v it => { it with color := { it.color with g := v } }⟩

/-- The field `color.b`. -/
def Dest.b {F : Type} : Dest F :=
  ⟨fun it => it.color.b, fun v it => { it with color := { it.color with b := v } }⟩

/-- The field `elongation`. -/
def Dest.elongation {F : Type} : Dest F :=
  ⟨fun it => it.elongation, fun v it => { it with elongation := v }⟩

/-- The field `triangularity`. -/
def Dest.triangularity {F : Type} : Dest F :=
  ⟨fun it => it.triangularity, fun v it => { it with triangularity := v }⟩

/-- The field `major_radius`. -/
def Dest.major_radius {F : Type} : Dest F :=
  ⟨fun it => it.major_radius, fun v it => { it with major_radius := v }⟩

/-- The field `minor_radius`. -/
def Dest.minor_radius {F : Type} : Dest F :=
  ⟨fun it => it.minor_radius, fun v it => { it with minor_radius := v }⟩

/-- The field `phi0`. -/
def Dest.phi0 {F : Type} : Dest F :=
  ⟨fun it => it.phi0, fun v it => { it with phi0 := v }⟩

/-- The field `phi1`. -/
def Dest.phi1 {F : Type} : Dest F :=
  ⟨fun it => it.phi1, fun v it => { it with phi1 := v }⟩

section Load

variable {F : Type} [Zero F] [One F] [NatCast F] [Add F] [Sub F] [Mul F] [Div F]

/-- The macro `GET_VALUE(an, dest, defval, errfmt)` with `arg = args[an]`,
`dest = item->field` and `defval = def.field`. -/
def GET_VALUE (ext : Ext F) (arg : List Char) (fld : Dest F) (errfmt : Diag)
    (st : LoadState F) : LoadState F :=
  let r := str_to_num ext arg st.val
  let st := { st with val := r.2 }
  match r.1 with
  | NUM_SET => st.store (fld.set st.val)
  | NUM_ADD => st.store (fld.set (fld.get st.defl + st.val))
  | NUM_SUB => st.store (fld.set (fld.get st.defl - st.val))
  | NUM_MUL => st.store (fld.set (fld.get st.defl * st.val))
  | NUM_DIV => st.store (fld.set (fld.get st.defl / st.val))
  | NUM_INVALID => st.print errfmt

/-- The `switch(op)` written out for each of the two angles of `RANGE`:
degrees are converted for `NUM_SET`, `NUM_ADD` and `NUM_SUB` only. -/
def RANGE_VALUE (ext : Ext F) (arg : List Char) (fld : Dest F) (errfmt : Diag)
    (st : LoadState F) : LoadState F :=
  let r := str_to_num ext arg st.val
  let st := { st with val := r.2 }
  match r.1 with
  | NUM_SET => st.store (fld.set (st.val * ext.PI / 180))
  | NUM_ADD => st.store (fld.set (fld.get st.defl + st.val * ext.PI / 180))
  | NUM_SUB => st.store (fld.set (fld.get st.defl - st.val * ext.PI / 180))
  | NUM_MUL => st.store (fld.set (fld.get st.defl * st.val))
  | NUM_DIV => st.store (fld.set (fld.get st.defl / st.val))
  | NUM_INVALID => st.print errfmt

/-- The three statements of an item start: `item = model_additem(model);
memcpy(item, &def, sizeof(TModelItem)); item->type = ty;`. -/
def start_item (ext : Ext F) (ty : DrawType) (st : LoadState F) : LoadState F :=
  let r := model_additem ext st.model
  let st := { st with model := r.1, item := ItemPtr.to_item r.2 }
  let st := st.store (fun _ => st.defl)
  st.store (fun it => { it with type := some ty })

/-- A setting with one number: the argument count check followed by
`GET_VALUE(1, item->field, def.field, ...)`. -/
def one_number (ext : Ext F) (linenr : Nat) (name : List Char) (args : List (List Char))
    (fld : Dest F) (st : LoadState F) : LoadState F :=
  if args.length ≠ 2 then st.print (Diag.usage linenr name)
  else GET_VALUE ext (args.getD 1 []) fld (Diag.usage linenr name) st

/-- The `switch(buffer[0])` of `model_load`, entered with the token slots
`args` that `split_args` filled: `buffer` now reads as the first word
`args[0]`, `nargs` is the number of slots and `n = strlen(buffer)`. -/
def model_load_switch (ext : Ext F) (linenr : Nat) (args : List (List Char))
    (st : LoadState F) : LoadState F :=
    let nargs := args.length
    let buffer := args.headD []
    let n := buffer.length
    match char_at buffer 0 with
    | 'S' =>
      if !CHECK_SETTING buffer "SOLID".toList n then
        st.print (Diag.unknown_setting linenr buffer "SOLID".toList)
      else start_item ext DRAW_SOLID st
    | 'L' =>
      if !CHECK_SETTING buffer "LINES".toList n then
        st.print (Diag.unknown_setting linenr buffer "LINES".toList)
      else start_item ext DRAW_LINE st
    | 'P' =>
      if char_at buffer 1 = 'L' then
        if !CHECK_SETTING buffer "PLANES".toList n then
          st.print (Diag.unknown_setting linenr buffer "PLANES".toList)
        else start_item ext DRAW_PLANES st
      else
        if !CHECK_SETTING buffer "PITCH".toList n then
          st.print (Diag.unknown_setting linenr buffer "PITCH".toList)
        else if nargs ≠ 3 then st.print (Diag.usage linenr "PITCH".toList)
        else
          match ext.sscanf_d (args.getD 1 []) with
          | none => st.print (Diag.usage linenr "PITCH".toList)
          | some m =>
            let st := st.store (fun it => { it with m := m })
            match ext.sscanf_d (args.getD 2 []) with
            | none => st.print (Diag.usage linenr "PITCH".toList)
            | some k => st.store (fun it => { it with n := k })
    | 'A' =>
      if !CHECK_SETTING buffer "ALPHA".toList n then
        st.print (Diag.unknown_setting linenr buffer "ALPHA".toList)
      else one_number ext linenr "ALPHA".toList args Dest.alpha st
    | 'C' =>
      if !CHECK_SETTING buffer "COLOR".toList n then
        st.print (Diag.unknown_setting linenr buffer "COLOR".toList)
      else if nargs ≠ 2 ∧ nargs ≠ 4 then st.print (Diag.usage linenr "COLOR".toList)
      else if nargs = 2 then
        let r := find_color (args.getD 1 []) (st.load ext).color
        let st := st.store (fun it => { it with color := r.2 })
        if r.1 ≠ 0 then st.print (Diag.color_not_known linenr (args.getD 1 [])) else st
      else
        let st := GET_VALUE ext (args.getD 1 []) Dest.r (Diag.usage linenr "COLOR".toList) st
        let st := GET_VALUE ext (args.getD 2 []) Dest.g (Diag.usage linenr "COLOR".toList) st
        GET_VALUE ext (args.getD 3 []) Dest.b (Diag.usage linenr "COLOR".toList) st
    | 'E' =>
      if !CHECK_SETTING buffer "ELONGATION".toList n then
        st.print (Diag.unknown_setting linenr buffer "ELONGATION".toList)
      else one_number ext linenr "ELONGATION".toList args Dest.elongation st
    | 'M' =>
      if char_at buffer 1 = 'A' then
        if !CHECK_SETTING buffer "MAJOR".toList n then
          st.print (Diag.unknown_setting linenr buffer "MAJOR".toList)
        else one_number ext linenr "MAJOR".toList args Dest.major_radius st
      else
        if !CHECK_SETTING buffer "MINOR".toList n then
          st.print (Diag.unknown_setting linenr buffer "MINOR".toList)
        else one_number ext linenr "MINOR".toList args Dest.minor_radius st
    | 'N' =>
      if !CHECK_SETTING buffer "NUMBER".toList n then
        st.print (Diag.unknown_setting linenr buffer "NUMBER".toList)
      else if nargs ≠ 2 then st.print (Diag.usage linenr "NUMBER".toList)
      else
        match ext.sscanf_d (args.getD 1 []) with
        | none => st.print (Diag.usage linenr "NUMBER".toList)
        | some k => st.store (fun it => { it with number := k })
    | 'R' =>
      if !CHECK_SETTING buffer "RANGE".toList n then
        st.print (Diag.unknown_setting linenr buffer "RANGE".toList)
      else if nargs ≠ 3 then st.print (Diag.usage linenr "RANGE".toList)
      else
        let st := RANGE_VALUE ext (args.getD 1 []) Dest.phi0 (Diag.usage linenr "RANGE".toList) st
        RANGE_VALUE ext (args.getD 2 []) Dest.phi1 (Diag.usage linenr "RANGE".toList) st
    | 'T' =>
      if !CHECK_SETTING buffer "TRIANGULARITY".toList n then
        st.print (Diag.unknown_setting linenr buffer "TRIANGULARITY".toList)
      else one_number ext linenr "TRIANGULARITY".toList args Dest.triangularity st
    | _ => st.print (Diag.unknown_command linenr buffer)

/-- The body of the `do ... while` loop of `model_load` for one line `buffer`
returned by `parse_nextline` with line number `linenr`: the special case of
`NAME`, else `split_args` and the `switch`. -/
def model_load_line (ext : Ext F) (linenr : Nat) (buffer : List Char) (st : LoadState F) :
    LoadState F :=
  if strncmp_eq buffer "NAME".toList 4 then
    st.print (Diag.reading (buffer.drop 4))
  else
    model_load_switch ext linenr (split_args buffer DELIMS) st

/-- The record `def` after `memset` and the four assignments of "sensible
defaults". -/
def def_init (ext : Ext F) : TModelItem F :=
  { type := none
    color := { r := 0, g := 0, b := 0, alpha := 1 }
    elongation := 0
    triangularity := 0
    major_radius := 0
    minor_radius := 0
    number := 20
    m := 0
    n := 0
    phi0 := 0
    phi1 := 2 * ext.PI }

/-- The loop state on entry to the `do ... while` loop: `item = &def`, the
defaults set and `model->nitems = 0` (the array itself is not touched). -/
def load_init (ext : Ext F) (model : TModel F) : LoadState F :=
  { model := { model with nitems := 0 }
    defl := def_init ext
    item := ItemPtr.to_def
    val := ext.val0
    out := [] }

/-- The `do ... while` loop over the lines that `parse_nextline` returns, each
with its line number; the end of the list is the return value `-1`. -/
def model_load_lines (ext : Ext F) : List (Nat × List Char) → LoadState F → LoadState F
  | [], st => st
  | (linenr, buffer) :: rest, st =>
    model_load_lines ext rest (model_load_line ext linenr buffer st)

/-- The argument `filename` as `model_load` meets it: `NULL`, a path that
`fopen` cannot read, or a file given by the significant lines that
`parse_nextline` returns for it. -/
inductive FileArg
  | null
  | unreadable
  | readable (lines : List (Nat × List Char))

/-- What a call of `model_load` leaves: the return value, the model, whether a
file handle was opened and whether it was closed, and the final loop state
when the loop was entered. -/
structure LoadResult (F : Type) where
  ret : Int
  model : TModel F
  opened : Bool
  closed : Bool
  final : Option (LoadState F)

/-- The function `model_load`. -/
def model_load (ext : Ext F) (model : TModel F) : FileArg → LoadResult F
  | FileArg.null => { ret := 1, model := model, opened := false, closed := false, final := none }
  | FileArg.unreadable =>
    { ret := 1, model := model, opened := false, closed := false, final := none }
  | FileArg.readable [] =>
    { ret := 1, model := (load_init ext model).model, opened := true, closed := false,
      final := none }
  | FileArg.readable (l :: rest) =>
    let st := model_load_lines ext (l :: rest) (load_init ext model)
    { ret := 0, model := st.model, opened := true, closed := true, final := some st }

end Load

/-! ## A concrete instance: rational numbers and decimal literals -/

/-- The leading decimal digits of a string: their value after `acc`, how many
there are, and the rest of the string. -/
def scan_digits : List Char → Nat → Nat → Nat × Nat × List Char
  | [], acc, cnt => (acc, cnt, [])
  | c :: t, acc, cnt =>
    if '0' ≤ c ∧ c ≤ '9' then scan_digits t (10 * acc + (c.toNat - 48)) (cnt + 1)
    else (acc, cnt, c :: t)

/-- An unsigned decimal literal `ddd`, `ddd.ddd`, `ddd.` or `.ddd` at the start
of a string, as the pair (digits read as one number, number of digits after
the point); `none` when there is no digit. -/
def scan_decimal (s : List Char) : Option (Nat × Nat) :=
  match scan_digits s 0 0 with
  | (a, ka, '.' :: rest) =>
    match scan_digits rest a 0 with
    | (b, kb, _) => if ka + kb = 0 then none else some (b, kb)
  | (a, ka, _) => if ka = 0 then none else some (a, 0)

/-- The white space `sscanf` skips before a conversion. -/
def skip_space : List Char → List Char
  | [] => []
  | c :: t => if c = ' ' ∨ c = '\t' ∨ c = '\n' then skip_space t else c :: t

/-- A model of `sscanf(s, "%f", &v) == 1` for decimal literals without an
exponent: optional white space, optional sign, decimal literal; what follows
the literal is ignored, as `sscanf` does. -/
def sscanf_f_rat (s : List Char) : Option ℚ :=
  match skip_space s with
  | '-' :: t => (scan_decimal t).map (fun p => -((p.1 : ℚ) / (10 : ℚ) ^ p.2))
  | '+' :: t => (scan_decimal t).map (fun p => (p.1 : ℚ) / (10 : ℚ) ^ p.2)
  | t => (scan_decimal t).map (fun p => (p.1 : ℚ) / (10 : ℚ) ^ p.2)

/-- A model of `sscanf(s, "%d", &k) == 1`: optional white space, optional
sign, decimal digits. -/
def sscanf_d_int (s : List Char) : Option Int :=
  match skip_space s with
  | '-' :: t =>
    match scan_digits t 0 0 with
    | (a, k, _) => if k = 0 then none else some (-(a : Int))
  | '+' :: t =>
    match scan_digits t 0 0 with
    | (a, k, _) => if k = 0 then none else some (a : Int)
  | t =>
    match scan_digits t 0 0 with
    | (a, k, _) => if k = 0 then none else some (a : Int)

/-- Some contents for freshly allocated memory in the concrete instance. -/
def fresh_rat : TModelItem ℚ :=
  { type := some DRAW_PLANES
    color := { r := 9, g := 9, b := 9, alpha := 9 }
    elongation := 9
    triangularity := 9
    major_radius := 9
    minor_radius := 9
    number := 9
    m := 9
    n := 9
    phi0 := 9
    phi1 := 9 }

/-- The concrete instance used to run the embedding: rational arithmetic,
decimal literals, and `3.1415926` standing for the macro `PI`. -/
def ext_rat : Ext ℚ :=
  { PI := 31415926 / 10000000
    sscanf_f := sscanf_f_rat
    sscanf_d := sscanf_d_int
    fresh := fresh_rat
    val0 := 7 }

/-- A file given by its significant lines, numbered from 1. -/
def file_of (ls : List String) : List (Nat × List Char) :=
  (List.range ls.length).zipWith (fun i l => (i + 1, l.toList)) ls

/-- The empty model a caller starts from. -/
def empty_model (F : Type) : TModel F :=
  { nitems := 0, item := [] }

/-! ## Vocabulary of the properties -/

/-- The well-formed loop states: either no item exists and `item` is `&def`,
or `item` points at the newest slot of an array of exactly `nitems` slots. -/
def LoadState.wf {F : Type} (st : LoadState F) : Prop :=
  (st.model.nitems = 0 ∧ st.item = ItemPtr.to_def) ∨
  (0 < st.model.nitems ∧ st.item = ItemPtr.to_item (st.model.nitems - 1).toNat ∧
    (st.model.item.length : Int) = st.model.nitems)

/-- The command word `w` selects the full name `name`: it is a non-empty
initial part of it and the second-character tests of the `switch` lead to it
(`L` for `PLANES`, `A` for `MAJOR`). -/
def selects (w name : List Char) : Prop :=
  w ≠ [] ∧ w <+: name ∧
    (name = "PLANES".toList → char_at w 1 = 'L') ∧
    (name = "MAJOR".toList → char_at w 1 = 'A')

/-- The settings that take one number through `GET_VALUE`, each with its
field. -/
def number_settings (F : Type) : List (List Char × Dest F) :=
  [ ("ALPHA".toList, Dest.alpha),
    ("ELONGATION".toList, Dest.elongation),
    ("MAJOR".toList, Dest.major_radius),
    ("MINOR".toList, Dest.minor_radius),
    ("TRIANGULARITY".toList, Dest.triangularity) ]

/-- The item starts, each with its tag. -/
def item_starts : List (List Char × DrawType) :=
  [ ("SOLID".toList, DRAW_SOLID),
    ("LINES".toList, DRAW_LINE),
    ("PLANES".toList, DRAW_PLANES) ]

/-- The value `GET_VALUE` assigns for a valid operation `op`, base `d` and
magnitude `v`; `none` for `NUM_INVALID`. -/
def resolve {F : Type} [Add F] [Sub F] [Mul F] [Div F] (op : NUM_OP) (d v : F) : Option F :=
  match op with
  | NUM_SET => some v
  | NUM_ADD => some (d + v)
  | NUM_SUB => some (d - v)
  | NUM_MUL => some (d * v)
  | NUM_DIV => some (d / v)
  | NUM_INVALID => none

/-- The command word `w` leads the `switch` to a setting, not to an item
start: its first character is one of `A C E M N R T`, or it is `P` not
followed by `L`. -/
def is_setting_word (w : List Char) : Prop :=
  char_at w 0 ∈ ['A', 'C', 'E', 'M', 'N', 'R', 'T'] ∨ (char_at w 0 = 'P' ∧ char_at w 1 ≠ 'L')

/-- The twelve full names of the `switch`. -/
def command_names : List (List Char) :=
  [ "SOLID".toList, "LINES".toList, "PLANES".toList, "PITCH".toList, "ALPHA".toList,
    "COLOR".toList, "ELONGATION".toList, "MAJOR".toList, "MINOR".toList, "NUMBER".toList,
    "RANGE".toList, "TRIANGULARITY".toList ]

/-- What may follow the command word on a line: nothing, or text that begins
with a delimiter. -/
def is_line_rest (rest : List Char) : Prop :=
  ∀ c ∈ rest.head?, c ∈ DELIMS

/-- The loop state reached from a fresh call after the lines `pre`. -/
def reached {F : Type} [Zero F] [One F] [NatCast F] [Add F] [Sub F] [Mul F] [Div F]
    (ext : Ext F) (model : TModel F) (pre : List (Nat × List Char)) : LoadState F :=
  model_load_lines ext pre (load_init ext model)

instance selects_decidable (w name : List Char) : Decidable (selects w name) := by
  unfold selects
  infer_instance

instance is_line_rest_decidable (rest : List Char) : Decidable (is_line_rest rest) := by
  unfold is_line_rest
  infer_instance

instance is_setting_word_decidable (w : List Char) : Decidable (is_setting_word w) := by
  unfold is_setting_word
  infer_instance

/-- The example of relative settings: a default, two items that each add to
it, and an absolute value set on the second item before a further relative
one. -/
def relative_example : List (Nat × List Char) :=
  file_of ["MAJOR 2.0", "SOLID", "MAJOR +1.0", "LINES", "MAJOR +1.0", "MAJOR 5"]

/-- The example of two items with one setting each. -/
def two_items_example : List (Nat × List Char) :=
  file_of ["SOLID", "ALPHA 0.5", "LINES", "COLOR 0 0 1"]

/-- The full name the `switch` compares the command word `w` with, chosen by
its first character (and the second one after `P` and `M`); `none` in the
`default` case. -/
def expected_name (w : List Char) : Option (List Char) :=
  match char_at w 0 with
  | 'S' => some "SOLID".toList
  | 'L' => some "LINES".toList
  | 'P' => if char_at w 1 = 'L' then some "PLANES".toList else some "PITCH".toList
  | 'A' => some "ALPHA".toList
  | 'C' => some "COLOR".toList
  | 'E' => some "ELONGATION".toList
  | 'M' => if char_at w 1 = 'A' then some "MAJOR".toList else some "MINOR".toList
  | 'N' => some "NUMBER".toList
  | 'R' => some "RANGE".toList
  | 'T' => some "TRIANGULARITY".toList
  | _ => none

/-- The numbers of argument tokens each setting accepts. -/
def arg_counts : List (List Char × List Nat) :=
  [ ("ALPHA".toList, [1]),
    ("ELONGATION".toList, [1]),
    ("MAJOR".toList, [1]),
    ("MINOR".toList, [1]),
    ("NUMBER".toList, [1]),
    ("TRIANGULARITY".toList, [1]),
    ("PITCH".toList, [2]),
    ("RANGE".toList, [2]),
    ("COLOR".toList, [1, 3]) ]

/-- The value the `switch(op)` of `RANGE` assigns for operation `op`, base `d`
(radians) and magnitude `v`: degrees are converted for SET, ADD and SUB only;
`none` for `NUM_INVALID`. -/
def resolve_range {F : Type} [NatCast F] [Add F] [Sub F] [Mul F] [Div F]
    (PI : F) (op : NUM_OP) (d v : F) : Option F :=
  match op with
  | NUM_SET => some (v * PI / 180)
  | NUM_ADD => some (d + v * PI / 180)
  | NUM_SUB => some (d - v * PI / 180)
  | NUM_MUL => some (d * v)
  | NUM_DIV => some (d / v)
  | NUM_INVALID => none

/-- The five names of `color_table`. -/
def color_names : List (List Char) :=
  ["WHITE".toList, "BLACK".toList, "RED".toList, "GREEN".toList, "BLUE".toList]

/-! ### The camera (`tokamak_draw.c`) -/

/-- The fields of `TCamera` (declared in `tokamak_draw.h`, which is not among
the sources) that `move_camera` reads and writes: the distance and the two
angles.  `redraw_camera`, called last, writes `cx`, `cy`, `cz` only. -/
structure TCamera (K : Type) where
  R : K
  theta : K
  phi : K
  deriving DecidableEq, Repr

/-- The function `move_camera` on the camera `*dispview`, the C `double`
taken as an ordered field `K`; `PI` is the macro, `1/10` and `3/2` are the
literals `0.1` and `1.5`. -/
def move_camera {K : Type} [LinearOrderedField K] (PI : K) (dispview : TCamera K)
    (dR dtheta dphi : K) : TCamera K :=
  let theta := dispview.theta + dtheta
  let theta := if theta < 0 then 2 * PI + theta else theta
  let theta := if theta > 2 * PI then theta - 2 * PI else theta
  let phi := dispview.phi + dphi
  let phi := if phi > PI / 2 - 1 / 10 then PI / 2 - 1 / 10 else phi
  let phi := if phi < -PI / 2 + 1 / 10 then -PI / 2 + 1 / 10 else phi
  let R := dispview.R + dR
  let R := if R < 3 / 2 then 3 / 2 else R
  { R := R, theta := theta, phi := phi }

/-- The increments `(dR, dtheta, dphi)` of the calls of `move_camera` in the
key handlers: zoom in and out in `keyboard`, the four arrow keys in
`specialkey`. -/
def key_increments {K : Type} [LinearOrderedField K] : List (K × K × K) :=
  [(-(1 / 10), 0, 0), (1 / 10, 0, 0), (0, 1 / 10, 0), (0, -(1 / 10), 0), (0, 0, 1 / 10),
    (0, 0, -(1 / 10))]

/-- The camera that `create_camera` returns, and the one after
`set_camera_pos(5.0, 0.0, 0.0)` of the reset key `C`. -/
def camera_start {K : Type} [LinearOrderedField K] : TCamera K :=
  { R := 5, theta := 0, phi := 0 }

/-- The command word of a line, as `model_load` reads it in `buffer` after
`split_args`. -/
def command_word (buffer : List Char) : List Char :=
  (split_args buffer DELIMS).headD []

/-- The line starts with `NAME` (the test `strncmp(buffer, "NAME", 4) == 0`). -/
def is_name_line (buffer : List Char) : Bool :=
  strncmp_eq buffer "NAME".toList 4

/-- The tag of the item a line starts: the line does not start with `NAME` and
its command word selects SOLID, LINES or PLANES; `none` for every other
line. -/
def start_type (buffer : List Char) : Option DrawType :=
  if is_name_line buffer then none
  else (item_starts.find? (fun p => decide (selects (command_word buffer) p.1))).map
    (fun p => p.2)

/-- The significant lines of the built-in example file `model_example`, as the
line source hands them over: comments stripped, trimmed, upper case. -/
def model_example_lines : List (Nat × List Char) :=
  file_of ["NAME EXAMPLE MODEL", "MAJOR 2.0", "MINOR 1.0", "ELONGATION 0.5",
    "TRIANGULARITY 1.5", "SOLID", "NUMBER 30", "COLOR RED", "RANGE 0 216", "ALPHA 0.5",
    "LINES", "COLOR 0 0 1", "NUMBER 10", "PITCH 1 3"]

/-! ## The tokenizer as the specification words it -/

/-- Spec side: a character that is not a delimiter. -/
def non_delim (delims : List Char) (c : Char) : Bool := decide (c ∉ delims)

/-- Spec side: the maximal runs of non-delimiter characters of `s`, in order. -/
def spec_runs (delims : List Char) : List Char → List (List Char)
  | [] => []
  | c :: t =>
    if c ∈ delims then spec_runs delims t
    else
      match t with
      | [] => [[c]]
      | d :: _ =>
        if d ∈ delims then [c] :: spec_runs delims t
        else
          match spec_runs delims t with
          | [] => [[c]]
          | r :: rs => (c :: r) :: rs

/-- Spec side: the command word of a line, "the text up to the first
delimiter". -/
def spec_command (line : List Char) : List Char :=
  line.takeWhile (non_delim DELIMS)

/-- Spec side: the argument tokens of a line, "the maximal runs of
non-delimiter characters that follow" the command word. -/
def spec_arguments (line : List Char) : List (List Char) :=
  spec_runs DELIMS (line.dropWhile (non_delim DELIMS))

/-- The argument runs of a line: the maximal runs of non-delimiter characters
in what follows the command word that `split_args` forms. -/
def argument_runs (line : List Char) : List (List Char) :=
  spec_runs DELIMS (line.drop (command_word line).length)

/-! ## The token reads of the dispatcher -/

section Checked

variable {F : Type} [Zero F] [One F] [NatCast F] [Add F] [Sub F] [Mul F] [Div F]

/-- The read of the token slot `args[k]` with the bound made explicit: `none`
stands for a read of a slot that `split_args` did not fill for this line. -/
def read_arg (args : List (List Char)) (k : Nat) : Option (List Char) :=
  if k < args.length then some (args.getD k []) else none

/-- The setting with one number, its read of `args[1]` through `read_arg`. -/
def one_number_checked (ext : Ext F) (linenr : Nat) (name : List Char)
    (args : List (List Char)) (fld : Dest F) (st : LoadState F) : Option (LoadState F) :=
  if args.length ≠ 2 then some (st.print (Diag.usage linenr name))
  else (read_arg args 1).map (fun a1 => GET_VALUE ext a1 fld (Diag.usage linenr name) st)

/-- The `switch(buffer[0])` of `model_load` once more, every read of a token
slot `args[k]`, `k ≥ 1`, through `read_arg`: the result is `none` as soon as
a slot is read that was not filled. -/
def model_load_switch_checked (ext : Ext F) (linenr : Nat) (args : List (List Char))
    (st : LoadState F) : Option (LoadState F) :=
    let nargs := args.length
    let buffer := args.headD []
    let n := buffer.length
    match char_at buffer 0 with
    | 'S' =>
      if !CHECK_SETTING buffer "SOLID".toList n then
        some (st.print (Diag.unknown_setting linenr buffer "SOLID".toList))
      else some (start_item ext DRAW_SOLID st)
    | 'L' =>
      if !CHECK_SETTING buffer "LINES".toList n then
        some (st.print (Diag.unknown_setting linenr buffer "LINES".toList))
      else some (start_item ext DRAW_LINE st)
    | 'P' =>
      if char_at buffer 1 = 'L' then
        if !CHECK_SETTING buffer "PLANES".toList n then
          some (st.print (Diag.unknown_setting linenr buffer "PLANES".toList))
        else some (start_item ext DRAW_PLANES st)
      else
        if !CHECK_SETTING buffer "PITCH".toList n then
          some (st.print (Diag.unknown_setting linenr buffer "PITCH".toList))
        else if nargs ≠ 3 then some (st.print (Diag.usage linenr "PITCH".toList))
        else
          (read_arg args 1).bind fun a1 =>
          match ext.sscanf_d a1 with
          | none => some (st.print (Diag.usage linenr "PITCH".toList))
          | some m =>
            let st := st.store (fun it => { it with m := m })
            (read_arg args 2).bind fun a2 =>
            match ext.sscanf_d a2 with
            | none => some (st.print (Diag.usage linenr "PITCH".toList))
            | some k => some (st.store (fun it => { it with n := k }))
    | 'A' =>
      if !CHECK_SETTING buffer "ALPHA".toList n then
        some (st.print (Diag.unknown_setting linenr buffer "ALPHA".toList))
      else one_number_checked ext linenr "ALPHA".toList args Dest.alpha st
    | 'C' =>
      if !CHECK_SETTING buffer "COLOR".toList n then
        some (st.print (Diag.unknown_setting linenr buffer "COLOR".toList))
      else if nargs ≠ 2 ∧ nargs ≠ 4 then some (st.print (Diag.usage linenr "COLOR".toList))
      else if nargs = 2 then
        (read_arg args 1).bind fun a1 =>
        let r := find_color a1 (st.load ext).color
        let st := st.store (fun it => { it with color := r.2 })
        if r.1 ≠ 0 then
          (read_arg args 1).map fun b1 => st.print (Diag.color_not_known linenr b1)
        else some st
      else
        (read_arg args 1).bind fun a1 =>
        let st := GET_VALUE ext a1 Dest.r (Diag.usage linenr "COLOR".toList) st
        (read_arg args 2).bind fun a2 =>
        let st := GET_VALUE ext a2 Dest.g (Diag.usage linenr "COLOR".toList) st
        (read_arg args 3).map fun a3 =>
        GET_VALUE ext a3 Dest.b (Diag.usage linenr "COLOR".toList) st
    | 'E' =>
      if !CHECK_SETTING buffer "ELONGATION".toList n then
        some (st.print (Diag.unknown_setting linenr buffer "ELONGATION".toList))
      else one_number_checked ext linenr "ELONGATION".toList args Dest.elongation st
    | 'M' =>
      if char_at buffer 1 = 'A' then
        if !CHECK_SETTING buffer "MAJOR".toList n then
          some (st.print (Diag.unknown_setting linenr buffer "MAJOR".toList))
        else one_number_checked ext linenr "MAJOR".toList args Dest.major_radius st
      else
        if !CHECK_SETTING buffer "MINOR".toList n then
          some (st.print (Diag.unknown_setting linenr buffer "MINOR".toList))
        else one_number_checked ext linenr "MINOR".toList args Dest.minor_radius st
    | 'N' =>
      if !CHECK_SETTING buffer "NUMBER".toList n then
        some (st.print (Diag.unknown_setting linenr buffer "NUMBER".toList))
      else if nargs ≠ 2 then some (st.print (Diag.usage linenr "NUMBER".toList))
      else
        (read_arg args 1).bind fun a1 =>
        match ext.sscanf_d a1 with
        | none => some (st.print (Diag.usage linenr "NUMBER".toList))
        | some k => some (st.store (fun it => { it with number := k }))
    | 'R' =>
      if !CHECK_SETTING buffer "RANGE".toList n then
        some (st.print (Diag.unknown_setting linenr buffer "RANGE".toList))
      else if nargs ≠ 3 then some (st.print (Diag.usage linenr "RANGE".toList))
      else
        (read_arg args 1).bind fun a1 =>
        let st := RANGE_VALUE ext a1 Dest.phi0 (Diag.usage linenr "RANGE".toList) st
        (read_arg args 2).map fun a2 =>
        RANGE_VALUE ext a2 Dest.phi1 (Diag.usage linenr "RANGE".toList) st
    | 'T' =>
      if !CHECK_SETTING buffer "TRIANGULARITY".toList n then
        some (st.print (Diag.unknown_setting linenr buffer "TRIANGULARITY".toList))
      else one_number_checked ext linenr "TRIANGULARITY".toList args Dest.triangularity st
    | _ => some (st.print (Diag.unknown_command linenr buffer))

end Checked

/-! ## Basic facts -/

theorem strncmp_eq_length_iff (w name : List Char) :
    strncmp_eq w name w.length = true ↔ w <+: name := by
  induction w generalizing name with
  | nil => simp [strncmp_eq]
  | cons x a ih =>
    cases name with
    | nil => simp [strncmp_eq]
    | cons y b => simp [strncmp_eq, List.cons_prefix_cons, ih]

theorem char_at_of_initial {w name : List Char} (h : w <+: name) (i : Nat) (hi : i < w.length) :
    char_at w i = char_at name i := by
  obtain ⟨t, rfl⟩ := h
  simp [char_at, List.getD_eq_getElem?_getD, List.getElem?_append_left hi]

theorem char_at_of_length_le (w : List Char) (i : Nat) (hi : w.length ≤ i) :
    char_at w i = Char.ofNat 0 := by
  simp [char_at, List.getD_eq_getElem?_getD, List.getElem?_eq_none hi]

theorem char_at_zero_of_selects {w name : List Char} (h : selects w name) :
    char_at w 0 = char_at name 0 := by
  obtain ⟨hne, hp, -, -⟩ := h
  apply char_at_of_initial hp
  cases w with
  | nil => exact absurd rfl hne
  | cons _ _ => simp

theorem check_setting_of_selects {w name : List Char} (h : selects w name) :
    CHECK_SETTING w name w.length = true :=
  (strncmp_eq_length_iff w name).2 h.2.1

theorem char_at_one_of_initial {w name : List Char} (h : w <+: name) :
    char_at w 1 = char_at name 1 ∨ char_at w 1 = Char.ofNat 0 := by
  by_cases hi : 1 < w.length
  · exact Or.inl (char_at_of_initial h 1 hi)
  · exact Or.inr (char_at_of_length_le w 1 (by omega))

theorem modify_length_append {α : Type} (f : α → α) (l : List α) (x : α) :
    (l ++ [x]).modify f l.length = l ++ [f x] := by
  induction l with
  | nil => simp
  | cons a l ih => simp [ih]

theorem modify_fix {α : Type} (f : α → α) (l : List α) (i : Nat)
    (h : ∀ x, l[i]? = some x → f x = x) : l.modify f i = l := by
  induction l generalizing i with
  | nil => simp
  | cons a l ih =>
    cases i with
    | zero => simp [h a (by simp)]
    | succ i => simp [ih i (fun x hx => h x (by simpa using hx))]

theorem take_modify_of_le {α : Type} (f : α → α) (l : List α) {k i : Nat} (h : k ≤ i) :
    (l.modify f i).take k = l.take k := by
  induction l generalizing k i with
  | nil => simp
  | cons a l ih =>
    cases k with
    | zero => simp
    | succ k =>
      cases i with
      | zero => omega
      | succ i => simp [ih (by omega : k ≤ i)]

/-! ## The primitive steps of the loop -/

section Steps

variable {F : Type}

@[simp] theorem print_model (st : LoadState F) (d : Diag) : (st.print d).model = st.model := rfl

@[simp] theorem print_defl (st : LoadState F) (d : Diag) : (st.print d).defl = st.defl := rfl

@[simp] theorem print_item (st : LoadState F) (d : Diag) : (st.print d).item = st.item := rfl

@[simp] theorem print_val (st : LoadState F) (d : Diag) : (st.print d).val = st.val := rfl

@[simp] theorem print_out (st : LoadState F) (d : Diag) : (st.print d).out = st.out ++ [d] := rfl

@[simp] theorem print_load (ext : Ext F) (st : LoadState F) (d : Diag) :
    (st.print d).load ext = st.load ext := rfl

@[simp] theorem store_nitems (st : LoadState F) (f : TModelItem F → TModelItem F) :
    (st.store f).model.nitems = st.model.nitems := by
  unfold LoadState.store; split <;> rfl

@[simp] theorem store_length (st : LoadState F) (f : TModelItem F → TModelItem F) :
    (st.store f).model.item.length = st.model.item.length := by
  unfold LoadState.store; split <;> simp

@[simp] theorem store_item (st : LoadState F) (f : TModelItem F → TModelItem F) :
    (st.store f).item = st.item := by
  unfold LoadState.store; split <;> rfl

@[simp] theorem store_val (st : LoadState F) (f : TModelItem F → TModelItem F) :
    (st.store f).val = st.val := by
  unfold LoadState.store; split <;> rfl

@[simp] theorem store_out (st : LoadState F) (f : TModelItem F → TModelItem F) :
    (st.store f).out = st.out := by
  unfold LoadState.store; split <;> rfl

theorem store_of_to_def {st : LoadState F} (h : st.item = ItemPtr.to_def)
    (f : TModelItem F → TModelItem F) : st.store f = { st with defl := f st.defl } := by
  unfold LoadState.store; rw [h]

theorem store_of_to_item {st : LoadState F} {i : Nat} (h : st.item = ItemPtr.to_item i)
    (f : TModelItem F → TModelItem F) :
    st.store f = { st with model := { st.model with item := st.model.item.modify f i } } := by
  unfold LoadState.store; rw [h]

theorem store_id_of_fix (st : LoadState F) (f : TModelItem F → TModelItem F)
    (hf : ∀ it, f it = it) : st.store f = st := by
  have hf' : f = id := funext hf
  subst hf'
  unfold LoadState.store
  split
  · rfl
  · simp [List.modify, List.modifyTailIdx_id]

theorem wf_print {st : LoadState F} (h : st.wf) (d : Diag) : (st.print d).wf := h

theorem wf_val {st : LoadState F} (h : st.wf) (v : F) : LoadState.wf { st with val := v } := h

theorem wf_store {st : LoadState F} (h : st.wf) (f : TModelItem F → TModelItem F) :
    (st.store f).wf := by
  unfold LoadState.wf at *
  simpa using h

theorem items_of_wf {st : LoadState F} (h : st.wf) (hpos : 0 < st.model.nitems) :
    st.model.items = st.model.item := by
  rcases h with ⟨h0, -⟩ | ⟨-, -, hl⟩
  · omega
  · unfold TModel.items
    apply List.take_of_length_le
    omega

theorem items_of_zero {st : LoadState F} (h0 : st.model.nitems = 0) : st.model.items = [] := by
  unfold TModel.items
  simp [h0]

/-- An item start in a well-formed state appends one item, the copy of `def`
with the new tag, and points `item` at it. -/
theorem start_item_eq (ext : Ext F) (ty : DrawType) {st : LoadState F} (h : st.wf) :
    start_item ext ty st =
      { st with
        model := { nitems := st.model.nitems + 1,
                   item := st.model.items ++ [{ st.defl with type := some ty }] }
        item := ItemPtr.to_item st.model.nitems.toNat } := by
  rcases h with ⟨h0, hp⟩ | ⟨hpos, hp, hl⟩
  · have hi := items_of_zero h0
    simp [start_item, model_additem, LoadState.store, h0, hi]
  · have hi := items_of_wf (Or.inr ⟨hpos, hp, hl⟩) hpos
    have hn : ¬ st.model.nitems ≤ 0 := by omega
    have hidx : (st.model.nitems + 1 - 1).toNat = st.model.item.length := by omega
    have hidx2 : st.model.nitems.toNat = st.model.item.length := by omega
    simp only [start_item, model_additem, LoadState.store, hn, hi, hidx, hidx2,
      modify_length_append, ↓reduceIte]

theorem wf_start_item (ext : Ext F) (ty : DrawType) {st : LoadState F} (h : st.wf) :
    (start_item ext ty st).wf := by
  rw [start_item_eq ext ty h]
  right
  rcases h with ⟨h0, -⟩ | ⟨hpos, hp, hl⟩
  · have hi := items_of_zero h0
    simp [h0, hi]
  · have hi := items_of_wf (Or.inr ⟨hpos, hp, hl⟩) hpos
    simp only [hi, List.length_append, List.length_singleton]
    refine ⟨by omega, ?_, by push_cast; omega⟩
    congr 1
    omega

end Steps

/-! ## Every line is a composition of primitive steps -/

section Closure

variable {F : Type} [Zero F] [One F] [NatCast F] [Add F] [Sub F] [Mul F] [Div F]

set_option linter.unusedSectionVars false

theorem GET_VALUE_closed (ext : Ext F) (P : LoadState F → Prop)
    (hprint : ∀ st d, P st → P (st.print d))
    (hstore : ∀ st f, P st → P (st.store f))
    (hval : ∀ (st : LoadState F) v, P st → P { st with val := v })
    (arg : List Char) (fld : Dest F) (e : Diag) (st : LoadState F) (h : P st) :
    P (GET_VALUE ext arg fld e st) := by
  unfold GET_VALUE
  simp only
  split <;> first | exact hstore _ _ (hval _ _ h) | exact hprint _ _ (hval _ _ h)

theorem RANGE_VALUE_closed (ext : Ext F) (P : LoadState F → Prop)
    (hprint : ∀ st d, P st → P (st.print d))
    (hstore : ∀ st f, P st → P (st.store f))
    (hval : ∀ (st : LoadState F) v, P st → P { st with val := v })
    (arg : List Char) (fld : Dest F) (e : Diag) (st : LoadState F) (h : P st) :
    P (RANGE_VALUE ext arg fld e st) := by
  unfold RANGE_VALUE
  simp only
  split <;> first | exact hstore _ _ (hval _ _ h) | exact hprint _ _ (hval _ _ h)

theorem one_number_closed (ext : Ext F) (P : LoadState F → Prop)
    (hprint : ∀ st d, P st → P (st.print d))
    (hstore : ∀ st f, P st → P (st.store f))
    (hval : ∀ (st : LoadState F) v, P st → P { st with val := v })
    (linenr : Nat) (name : List Char) (args : List (List Char)) (fld : Dest F)
    (st : LoadState F) (h : P st) :
    P (one_number ext linenr name args fld st) := by
  unfold one_number
  split
  · exact hprint _ _ h
  · exact GET_VALUE_closed ext P hprint hstore hval _ _ _ _ h

/-- A property kept by printing, by a write through `item`, by an assignment
to `val` and by an item start is kept by the `switch`. -/
theorem model_load_switch_closed (ext : Ext F) (P : LoadState F → Prop)
    (hprint : ∀ st d, P st → P (st.print d))
    (hstore : ∀ st f, P st → P (st.store f))
    (hval : ∀ (st : LoadState F) v, P st → P { st with val := v })
    (hstart : ∀ st ty, P st → P (start_item ext ty st))
    (linenr : Nat) (args : List (List Char)) (st : LoadState F) (h : P st) :
    P (model_load_switch ext linenr args st) := by
  have hg := GET_VALUE_closed ext P hprint hstore hval
  have hr := RANGE_VALUE_closed ext P hprint hstore hval
  have ho := one_number_closed ext P hprint hstore hval
  unfold model_load_switch
  simp only
  split
  all_goals (repeat' split)
  all_goals first
    | exact hprint _ _ h
    | exact hstart _ _ h
    | exact ho _ _ _ _ _ h
    | exact hstore _ _ h
    | exact hstore _ _ (hstore _ _ h)
    | exact hprint _ _ (hstore _ _ h)
    | exact hg _ _ _ _ (hg _ _ _ _ (hg _ _ _ _ h))
    | exact hr _ _ _ _ (hr _ _ _ _ h)

/-- The same for a whole line, the `NAME` case included. -/
theorem model_load_line_closed (ext : Ext F) (P : LoadState F → Prop)
    (hprint : ∀ st d, P st → P (st.print d))
    (hstore : ∀ st f, P st → P (st.store f))
    (hval : ∀ (st : LoadState F) v, P st → P { st with val := v })
    (hstart : ∀ st ty, P st → P (start_item ext ty st))
    (linenr : Nat) (buffer : List Char) (st : LoadState F) (h : P st) :
    P (model_load_line ext linenr buffer st) := by
  unfold model_load_line
  split
  · exact hprint _ _ h
  · exact model_load_switch_closed ext P hprint hstore hval hstart _ _ _ h

/-- A setting word never reaches an item start: a property kept by printing,
by a write through `item` and by an assignment to `val` is kept. -/
theorem model_load_switch_closed_setting (ext : Ext F) (P : LoadState F → Prop)
    (hprint : ∀ st d, P st → P (st.print d))
    (hstore : ∀ st f, P st → P (st.store f))
    (hval : ∀ (st : LoadState F) v, P st → P { st with val := v })
    (linenr : Nat) (args : List (List Char)) (hw : is_setting_word (args.headD []))
    (st : LoadState F) (h : P st) :
    P (model_load_switch ext linenr args st) := by
  have hg := GET_VALUE_closed ext P hprint hstore hval
  have hr := RANGE_VALUE_closed ext P hprint hstore hval
  have ho := one_number_closed ext P hprint hstore hval
  unfold is_setting_word at hw
  unfold model_load_switch
  simp only
  generalize hc : char_at (args.headD []) 0 = c at hw ⊢
  split
  all_goals (repeat' split)
  all_goals first
    | exact hprint _ _ h
    | exact ho _ _ _ _ _ h
    | exact hstore _ _ h
    | exact hstore _ _ (hstore _ _ h)
    | exact hprint _ _ (hstore _ _ h)
    | exact hg _ _ _ _ (hg _ _ _ _ (hg _ _ _ _ h))
    | exact hr _ _ _ _ (hr _ _ _ _ h)
    | (exfalso; simp_all)

end Closure

/-! ## The tokenizer on a line that starts with a word -/

theorem next_str_scan_append (delims a rest : List Char) (ha : ∀ c ∈ a, c ∉ delims) :
    next_str_scan delims (a ++ rest) = next_str_scan delims rest := by
  induction a with
  | nil => rfl
  | cons x a ih =>
    have hx : x ∉ delims := ha x (List.mem_cons_self _ _)
    have ha' : ∀ c ∈ a, c ∉ delims := fun c hc => ha c (List.mem_cons_of_mem _ hc)
    simp [next_str_scan, hx, ih ha']

/-- The tokens after the command word depend on the rest of the line only. -/
theorem split_args_word (rest : List Char) (hrest : is_line_rest rest) :
    ∃ targs : List (List Char), ∀ w : List Char, w ≠ [] → (∀ c ∈ w, c ∉ DELIMS) →
      split_args (w ++ rest) DELIMS = w :: targs := by
  cases rest with
  | nil =>
    refine ⟨[], fun w hw hd => ?_⟩
    cases w with
    | nil => exact absurd rfl hw
    | cons x a =>
      have ha : ∀ c ∈ a, c ∉ DELIMS := fun c hc => hd c (List.mem_cons_of_mem _ hc)
      have h := next_str_scan_append DELIMS a [] ha
      simp only [List.append_nil] at h
      simp [split_args, MAX_ARGS, split_args_loop, next_str, h, next_str_scan]
  | cons d t =>
    have hdel : d ∈ DELIMS := hrest d (by simp)
    refine ⟨match skip_delims DELIMS t with
      | [] => []
      | c :: u => split_args_loop DELIMS 8 (c :: u), fun w hw hd => ?_⟩
    cases w with
    | nil => exact absurd rfl hw
    | cons x a =>
      have ha : ∀ c ∈ a, c ∉ DELIMS := fun c hc => hd c (List.mem_cons_of_mem _ hc)
      have h := next_str_scan_append DELIMS a (d :: t) ha
      have hs : next_str_scan DELIMS (d :: t) = d :: t := by simp [next_str_scan, hdel]
      have hn : next_str (x :: a ++ d :: t) DELIMS = d :: t := by
        simp [next_str, h, hs]
      have htake : (x :: a ++ d :: t).take ((x :: a ++ d :: t).length - (d :: t).length)
          = x :: a := by
        have : (x :: a ++ d :: t).length - (d :: t).length = (x :: a).length := by
          simp only [List.length_append, List.length_cons, List.cons_append]
          omega
        rw [this, List.take_left']
        rfl
      simp only [split_args, MAX_ARGS, split_args_loop, hn, htake]
      split <;> rfl

/-! ## The `switch` on an accepted command word -/

section Switch

variable {F : Type} [Zero F] [One F] [NatCast F] [Add F] [Sub F] [Mul F] [Div F]

set_option linter.unusedSectionVars false

theorem switch_one_number (ext : Ext F) (linenr : Nat) (args : List (List Char))
    (st : LoadState F) (name : List Char) (fld : Dest F)
    (hm : (name, fld) ∈ number_settings F) (hs : selects (args.headD []) name) :
    model_load_switch ext linenr args st = one_number ext linenr name args fld st := by
  have h0 := char_at_zero_of_selects hs
  have hc := check_setting_of_selects hs
  have h1 := char_at_one_of_initial hs.2.1
  have hA := hs.2.2.2
  simp only [number_settings, List.mem_cons, List.mem_singleton, Prod.mk.injEq,
    List.not_mem_nil, or_false] at hm
  rcases hm with ⟨rfl, rfl⟩ | ⟨rfl, rfl⟩ | ⟨rfl, rfl⟩ | ⟨rfl, rfl⟩ | ⟨rfl, rfl⟩
  · have h0' : char_at (args.headD []) 0 = 'A' := h0
    unfold model_load_switch
    simp only [h0', hc]
    simp
  · have h0' : char_at (args.headD []) 0 = 'E' := h0
    unfold model_load_switch
    simp only [h0', hc]
    simp
  · have h0' : char_at (args.headD []) 0 = 'M' := h0
    have h1' : char_at (args.headD []) 1 = 'A' := hA rfl
    unfold model_load_switch
    simp only [h0', h1', hc]
    simp
  · have h0' : char_at (args.headD []) 0 = 'M' := h0
    have h1' : char_at (args.headD []) 1 ≠ 'A' := by
      rcases h1 with h | h <;> rw [h] <;> decide
    unfold model_load_switch
    simp only [h0', hc, h1']
    simp
  · have h0' : char_at (args.headD []) 0 = 'T' := h0
    unfold model_load_switch
    simp only [h0', hc]
    simp

theorem switch_item_start (ext : Ext F) (linenr : Nat) (args : List (List Char))
    (st : LoadState F) (name : List Char) (ty : DrawType)
    (hm : (name, ty) ∈ item_starts) (hs : selects (args.headD []) name) :
    model_load_switch ext linenr args st = start_item ext ty st := by
  have h0 := char_at_zero_of_selects hs
  have hc := check_setting_of_selects hs
  have hL := hs.2.2.1
  simp only [item_starts, List.mem_cons, List.mem_singleton, Prod.mk.injEq,
    List.not_mem_nil, or_false] at hm
  rcases hm with ⟨rfl, rfl⟩ | ⟨rfl, rfl⟩ | ⟨rfl, rfl⟩
  · have h0' : char_at (args.headD []) 0 = 'S' := h0
    unfold model_load_switch
    simp only [h0', hc]
    simp
  · have h0' : char_at (args.headD []) 0 = 'L' := h0
    unfold model_load_switch
    simp only [h0', hc]
    simp
  · have h0' : char_at (args.headD []) 0 = 'P' := h0
    have h1' : char_at (args.headD []) 1 = 'L' := hL rfl
    unfold model_load_switch
    simp only [h0', h1', hc]
    simp

theorem selects_self {name : List Char} (hm : name ∈ command_names) : selects name name := by
  simp only [command_names, List.mem_cons, List.mem_singleton, List.not_mem_nil, or_false] at hm
  rcases hm with rfl | rfl | rfl | rfl | rfl | rfl | rfl | rfl | rfl | rfl | rfl | rfl <;>
    exact ⟨by decide, List.prefix_refl _, by decide, by decide⟩

theorem selects_headD_cons {w name : List Char} (targs : List (List Char))
    (h : selects w name) : selects ((w :: targs).headD []) name := h

theorem switch_one_number_same (ext : Ext F) (linenr : Nat) (w name : List Char)
    (targs : List (List Char)) (st : LoadState F) (fld : Dest F)
    (hm : (name, fld) ∈ number_settings F) (hn : name ∈ command_names)
    (hs : selects w name) :
    model_load_switch ext linenr (w :: targs) st =
      model_load_switch ext linenr (name :: targs) st := by
  rw [switch_one_number ext linenr (w :: targs) st name fld hm (selects_headD_cons targs hs),
    switch_one_number ext linenr (name :: targs) st name fld hm
      (selects_headD_cons targs (selects_self hn))]
  simp [one_number]

theorem switch_item_start_same (ext : Ext F) (linenr : Nat) (w name : List Char)
    (targs : List (List Char)) (st : LoadState F) (ty : DrawType)
    (hm : (name, ty) ∈ item_starts) (hn : name ∈ command_names)
    (hs : selects w name) :
    model_load_switch ext linenr (w :: targs) st =
      model_load_switch ext linenr (name :: targs) st := by
  rw [switch_item_start ext linenr (w :: targs) st name ty hm (selects_headD_cons targs hs),
    switch_item_start ext linenr (name :: targs) st name ty hm
      (selects_headD_cons targs (selects_self hn))]

/-- The `switch` takes the same branch, with the same effect, for every word
that selects a name as for the name itself. -/
theorem switch_of_selects (ext : Ext F) (linenr : Nat) (w name : List Char)
    (targs : List (List Char)) (st : LoadState F)
    (hm : name ∈ command_names) (hs : selects w name) :
    model_load_switch ext linenr (w :: targs) st =
      model_load_switch ext linenr (name :: targs) st := by
  have h0 := char_at_zero_of_selects hs
  have hc := check_setting_of_selects hs
  have h1 := char_at_one_of_initial hs.2.1
  have hm' := hm
  simp only [command_names, List.mem_cons, List.mem_singleton, List.not_mem_nil,
    or_false] at hm'
  rcases hm' with rfl | rfl | rfl | rfl | rfl | rfl | rfl | rfl | rfl | rfl | rfl | rfl
  · exact switch_item_start_same ext linenr w _ targs st DRAW_SOLID (by simp [item_starts]) hm hs
  · exact switch_item_start_same ext linenr w _ targs st DRAW_LINE (by simp [item_starts]) hm hs
  · exact switch_item_start_same ext linenr w _ targs st DRAW_PLANES (by simp [item_starts]) hm hs
  · have h0' : char_at w 0 = 'P' := h0
    have h1' : char_at w 1 ≠ 'L' := by
      rcases h1 with h | h <;> rw [h] <;> decide
    unfold model_load_switch
    simp only [List.headD_cons, h0', hc, h1']
    simp [char_at, CHECK_SETTING, strncmp_eq]
  · exact switch_one_number_same ext linenr w _ targs st Dest.alpha
      (by simp [number_settings]) hm hs
  · have h0' : char_at w 0 = 'C' := h0
    unfold model_load_switch
    simp only [List.headD_cons, h0', hc]
    simp [char_at, CHECK_SETTING, strncmp_eq]
  · exact switch_one_number_same ext linenr w _ targs st Dest.elongation
      (by simp [number_settings]) hm hs
  · exact switch_one_number_same ext linenr w _ targs st Dest.major_radius
      (by simp [number_settings]) hm hs
  · exact switch_one_number_same ext linenr w _ targs st Dest.minor_radius
      (by simp [number_settings]) hm hs
  · have h0' : char_at w 0 = 'N' := h0
    unfold model_load_switch
    simp only [List.headD_cons, h0', hc]
    simp [char_at, CHECK_SETTING, strncmp_eq]
  · have h0' : char_at w 0 = 'R' := h0
    unfold model_load_switch
    simp only [List.headD_cons, h0', hc]
    simp [char_at, CHECK_SETTING, strncmp_eq]
  · exact switch_one_number_same ext linenr w _ targs st Dest.triangularity
      (by simp [number_settings]) hm hs

end Switch

/-! ## Invariant and frame of the line loop -/

section Loop

variable {F : Type} [Zero F] [One F] [NatCast F] [Add F] [Sub F] [Mul F] [Div F]

set_option linter.unusedSectionVars false

theorem wf_load_init (ext : Ext F) (model : TModel F) : (load_init ext model).wf :=
  Or.inl ⟨rfl, rfl⟩

theorem wf_model_load_line (ext : Ext F) (linenr : Nat) (buffer : List Char)
    {st : LoadState F} (h : st.wf) : (model_load_line ext linenr buffer st).wf :=
  model_load_line_closed ext LoadState.wf (fun _ d h => wf_print h d)
    (fun _ f h => wf_store h f) (fun _ v h => wf_val h v)
    (fun _ ty h => wf_start_item ext ty h) linenr buffer st h

theorem wf_model_load_lines (ext : Ext F) (ls : List (Nat × List Char)) :
    ∀ {st : LoadState F}, st.wf → (model_load_lines ext ls st).wf := by
  induction ls with
  | nil => intro st h; exact h
  | cons l rest ih =>
    intro st h
    exact ih (wf_model_load_line ext l.1 l.2 h)

theorem wf_reached (ext : Ext F) (model : TModel F) (pre : List (Nat × List Char)) :
    (reached ext model pre).wf :=
  wf_model_load_lines ext pre (wf_load_init ext model)

theorem model_load_lines_append (ext : Ext F) (a b : List (Nat × List Char)) :
    ∀ st : LoadState F,
      model_load_lines ext (a ++ b) st = model_load_lines ext b (model_load_lines ext a st) := by
  induction a with
  | nil => intro st; rfl
  | cons l rest ih => intro st; exact ih _

/-- What a write through `item` leaves alone once an item exists. -/
theorem store_frame {st : LoadState F} (h : st.wf) (hpos : 0 < st.model.nitems)
    (f : TModelItem F → TModelItem F) {k : Nat} (hk : k ≤ (st.model.nitems - 1).toNat) :
    (st.store f).defl = st.defl ∧ (st.store f).model.item.take k = st.model.item.take k := by
  rcases h with ⟨h0, -⟩ | ⟨-, hp, -⟩
  · omega
  · rw [store_of_to_item hp]
    exact ⟨rfl, take_modify_of_le f _ hk⟩

/-- The pointer `item` reads the newest item once an item exists. -/
theorem load_eq_getLast (ext : Ext F) {st : LoadState F} (h : st.wf)
    (hpos : 0 < st.model.nitems) : st.model.items.getLast? = some (st.load ext) := by
  have hi := items_of_wf h hpos
  rcases h with ⟨h0, -⟩ | ⟨-, hp, hl⟩
  · omega
  · have hlen : (st.model.nitems - 1).toNat = st.model.item.length - 1 := by omega
    have hlt : st.model.item.length - 1 < st.model.item.length := by omega
    rw [hi, LoadState.load, hp, hlen, List.getLast?_eq_getElem?]
    simp only [List.getD_eq_getElem?_getD, List.getElem?_eq_getElem hlt, Option.getD_some]

/-- A write through `item` is seen by the next read through `item`. -/
theorem load_store (ext : Ext F) {st : LoadState F} (h : st.wf)
    (f : TModelItem F → TModelItem F) : (st.store f).load ext = f (st.load ext) := by
  rcases h with ⟨-, hp⟩ | ⟨hpos, hp, hl⟩
  · rw [store_of_to_def hp]
    simp [LoadState.load, hp]
  · have hlt : (st.model.nitems - 1).toNat < st.model.item.length := by omega
    rw [store_of_to_item hp]
    simp only [LoadState.load, hp, List.getD_eq_getElem?_getD, List.getElem?_modify_eq,
      List.getElem?_eq_getElem hlt, Option.map_some', Option.getD_some]
    rfl

/-- One line, once an item exists: the state stays well formed, the count
does not decrease, `def` and the items before the newest one are unchanged. -/
theorem line_frame (ext : Ext F) (linenr : Nat) (buffer : List Char) {st : LoadState F}
    (h : st.wf) (hpos : 0 < st.model.nitems) :
    (model_load_line ext linenr buffer st).wf ∧
      st.model.nitems ≤ (model_load_line ext linenr buffer st).model.nitems ∧
      (model_load_line ext linenr buffer st).defl = st.defl ∧
      (model_load_line ext linenr buffer st).model.item.take (st.model.nitems - 1).toNat =
        st.model.item.take (st.model.nitems - 1).toNat := by
  refine model_load_line_closed ext
    (fun s => s.wf ∧ st.model.nitems ≤ s.model.nitems ∧ s.defl = st.defl ∧
      s.model.item.take (st.model.nitems - 1).toNat
        = st.model.item.take (st.model.nitems - 1).toNat)
    ?_ ?_ ?_ ?_ linenr buffer st ⟨h, le_refl _, rfl, rfl⟩
  · intro s d hs
    exact hs
  · intro s f ⟨hw, hn, hd, ht⟩
    have hfr := store_frame hw (by omega : 0 < s.model.nitems) f
      (by omega : (st.model.nitems - 1).toNat ≤ (s.model.nitems - 1).toNat)
    exact ⟨wf_store hw f, by simpa using hn, hfr.1.trans hd, hfr.2.trans ht⟩
  · intro s v hs
    exact hs
  · intro s ty ⟨hw, hn, hd, ht⟩
    have hi := items_of_wf hw (by omega : 0 < s.model.nitems)
    have hl : (s.model.item.length : Int) = s.model.nitems := by
      rcases hw with ⟨h0, -⟩ | ⟨-, -, hl⟩
      · omega
      · exact hl
    refine ⟨wf_start_item ext ty hw, ?_, ?_, ?_⟩
    · rw [start_item_eq ext ty hw]
      show st.model.nitems ≤ s.model.nitems + 1
      omega
    · rw [start_item_eq ext ty hw]
      exact hd
    · rw [start_item_eq ext ty hw]
      show (s.model.items ++ _).take _ = _
      rw [hi, List.take_append_of_le_length (by omega)]
      exact ht

/-- Several lines, once an item exists. -/
theorem lines_frame (ext : Ext F) (ls : List (Nat × List Char)) :
    ∀ {st : LoadState F}, st.wf → 0 < st.model.nitems →
      (model_load_lines ext ls st).wf ∧
      st.model.nitems ≤ (model_load_lines ext ls st).model.nitems ∧
      (model_load_lines ext ls st).defl = st.defl ∧
      (model_load_lines ext ls st).model.item.take (st.model.nitems - 1).toNat =
        st.model.item.take (st.model.nitems - 1).toNat := by
  induction ls with
  | nil => intro st h _; exact ⟨h, le_refl _, rfl, rfl⟩
  | cons l rest ih =>
    intro st h hpos
    obtain ⟨hw1, hn1, hd1, ht1⟩ := line_frame ext l.1 l.2 h hpos
    obtain ⟨hw2, hn2, hd2, ht2⟩ := ih hw1 (by omega)
    refine ⟨hw2, le_trans hn1 hn2, hd2.trans hd1, ?_⟩
    have := congrArg (List.take (st.model.nitems - 1).toNat) ht2
    rw [List.take_take, List.take_take, min_eq_left (by omega)] at this
    exact this.trans ht1

end Loop

/-! ## One-number settings -/

section Settings

variable {F : Type} [Zero F] [One F] [NatCast F] [Add F] [Sub F] [Mul F] [Div F]

set_option linter.unusedSectionVars false

theorem GET_VALUE_eq (ext : Ext F) (arg : List Char) (fld : Dest F) (e : Diag)
    (st : LoadState F) (op : NUM_OP) (v : F) (hop : str_to_num ext arg st.val = (op, v)) :
    GET_VALUE ext arg fld e st =
      match resolve op (fld.get st.defl) v with
      | some x => LoadState.store { st with val := v } (fld.set x)
      | none => LoadState.print { st with val := v } e := by
  unfold GET_VALUE
  simp only [hop]
  cases op <;> rfl

theorem get_set_of_mem {name : List Char} {fld : Dest F}
    (hm : (name, fld) ∈ number_settings F) (x : F) (it : TModelItem F) :
    fld.get (fld.set x it) = x := by
  simp only [number_settings, List.mem_cons, List.mem_singleton, Prod.mk.injEq,
    List.not_mem_nil, or_false] at hm
  rcases hm with ⟨-, rfl⟩ | ⟨-, rfl⟩ | ⟨-, rfl⟩ | ⟨-, rfl⟩ | ⟨-, rfl⟩ <;> rfl

/-- A line that is a one-number setting with exactly one argument token runs
`GET_VALUE` on that token. -/
theorem line_one_number (ext : Ext F) (linenr : Nat) (buffer w tok name : List Char)
    (fld : Dest F) (st : LoadState F)
    (hname : is_name_line buffer = false)
    (hm : (name, fld) ∈ number_settings F)
    (hs : selects w name)
    (hargs : split_args buffer DELIMS = [w, tok]) :
    model_load_line ext linenr buffer st =
      GET_VALUE ext tok fld (Diag.usage linenr name) st := by
  unfold is_name_line at hname
  unfold model_load_line
  rw [hname, hargs, switch_one_number ext linenr [w, tok] st name fld hm hs]
  simp [one_number]

end Settings

/-! ## Item starts -/

section Starts

variable {F : Type} [Zero F] [One F] [NatCast F] [Add F] [Sub F] [Mul F] [Div F]

set_option linter.unusedSectionVars false

theorem items_length_of_wf {st : LoadState F} (h : st.wf) :
    st.model.items.length = st.model.nitems.toNat := by
  rcases h with ⟨h0, hp⟩ | ⟨hpos, hp, hl⟩
  · rw [items_of_zero h0, h0]; rfl
  · rw [items_of_wf (Or.inr ⟨hpos, hp, hl⟩) hpos]; omega

/-- The state after an item start, field by field. -/
theorem start_item_fields (ext : Ext F) (ty : DrawType) {st : LoadState F} (h : st.wf) :
    (start_item ext ty st).model.nitems = st.model.nitems + 1 ∧
      (start_item ext ty st).model.items = st.model.items ++ [{ st.defl with type := some ty }] ∧
      (start_item ext ty st).item = ItemPtr.to_item st.model.nitems.toNat ∧
      (start_item ext ty st).load ext = { st.defl with type := some ty } ∧
      (start_item ext ty st).defl = st.defl ∧
      (start_item ext ty st).out = st.out ∧
      (start_item ext ty st).val = st.val := by
  have hlen := items_length_of_wf h
  have hnn : 0 ≤ st.model.nitems := by
    rcases h with ⟨h0, -⟩ | ⟨hpos, -, -⟩ <;> omega
  rw [start_item_eq ext ty h]
  refine ⟨rfl, ?_, rfl, ?_, rfl, rfl, rfl⟩
  · show (st.model.items ++ _).take (st.model.nitems + 1).toNat = _
    apply List.take_of_length_le
    simp only [List.length_append, List.length_singleton, hlen]
    omega
  · show (st.model.items ++ _).getD st.model.nitems.toNat ext.fresh = _
    rw [← hlen, List.getD_eq_getElem?_getD, List.getElem?_append_right (le_refl _)]
    simp

/-- A line whose command word selects an item start runs that item start. -/
theorem line_item_start (ext : Ext F) (linenr : Nat) (buffer name : List Char)
    (ty : DrawType) (st : LoadState F)
    (hname : is_name_line buffer = false)
    (hm : (name, ty) ∈ item_starts)
    (hs : selects (command_word buffer) name) :
    model_load_line ext linenr buffer st = start_item ext ty st := by
  unfold is_name_line at hname
  unfold model_load_line
  rw [hname]
  exact switch_item_start ext linenr _ st name ty hm hs

/-- A line whose command word is a setting word keeps what printing, writes
through `item` and assignments to `val` keep. -/
theorem model_load_line_closed_setting (ext : Ext F) (P : LoadState F → Prop)
    (hprint : ∀ st d, P st → P (st.print d))
    (hstore : ∀ st f, P st → P (st.store f))
    (hval : ∀ (st : LoadState F) v, P st → P { st with val := v })
    (linenr : Nat) (buffer : List Char) (hw : is_setting_word (command_word buffer))
    (st : LoadState F) (h : P st) :
    P (model_load_line ext linenr buffer st) := by
  unfold model_load_line
  split
  · exact hprint _ _ h
  · exact model_load_switch_closed_setting ext P hprint hstore hval linenr _ hw st h

end Starts

/-! ## Lines that start with an accepted word -/

section Words

variable {F : Type} [Zero F] [One F] [NatCast F] [Add F] [Sub F] [Mul F] [Div F]

set_option linter.unusedSectionVars false

theorem no_delims_of_selects {w name : List Char} (hm : name ∈ command_names)
    (hs : selects w name) : ∀ c ∈ w, c ∉ DELIMS := by
  have hname : ∀ c ∈ name, c ∉ DELIMS := by
    simp only [command_names, List.mem_cons, List.mem_singleton, List.not_mem_nil,
      or_false] at hm
    rcases hm with rfl | rfl | rfl | rfl | rfl | rfl | rfl | rfl | rfl | rfl | rfl | rfl <;>
      decide
  intro c hc
  exact hname c (hs.2.1.subset hc)

theorem not_name_line_of_selects {w name rest : List Char} (hm : name ∈ command_names)
    (hs : selects w name) (hrest : is_line_rest rest) :
    is_name_line (w ++ rest) = false := by
  obtain ⟨hne, ⟨t, ht⟩, -, -⟩ := hs
  unfold is_name_line
  cases w with
  | nil => exact absurd rfl hne
  | cons c a =>
    simp only [command_names, List.mem_cons, List.mem_singleton, List.not_mem_nil,
      or_false] at hm
    rcases hm with rfl | rfl | rfl | rfl | rfl | rfl | rfl | rfl | rfl | rfl | rfl | rfl
    case inr.inr.inr.inr.inr.inr.inr.inr.inr.inl =>
      simp only [String.toList, List.cons_append, List.cons.injEq] at ht
      obtain ⟨rfl, ht⟩ := ht
      cases a with
      | nil =>
        cases rest with
        | nil => simp [strncmp_eq]
        | cons d u =>
          have hd : d ∈ DELIMS := hrest d (by simp)
          have hdA : d ≠ 'A' := by
            intro h; subst h; revert hd; decide
          simp [strncmp_eq, hdA]
      | cons b a =>
        simp only [List.cons_append, List.cons.injEq] at ht
        obtain ⟨rfl, -⟩ := ht
        simp [strncmp_eq]
    all_goals
      simp only [String.toList, List.cons_append, List.cons.injEq] at ht
      obtain ⟨rfl, -⟩ := ht
      simp [strncmp_eq]

/-- A line that starts with a word selecting `name` has the effect of the
same line with `name` written in full. -/
theorem line_of_selects (ext : Ext F) (linenr : Nat) (w name rest : List Char)
    (st : LoadState F) (hm : name ∈ command_names) (hs : selects w name)
    (hrest : is_line_rest rest) :
    model_load_line ext linenr (w ++ rest) st = model_load_line ext linenr (name ++ rest) st := by
  have hself := selects_self hm
  have hn1 := not_name_line_of_selects hm hs hrest
  have hn2 := not_name_line_of_selects hm hself hrest
  unfold is_name_line at hn1 hn2
  obtain ⟨targs, htargs⟩ := split_args_word rest hrest
  unfold model_load_line
  rw [hn1, hn2, htargs w hs.1 (no_delims_of_selects hm hs),
    htargs name hself.1 (no_delims_of_selects hm hself)]
  exact switch_of_selects ext linenr w name targs st hm hs

end Words

/-! ## Further facts used by the claims -/

section Further

variable {F : Type} [Zero F] [One F] [NatCast F] [Add F] [Sub F] [Mul F] [Div F]

set_option linter.unusedSectionVars false

/-- A line that starts with a word selecting a one-number setting runs
`one_number` for that setting. -/
theorem line_one_number_word (ext : Ext F) (linenr : Nat) (w name rest : List Char)
    (fld : Dest F) (st : LoadState F) (hm : (name, fld) ∈ number_settings F)
    (hn : name ∈ command_names) (hs : selects w name) (hrest : is_line_rest rest) :
    ∃ targs : List (List Char),
      model_load_line ext linenr (w ++ rest) st =
        one_number ext linenr name (w :: targs) fld st := by
  have hn1 := not_name_line_of_selects hn hs hrest
  unfold is_name_line at hn1
  obtain ⟨targs, htargs⟩ := split_args_word rest hrest
  refine ⟨targs, ?_⟩
  unfold model_load_line
  rw [hn1, htargs w hs.1 (no_delims_of_selects hn hs)]
  exact switch_one_number ext linenr (w :: targs) st name fld hm hs

/-- What `MINOR` leaves alone: the major radius of the target of `item` and
of `def`; it prints nothing but its own usage message. -/
theorem one_number_minor_frame (ext : Ext F) (linenr : Nat) (name : List Char)
    (args : List (List Char)) {st : LoadState F} (hwf : st.wf) :
    ((one_number ext linenr name args Dest.minor_radius st).load ext).major_radius =
        (st.load ext).major_radius ∧
      (one_number ext linenr name args Dest.minor_radius st).defl.major_radius =
        st.defl.major_radius ∧
      ((one_number ext linenr name args Dest.minor_radius st).out = st.out ∨
        (one_number ext linenr name args Dest.minor_radius st).out =
          st.out ++ [Diag.usage linenr name]) := by
  unfold one_number
  split
  · exact ⟨rfl, rfl, Or.inr rfl⟩
  · rw [GET_VALUE_eq ext _ Dest.minor_radius _ st (str_to_num ext (args.getD 1 []) st.val).1
      (str_to_num ext (args.getD 1 []) st.val).2 rfl]
    cases resolve (str_to_num ext (args.getD 1 []) st.val).1 (Dest.minor_radius.get st.defl)
      (str_to_num ext (args.getD 1 []) st.val).2 with
    | none => exact ⟨rfl, rfl, Or.inr rfl⟩
    | some x =>
      simp only
      refine ⟨?_, ?_, Or.inl (by simp)⟩
      · rw [load_store ext (wf_val hwf _)]
        rfl
      · unfold LoadState.store
        split <;> rfl

/-- The first character of the command word is the first character of the
line. -/
theorem next_str_scan_length_le (delims s : List Char) :
    (next_str_scan delims s).length ≤ s.length := by
  induction s with
  | nil => simp [next_str_scan]
  | cons c t ih =>
    unfold next_str_scan
    split
    · exact le_refl _
    · exact Nat.le_succ_of_le ih

theorem char_at_command_word (buffer : List Char) :
    char_at (command_word buffer) 0 = char_at buffer 0 := by
  cases buffer with
  | nil => rfl
  | cons c t =>
    have hle := next_str_scan_length_le DELIMS t
    unfold command_word split_args MAX_ARGS
    simp only [Nat.reduceSub, split_args_loop, next_str]
    split
    · rfl
    · rename_i d u hd
      have hlen : (d :: u).length ≤ t.length := by rw [← hd]; exact hle
      have hpos : (c :: t).length - (d :: u).length = (t.length - (d :: u).length) + 1 := by
        simp only [List.length_cons] at hlen ⊢
        omega
      simp only [hpos, List.take_succ_cons]
      split <;> rfl

end Further

/-! ## Settings with several values -/

section Values

variable {F : Type} [Zero F] [One F] [NatCast F] [Add F] [Sub F] [Mul F] [Div F]

set_option linter.unusedSectionVars false

theorem RANGE_VALUE_eq (ext : Ext F) (arg : List Char) (fld : Dest F) (e : Diag)
    (st : LoadState F) (op : NUM_OP) (v : F) (hop : str_to_num ext arg st.val = (op, v)) :
    RANGE_VALUE ext arg fld e st =
      match resolve_range ext.PI op (fld.get st.defl) v with
      | some x => LoadState.store { st with val := v } (fld.set x)
      | none => LoadState.print { st with val := v } e := by
  unfold RANGE_VALUE
  simp only [hop]
  cases op <;> rfl

/-- A line that does not start with `NAME` goes through `split_args` and the
`switch`. -/
theorem line_switch (ext : Ext F) (linenr : Nat) (buffer : List Char) (st : LoadState F)
    (hname : is_name_line buffer = false) :
    model_load_line ext linenr buffer st =
      model_load_switch ext linenr (split_args buffer DELIMS) st := by
  unfold is_name_line at hname
  unfold model_load_line
  rw [hname]
  rfl

/-- A write through `item` changes, in `def`, nothing that the written
function leaves alone. -/
theorem store_defl_get {α : Type} (st : LoadState F) (f : TModelItem F → TModelItem F)
    (g : TModelItem F → α) (hg : ∀ it, g (f it) = g it) :
    g (st.store f).defl = g st.defl := by
  unfold LoadState.store
  split
  · exact hg _
  · rfl

/-- One step "assign the resolved value or print": the state stays well
formed, `val` is the magnitude read, the target of `item` changes in the one
field (or not at all), and `def` keeps what that field's setter leaves
alone. -/
theorem value_step (ext : Ext F) {st : LoadState F} (hwf : st.wf) (fld : Dest F) (e : Diag)
    (v : F) (r : Option F) :
    (match r with
      | some x => LoadState.store { st with val := v } (fld.set x)
      | none => LoadState.print { st with val := v } e).wf ∧
    (match r with
      | some x => LoadState.store { st with val := v } (fld.set x)
      | none => LoadState.print { st with val := v } e).val = v ∧
    (match r with
      | some x => LoadState.store { st with val := v } (fld.set x)
      | none => LoadState.print { st with val := v } e).load ext =
      (match r with
        | some x => fld.set x (st.load ext)
        | none => st.load ext) ∧
    (∀ (α : Type) (g : TModelItem F → α), (∀ x it, g (fld.set x it) = g it) →
      g (match r with
        | some x => LoadState.store { st with val := v } (fld.set x)
        | none => LoadState.print { st with val := v } e).defl = g st.defl) := by
  cases r with
  | none => exact ⟨hwf, rfl, rfl, fun _ _ _ => rfl⟩
  | some x =>
    refine ⟨wf_store (wf_val hwf v) _, by simp, ?_, ?_⟩
    · simp only
      rw [load_store ext (wf_val hwf v)]
      rfl
    · intro α g hg
      exact store_defl_get _ _ g (hg x)

/-- A `RANGE` line with exactly two argument tokens runs the two `switch(op)`
blocks, first for `phi0`, then for `phi1`. -/
theorem line_range (ext : Ext F) (linenr : Nat) (buffer w t0 t1 : List Char)
    (st : LoadState F) (hname : is_name_line buffer = false)
    (hs : selects w "RANGE".toList) (hargs : split_args buffer DELIMS = [w, t0, t1]) :
    model_load_line ext linenr buffer st =
      RANGE_VALUE ext t1 Dest.phi1 (Diag.usage linenr "RANGE".toList)
        (RANGE_VALUE ext t0 Dest.phi0 (Diag.usage linenr "RANGE".toList) st) := by
  have h0 : char_at w 0 = 'R' := char_at_zero_of_selects hs
  have hc := check_setting_of_selects hs
  rw [line_switch ext linenr buffer st hname, hargs]
  unfold model_load_switch
  simp only [List.headD_cons, h0, hc]
  simp

/-- In exact arithmetic (a field of characteristic zero) the degree
conversion sends 0 to 0 and 180 to `PI`. -/
theorem range_degrees_exact {K : Type} [Field K] [CharZero K] (x : K) :
    (0 : K) * x / 180 = 0 ∧ (180 : K) * x / 180 = x := by
  constructor
  · simp
  · field_simp

/-- A write through `item` that leaves the record it reaches as it is leaves
the whole state as it is. -/
theorem store_eq_self (ext : Ext F) {st : LoadState F} (hwf : st.wf)
    (f : TModelItem F → TModelItem F) (hf : f (st.load ext) = st.load ext) :
    st.store f = st := by
  rcases hwf with ⟨-, hp⟩ | ⟨hpos, hp, hl⟩
  · rw [store_of_to_def hp]
    have : f st.defl = st.defl := by simpa [LoadState.load, hp] using hf
    rw [this]
  · have hlt : (st.model.nitems - 1).toNat < st.model.item.length := by omega
    have hm : st.model.item.modify f (st.model.nitems - 1).toNat = st.model.item := by
      apply modify_fix
      intro x hx
      have hload : st.load ext = x := by
        simp only [LoadState.load, hp, List.getD_eq_getElem?_getD, hx, Option.getD_some]
      rw [← hload]
      exact hf
    rw [store_of_to_item hp, hm]

/-- What `find_color` returns, name by name. -/
theorem find_color_cases (name : List Char) (color : TColor F) :
    (name = "WHITE".toList ∧
        find_color name color = (0, { color with r := 1, g := 1, b := 1 })) ∨
      (name = "BLACK".toList ∧
        find_color name color = (0, { color with r := 0, g := 0, b := 0 })) ∨
      (name = "RED".toList ∧
        find_color name color = (0, { color with r := 1, g := 0, b := 0 })) ∨
      (name = "GREEN".toList ∧
        find_color name color = (0, { color with r := 0, g := 1, b := 0 })) ∨
      (name = "BLUE".toList ∧
        find_color name color = (0, { color with r := 0, g := 0, b := 1 })) ∨
      (name ∉ color_names ∧ find_color name color = (1, color)) := by
  by_cases h1 : name = "WHITE".toList
  · exact Or.inl ⟨h1, by subst h1; rfl⟩
  by_cases h2 : name = "BLACK".toList
  · exact Or.inr (Or.inl ⟨h2, by subst h2; rfl⟩)
  by_cases h3 : name = "RED".toList
  · exact Or.inr (Or.inr (Or.inl ⟨h3, by subst h3; rfl⟩))
  by_cases h4 : name = "GREEN".toList
  · exact Or.inr (Or.inr (Or.inr (Or.inl ⟨h4, by subst h4; rfl⟩)))
  by_cases h5 : name = "BLUE".toList
  · exact Or.inr (Or.inr (Or.inr (Or.inr (Or.inl ⟨h5, by subst h5; rfl⟩))))
  · refine Or.inr (Or.inr (Or.inr (Or.inr (Or.inr ⟨?_, ?_⟩))))
    · simp only [color_names, List.mem_cons, List.mem_singleton, List.not_mem_nil, or_false]
      tauto
    · simp only [find_color, color_table, find_color_loop, h1, h2, h3, h4, h5, ↓reduceIte]

/-- A `COLOR` line with exactly one argument token looks the name up. -/
theorem line_color_name (ext : Ext F) (linenr : Nat) (buffer w nm : List Char)
    (st : LoadState F) (hname : is_name_line buffer = false)
    (hs : selects w "COLOR".toList) (hargs : split_args buffer DELIMS = [w, nm]) :
    model_load_line ext linenr buffer st =
      if (find_color nm (st.load ext).color).1 ≠ 0 then
        (st.store (fun it => { it with color := (find_color nm (st.load ext).color).2 })).print
          (Diag.color_not_known linenr nm)
      else st.store (fun it => { it with color := (find_color nm (st.load ext).color).2 }) := by
  have h0 : char_at w 0 = 'C' := char_at_zero_of_selects hs
  have hc := check_setting_of_selects hs
  rw [line_switch ext linenr buffer st hname, hargs]
  unfold model_load_switch
  simp only [List.headD_cons, h0, hc]
  simp

/-- A `COLOR` line with exactly three argument tokens runs `GET_VALUE` for the
three channels in turn. -/
theorem line_color_triple (ext : Ext F) (linenr : Nat) (buffer w t1 t2 t3 : List Char)
    (st : LoadState F) (hname : is_name_line buffer = false)
    (hs : selects w "COLOR".toList) (hargs : split_args buffer DELIMS = [w, t1, t2, t3]) :
    model_load_line ext linenr buffer st =
      GET_VALUE ext t3 Dest.b (Diag.usage linenr "COLOR".toList)
        (GET_VALUE ext t2 Dest.g (Diag.usage linenr "COLOR".toList)
          (GET_VALUE ext t1 Dest.r (Diag.usage linenr "COLOR".toList) st)) := by
  have h0 : char_at w 0 = 'C' := char_at_zero_of_selects hs
  have hc := check_setting_of_selects hs
  rw [line_switch ext linenr buffer st hname, hargs]
  unfold model_load_switch
  simp only [List.headD_cons, h0, hc]
  simp

/-- A `PITCH` line with exactly two argument tokens runs the two `sscanf`
calls, the second only when the first has read a number. -/
theorem line_pitch (ext : Ext F) (linenr : Nat) (buffer w a b : List Char)
    (st : LoadState F) (hname : is_name_line buffer = false)
    (hs : selects w "PITCH".toList) (hargs : split_args buffer DELIMS = [w, a, b]) :
    model_load_line ext linenr buffer st =
      match ext.sscanf_d a with
      | none => st.print (Diag.usage linenr "PITCH".toList)
      | some m =>
        match ext.sscanf_d b with
        | none => (st.store (fun it => { it with m := m })).print
            (Diag.usage linenr "PITCH".toList)
        | some k => (st.store (fun it => { it with m := m })).store
            (fun it => { it with n := k }) := by
  have h0 : char_at w 0 = 'P' := char_at_zero_of_selects hs
  have hc := check_setting_of_selects hs
  have h1 : char_at w 1 ≠ 'L' := by
    rcases char_at_one_of_initial hs.2.1 with h | h <;> rw [h] <;> decide
  rw [line_switch ext linenr buffer st hname, hargs]
  unfold model_load_switch
  simp only [List.headD_cons, h0, hc, h1]
  simp

/-- A `NUMBER` line with exactly one argument token runs one `sscanf`. -/
theorem line_number (ext : Ext F) (linenr : Nat) (buffer w t : List Char)
    (st : LoadState F) (hname : is_name_line buffer = false)
    (hs : selects w "NUMBER".toList) (hargs : split_args buffer DELIMS = [w, t]) :
    model_load_line ext linenr buffer st =
      match ext.sscanf_d t with
      | none => st.print (Diag.usage linenr "NUMBER".toList)
      | some k => st.store (fun it => { it with number := k }) := by
  have h0 : char_at w 0 = 'N' := char_at_zero_of_selects hs
  have hc := check_setting_of_selects hs
  rw [line_switch ext linenr buffer st hname, hargs]
  unfold model_load_switch
  simp only [List.headD_cons, h0, hc]
  simp

/-- A line whose tokens start with a word selecting a setting keeps the count
and the pointer `item`. -/
theorem line_keeps_count (ext : Ext F) (linenr : Nat) (buffer w name : List Char)
    (targs : List (List Char)) (st : LoadState F)
    (hn : name ∈ ["ALPHA".toList, "COLOR".toList, "ELONGATION".toList, "MAJOR".toList,
      "MINOR".toList, "NUMBER".toList, "RANGE".toList, "TRIANGULARITY".toList,
      "PITCH".toList])
    (hs : selects w name) (hargs : split_args buffer DELIMS = w :: targs) :
    (model_load_line ext linenr buffer st).model.nitems = st.model.nitems ∧
      (model_load_line ext linenr buffer st).item = st.item := by
  have hw : is_setting_word (command_word buffer) := by
    have h0 := char_at_zero_of_selects hs
    have h1 := char_at_one_of_initial hs.2.1
    unfold command_word
    rw [hargs]
    simp only [List.headD_cons]
    simp only [List.mem_cons, List.mem_singleton, List.not_mem_nil, or_false] at hn
    rcases hn with rfl | rfl | rfl | rfl | rfl | rfl | rfl | rfl | rfl
    case inr.inr.inr.inr.inr.inr.inr.inr =>
      refine Or.inr ⟨h0, ?_⟩
      rcases h1 with h | h <;> rw [h] <;> decide
    all_goals
      refine Or.inl ?_
      rw [h0]
      decide
  exact model_load_line_closed_setting ext
    (fun s => s.model.nitems = st.model.nitems ∧ s.item = st.item)
    (fun _ _ h => h) (fun s f h => by simpa using h) (fun _ _ h => h)
    linenr buffer hw st ⟨rfl, rfl⟩

/-- One `GET_VALUE`: the state stays well formed, `val` is the magnitude read,
the target of `item` changes in the one field (or not at all), and `def`
keeps what that field's setter leaves alone. -/
theorem get_value_step (ext : Ext F) {st : LoadState F} (hwf : st.wf) (arg : List Char)
    (fld : Dest F) (e : Diag) (op : NUM_OP) (v : F)
    (hop : str_to_num ext arg st.val = (op, v)) :
    (GET_VALUE ext arg fld e st).wf ∧
      (GET_VALUE ext arg fld e st).val = v ∧
      (GET_VALUE ext arg fld e st).load ext =
        (match resolve op (fld.get st.defl) v with
          | some x => fld.set x (st.load ext)
          | none => st.load ext) ∧
      (∀ (α : Type) (g : TModelItem F → α), (∀ x it, g (fld.set x it) = g it) →
        g (GET_VALUE ext arg fld e st).defl = g st.defl) := by
  rw [GET_VALUE_eq ext arg fld e st op v hop]
  exact value_step ext hwf fld e v _

end Values

/-! ## Two runs of the loop side by side -/

section Rel

variable {F : Type} [Zero F] [One F] [NatCast F] [Add F] [Sub F] [Mul F] [Div F]

set_option linter.unusedSectionVars false

theorem GET_VALUE_rel (ext : Ext F) (R : LoadState F → LoadState F → Prop)
    (hread : ∀ s s', R s s' → s.val = s'.val ∧ s.defl = s'.defl ∧ s.load ext = s'.load ext)
    (hprint : ∀ s s' d, R s s' → R (s.print d) (s'.print d))
    (hstore : ∀ s s' f, R s s' → R (s.store f) (s'.store f))
    (hval : ∀ (s s' : LoadState F) v, R s s' → R { s with val := v } { s' with val := v })
    (arg : List Char) (fld : Dest F) (e : Diag) (s s' : LoadState F) (h : R s s') :
    R (GET_VALUE ext arg fld e s) (GET_VALUE ext arg fld e s') := by
  obtain ⟨hv, hd, -⟩ := hread s s' h
  have e1 : str_to_num ext arg s'.val = str_to_num ext arg s.val := by rw [hv]
  have e2 : fld.get s'.defl = fld.get s.defl := by rw [hd]
  unfold GET_VALUE
  simp only [e1, e2]
  split <;> first | exact hstore _ _ _ (hval _ _ _ h) | exact hprint _ _ _ (hval _ _ _ h)

theorem RANGE_VALUE_rel (ext : Ext F) (R : LoadState F → LoadState F → Prop)
    (hread : ∀ s s', R s s' → s.val = s'.val ∧ s.defl = s'.defl ∧ s.load ext = s'.load ext)
    (hprint : ∀ s s' d, R s s' → R (s.print d) (s'.print d))
    (hstore : ∀ s s' f, R s s' → R (s.store f) (s'.store f))
    (hval : ∀ (s s' : LoadState F) v, R s s' → R { s with val := v } { s' with val := v })
    (arg : List Char) (fld : Dest F) (e : Diag) (s s' : LoadState F) (h : R s s') :
    R (RANGE_VALUE ext arg fld e s) (RANGE_VALUE ext arg fld e s') := by
  obtain ⟨hv, hd, -⟩ := hread s s' h
  have e1 : str_to_num ext arg s'.val = str_to_num ext arg s.val := by rw [hv]
  have e2 : fld.get s'.defl = fld.get s.defl := by rw [hd]
  unfold RANGE_VALUE
  simp only [e1, e2]
  split <;> first | exact hstore _ _ _ (hval _ _ _ h) | exact hprint _ _ _ (hval _ _ _ h)

theorem one_number_rel (ext : Ext F) (R : LoadState F → LoadState F → Prop)
    (hread : ∀ s s', R s s' → s.val = s'.val ∧ s.defl = s'.defl ∧ s.load ext = s'.load ext)
    (hprint : ∀ s s' d, R s s' → R (s.print d) (s'.print d))
    (hstore : ∀ s s' f, R s s' → R (s.store f) (s'.store f))
    (hval : ∀ (s s' : LoadState F) v, R s s' → R { s with val := v } { s' with val := v })
    (linenr : Nat) (name : List Char) (args : List (List Char)) (fld : Dest F)
    (s s' : LoadState F) (h : R s s') :
    R (one_number ext linenr name args fld s) (one_number ext linenr name args fld s') := by
  unfold one_number
  split
  · exact hprint _ _ _ h
  · exact GET_VALUE_rel ext R hread hprint hstore hval _ _ _ _ _ h

/-- A relation between two loop states that makes them read alike and is kept
by the primitive steps done on both sides is kept by the `switch`. -/
theorem model_load_switch_rel (ext : Ext F) (R : LoadState F → LoadState F → Prop)
    (hread : ∀ s s', R s s' → s.val = s'.val ∧ s.defl = s'.defl ∧ s.load ext = s'.load ext)
    (hprint : ∀ s s' d, R s s' → R (s.print d) (s'.print d))
    (hstore : ∀ s s' f, R s s' → R (s.store f) (s'.store f))
    (hval : ∀ (s s' : LoadState F) v, R s s' → R { s with val := v } { s' with val := v })
    (hstart : ∀ s s' ty, R s s' → R (start_item ext ty s) (start_item ext ty s'))
    (linenr : Nat) (args : List (List Char)) (s s' : LoadState F) (h : R s s') :
    R (model_load_switch ext linenr args s) (model_load_switch ext linenr args s') := by
  have hg := GET_VALUE_rel ext R hread hprint hstore hval
  have hr := RANGE_VALUE_rel ext R hread hprint hstore hval
  have ho := one_number_rel ext R hread hprint hstore hval
  obtain ⟨-, -, hl⟩ := hread s s' h
  have e3 : ∀ nm, find_color nm (s'.load ext).color = find_color nm (s.load ext).color := by
    intro nm; rw [hl]
  unfold model_load_switch
  simp only [e3]
  split
  all_goals (repeat' split)
  all_goals first
    | exact hprint _ _ _ h
    | exact hstart _ _ _ h
    | exact ho _ _ _ _ _ _ h
    | exact hstore _ _ _ h
    | exact hstore _ _ _ (hstore _ _ _ h)
    | exact hprint _ _ _ (hstore _ _ _ h)
    | exact hg _ _ _ _ _ (hg _ _ _ _ _ (hg _ _ _ _ _ h))
    | exact hr _ _ _ _ _ (hr _ _ _ _ _ h)

/-- The same for a whole line and for a list of lines. -/
theorem model_load_lines_rel (ext : Ext F) (R : LoadState F → LoadState F → Prop)
    (hread : ∀ s s', R s s' → s.val = s'.val ∧ s.defl = s'.defl ∧ s.load ext = s'.load ext)
    (hprint : ∀ s s' d, R s s' → R (s.print d) (s'.print d))
    (hstore : ∀ s s' f, R s s' → R (s.store f) (s'.store f))
    (hval : ∀ (s s' : LoadState F) v, R s s' → R { s with val := v } { s' with val := v })
    (hstart : ∀ s s' ty, R s s' → R (start_item ext ty s) (start_item ext ty s'))
    (ls : List (Nat × List Char)) :
    ∀ s s' : LoadState F, R s s' → R (model_load_lines ext ls s) (model_load_lines ext ls s') := by
  induction ls with
  | nil => intro s s' h; exact h
  | cons l rest ih =>
    intro s s' h
    apply ih
    unfold model_load_line
    split
    · exact hprint _ _ _ h
    · exact model_load_switch_rel ext R hread hprint hstore hval hstart _ _ _ _ h

/-- Two states that differ in what has been printed only keep doing so,
whatever lines are processed. -/
theorem lines_same_but_out (ext : Ext F) (ls : List (Nat × List Char)) (s s' : LoadState F)
    (h : s.model = s'.model ∧ s.defl = s'.defl ∧ s.item = s'.item ∧ s.val = s'.val) :
    (model_load_lines ext ls s).model = (model_load_lines ext ls s').model ∧
      (model_load_lines ext ls s).defl = (model_load_lines ext ls s').defl ∧
      (model_load_lines ext ls s).item = (model_load_lines ext ls s').item ∧
      (model_load_lines ext ls s).val = (model_load_lines ext ls s').val := by
  refine model_load_lines_rel ext
    (fun a b => a.model = b.model ∧ a.defl = b.defl ∧ a.item = b.item ∧ a.val = b.val)
    ?_ ?_ ?_ ?_ ?_ ls s s' h
  · intro a b ⟨hm, hd, hi, hv⟩
    exact ⟨hv, hd, by simp only [LoadState.load, hm, hd, hi]⟩
  · intro a b d hab
    exact hab
  · intro a b f ⟨hm, hd, hi, hv⟩
    simp only [LoadState.store, hm, hd, hi, hv]
    split <;> exact ⟨rfl, rfl, rfl, rfl⟩
  · intro a b v ⟨hm, hd, hi, _⟩
    exact ⟨hm, hd, hi, rfl⟩
  · intro a b ty ⟨hm, hd, hi, hv⟩
    refine ⟨?_, ?_, ?_, ?_⟩ <;> simp [start_item, LoadState.store, hm, hd, hv]

end Rel

/-! ## The items of the model, line by line -/

section Items

variable {F : Type} [Zero F] [One F] [NatCast F] [Add F] [Sub F] [Mul F] [Div F]

set_option linter.unusedSectionVars false

theorem selects_of_check {w name : List Char} {c : Char} (h0 : char_at w 0 = c)
    (hc0 : c ≠ Char.ofNat 0) (hck : CHECK_SETTING w name w.length = true)
    (hL : name = "PLANES".toList → char_at w 1 = 'L')
    (hA : name = "MAJOR".toList → char_at w 1 = 'A') : selects w name := by
  refine ⟨?_, (strncmp_eq_length_iff w name).1 hck, hL, hA⟩
  intro hw
  subst hw
  exact hc0 h0.symm

theorem bool_of_not_not {b : Bool} (h : ¬ (!b) = true) : b = true := by
  simpa using h

theorem GET_VALUE_closed_typed (ext : Ext F) (P : LoadState F → Prop)
    (hprint : ∀ st d, P st → P (st.print d))
    (hstore : ∀ st f, (∀ it, (f it).type = it.type) → P st → P (st.store f))
    (hval : ∀ (st : LoadState F) v, P st → P { st with val := v })
    (arg : List Char) (fld : Dest F) (hf : ∀ v it, (fld.set v it).type = it.type) (e : Diag)
    (st : LoadState F) (h : P st) :
    P (GET_VALUE ext arg fld e st) := by
  unfold GET_VALUE
  simp only
  split <;> first | exact hstore _ _ (hf _) (hval _ _ h) | exact hprint _ _ (hval _ _ h)

theorem RANGE_VALUE_closed_typed (ext : Ext F) (P : LoadState F → Prop)
    (hprint : ∀ st d, P st → P (st.print d))
    (hstore : ∀ st f, (∀ it, (f it).type = it.type) → P st → P (st.store f))
    (hval : ∀ (st : LoadState F) v, P st → P { st with val := v })
    (arg : List Char) (fld : Dest F) (hf : ∀ v it, (fld.set v it).type = it.type) (e : Diag)
    (st : LoadState F) (h : P st) :
    P (RANGE_VALUE ext arg fld e st) := by
  unfold RANGE_VALUE
  simp only
  split <;> first | exact hstore _ _ (hf _) (hval _ _ h) | exact hprint _ _ (hval _ _ h)

theorem one_number_closed_typed (ext : Ext F) (P : LoadState F → Prop)
    (hprint : ∀ st d, P st → P (st.print d))
    (hstore : ∀ st f, (∀ it, (f it).type = it.type) → P st → P (st.store f))
    (hval : ∀ (st : LoadState F) v, P st → P { st with val := v })
    (linenr : Nat) (name : List Char) (args : List (List Char)) (fld : Dest F)
    (hf : ∀ v it, (fld.set v it).type = it.type) (st : LoadState F) (h : P st) :
    P (one_number ext linenr name args fld st) := by
  unfold one_number
  split
  · exact hprint _ _ h
  · exact GET_VALUE_closed_typed ext P hprint hstore hval _ _ hf _ _ h

/-- The finer closure property of the `switch`: the writes through `item`
never touch the type tag, and an item start happens only for a command word
that selects SOLID, LINES or PLANES. -/
theorem model_load_switch_closed_typed (ext : Ext F) (P : LoadState F → Prop)
    (linenr : Nat) (args : List (List Char))
    (hprint : ∀ st d, P st → P (st.print d))
    (hstore : ∀ st f, (∀ it, (f it).type = it.type) → P st → P (st.store f))
    (hval : ∀ (st : LoadState F) v, P st → P { st with val := v })
    (hstart : ∀ st name ty, (name, ty) ∈ item_starts → selects (args.headD []) name →
      P st → P (start_item ext ty st))
    (st : LoadState F) (h : P st) :
    P (model_load_switch ext linenr args st) := by
  have hg := GET_VALUE_closed_typed ext P hprint hstore hval
  have hr := RANGE_VALUE_closed_typed ext P hprint hstore hval
  have ho := one_number_closed_typed ext P hprint hstore hval
  unfold model_load_switch
  simp only
  generalize hc : char_at (args.headD []) 0 = c
  split
  all_goals (repeat' split)
  all_goals first
    | exact hprint _ _ h
    | exact ho _ _ _ _ (fun _ _ => rfl) _ h
    | exact hstore _ _ (fun _ => rfl) h
    | exact hstore _ _ (fun _ => rfl) (hstore _ _ (fun _ => rfl) h)
    | exact hprint _ _ (hstore _ _ (fun _ => rfl) h)
    | exact hg _ _ (fun _ _ => rfl) _ _ (hg _ _ (fun _ _ => rfl) _ _
        (hg _ _ (fun _ _ => rfl) _ _ h))
    | exact hr _ _ (fun _ _ => rfl) _ _ (hr _ _ (fun _ _ => rfl) _ _ h)
    | exact hstart _ "SOLID".toList DRAW_SOLID (by simp [item_starts])
        (selects_of_check hc (by decide) (bool_of_not_not ‹¬ _›)
          (fun h => absurd h (by decide)) (fun h => absurd h (by decide))) h
    | exact hstart _ "LINES".toList DRAW_LINE (by simp [item_starts])
        (selects_of_check hc (by decide) (bool_of_not_not ‹¬ _›)
          (fun h => absurd h (by decide)) (fun h => absurd h (by decide))) h
    | exact hstart _ "PLANES".toList DRAW_PLANES (by simp [item_starts])
        (selects_of_check hc (by decide) (bool_of_not_not ‹¬ _›)
          (fun _ => ‹char_at _ 1 = 'L'›) (fun h => absurd h (by decide))) h

theorem map_type_modify (f : TModelItem F → TModelItem F) (hf : ∀ it, (f it).type = it.type)
    (l : List (TModelItem F)) (i : Nat) :
    (l.modify f i).map (fun it => it.type) = l.map (fun it => it.type) := by
  induction l generalizing i with
  | nil => simp
  | cons a l ih =>
    cases i with
    | zero => simp [hf a]
    | succ i => simp [ih i]

theorem store_items_types (st : LoadState F) (f : TModelItem F → TModelItem F)
    (hf : ∀ it, (f it).type = it.type) :
    (st.store f).model.items.map (fun it => it.type) =
      st.model.items.map (fun it => it.type) := by
  unfold LoadState.store
  split
  · rfl
  · simp only [TModel.items]
    rw [List.map_take, List.map_take, map_type_modify f hf]

theorem start_type_some {buffer : List Char} {ty : DrawType} (h : start_type buffer = some ty) :
    is_name_line buffer = false ∧
      ∃ name, (name, ty) ∈ item_starts ∧ selects (command_word buffer) name := by
  unfold start_type at h
  split at h
  · cases h
  · rename_i hn
    rw [Option.map_eq_some'] at h
    obtain ⟨p, hp, rfl⟩ := h
    refine ⟨by simpa using hn, p.1, List.mem_of_find?_eq_some hp, ?_⟩
    simpa using List.find?_some hp

theorem start_type_none {buffer : List Char} (h : start_type buffer = none)
    (hn : is_name_line buffer = false) (name : List Char) (ty : DrawType)
    (hm : (name, ty) ∈ item_starts) : ¬ selects (command_word buffer) name := by
  unfold start_type at h
  rw [hn] at h
  simp only [Bool.false_eq_true, ↓reduceIte, Option.map_eq_none', List.find?_eq_none] at h
  simpa using h (name, ty) hm

/-- The type tags of the items after one line: those before, followed by the
tag of the item the line starts, if it starts one. -/
theorem line_types (ext : Ext F) (linenr : Nat) (buffer : List Char) {st : LoadState F}
    (hwf : st.wf) :
    (model_load_line ext linenr buffer st).model.items.map (fun it => it.type) =
      st.model.items.map (fun it => it.type) ++
        (match start_type buffer with
          | none => []
          | some ty => [some ty]) := by
  cases hst : start_type buffer with
  | none =>
    simp only [List.append_nil]
    unfold model_load_line
    split
    · rfl
    · rename_i hn
      have hn' : is_name_line buffer = false := by
        unfold is_name_line
        simpa using hn
      refine model_load_switch_closed_typed ext
        (fun s => s.model.items.map (fun it => it.type) =
          st.model.items.map (fun it => it.type))
        linenr _ (fun _ _ h => h) (fun s f hf h => (store_items_types s f hf).trans h)
        (fun _ _ h => h) ?_ st rfl
      intro s name ty hm hs _
      exact absurd hs (start_type_none hst hn' name ty hm)
  | some ty =>
    obtain ⟨hn, name, hm, hs⟩ := start_type_some hst
    rw [line_item_start ext linenr buffer name ty st hn hm hs,
      (start_item_fields ext ty hwf).2.1]
    simp

/-- The type tags of the items after several lines. -/
theorem lines_types (ext : Ext F) (ls : List (Nat × List Char)) :
    ∀ {st : LoadState F}, st.wf →
      (model_load_lines ext ls st).model.items.map (fun it => it.type) =
        st.model.items.map (fun it => it.type) ++
          (ls.filterMap (fun l => start_type l.2)).map some := by
  induction ls with
  | nil => intro st _; simp [model_load_lines]
  | cons l rest ih =>
    intro st hwf
    show (model_load_lines ext rest (model_load_line ext l.1 l.2 st)).model.items.map _ = _
    rw [ih (wf_model_load_line ext l.1 l.2 hwf), line_types ext l.1 l.2 hwf]
    cases h : start_type l.2 <;> simp [List.filterMap_cons, h]

/-- Two runs that start from different prior models: once the count has been
reset they agree on everything but the slots beyond the count. -/
theorem lines_prior_model (ext : Ext F) (ls : List (Nat × List Char)) (s s' : LoadState F)
    (h : s.wf ∧ s'.wf ∧ s.defl = s'.defl ∧ s.item = s'.item ∧ s.val = s'.val ∧
      s.out = s'.out ∧ s.model.nitems = s'.model.nitems ∧
      (0 < s.model.nitems → s.model.item = s'.model.item)) :
    (model_load_lines ext ls s).model.nitems = (model_load_lines ext ls s').model.nitems ∧
      (model_load_lines ext ls s).model.items = (model_load_lines ext ls s').model.items := by
  have key := model_load_lines_rel ext
    (fun a b => a.wf ∧ b.wf ∧ a.defl = b.defl ∧ a.item = b.item ∧ a.val = b.val ∧
      a.out = b.out ∧ a.model.nitems = b.model.nitems ∧
      (0 < a.model.nitems → a.model.item = b.model.item))
    ?_ ?_ ?_ ?_ ?_ ls s s' h
  · obtain ⟨hwa, hwb, -, -, -, -, hn, harr⟩ := key
    refine ⟨hn, ?_⟩
    by_cases hpos : 0 < (model_load_lines ext ls s).model.nitems
    · unfold TModel.items
      rw [harr hpos, hn]
    · have h0 : (model_load_lines ext ls s).model.nitems = 0 := by
        rcases hwa with ⟨h0, -⟩ | ⟨hp, -, -⟩
        · exact h0
        · exact absurd hp hpos
      rw [items_of_zero h0, items_of_zero (hn ▸ h0)]
  · intro a b ⟨hwa, hwb, hd, hi, hv, ho, hn, harr⟩
    refine ⟨hv, hd, ?_⟩
    rcases hwa with ⟨h0, hp⟩ | ⟨hpos, hp, -⟩
    · simp only [LoadState.load, ← hi, hp, hd]
    · simp only [LoadState.load, ← hi, hp, harr hpos]
  · intro a b d ⟨hwa, hwb, hd, hi, hv, ho, hn, harr⟩
    exact ⟨hwa, hwb, hd, hi, hv, by simp [ho], hn, harr⟩
  · intro a b f ⟨hwa, hwb, hd, hi, hv, ho, hn, harr⟩
    refine ⟨wf_store hwa f, wf_store hwb f, ?_, by simpa using hi, by simpa using hv,
      by simpa using ho, by simpa using hn, ?_⟩
    · rcases hwa with ⟨h0, hp⟩ | ⟨hpos, hp, -⟩
      · rw [store_of_to_def hp, store_of_to_def (hi ▸ hp), hd]
      · rw [store_of_to_item hp, store_of_to_item (hi ▸ hp)]
        exact hd
    · intro hpos
      have hpos' : 0 < a.model.nitems := by simpa using hpos
      rcases hwa with ⟨h0, hp⟩ | ⟨-, hp, -⟩
      · omega
      · rw [store_of_to_item hp, store_of_to_item (hi ▸ hp)]
        simp only [harr hpos']
  · intro a b v ⟨hwa, hwb, hd, hi, hv, ho, hn, harr⟩
    exact ⟨hwa, hwb, hd, hi, rfl, ho, hn, harr⟩
  · intro a b ty ⟨hwa, hwb, hd, hi, hv, ho, hn, harr⟩
    have hitems : a.model.items = b.model.items := by
      by_cases hpos : 0 < a.model.nitems
      · unfold TModel.items
        rw [harr hpos, hn]
      · have h0 : a.model.nitems = 0 := by
          rcases hwa with ⟨h0, -⟩ | ⟨hp, -, -⟩
          · exact h0
          · exact absurd hp hpos
        rw [items_of_zero h0, items_of_zero (hn ▸ h0)]
    refine ⟨wf_start_item ext ty hwa, wf_start_item ext ty hwb, ?_⟩
    rw [start_item_eq ext ty hwa, start_item_eq ext ty hwb]
    simp only [hd, hv, ho, hn, hitems, implies_true, and_self]

end Items

/-! ## The runs of a line and the loop of `split_args` -/

theorem next_str_scan_eq (delims s : List Char) :
    next_str_scan delims s = s.dropWhile (non_delim delims) := by
  induction s with
  | nil => rfl
  | cons c t ih =>
    by_cases h : c ∈ delims
    · simp [next_str_scan, non_delim, h, List.dropWhile_cons]
    · simp only [next_str_scan, if_neg h, ih, List.dropWhile_cons, non_delim]
      simp [h]

theorem skip_delims_suffix (delims s : List Char) :
    ∃ ds, s = ds ++ skip_delims delims s ∧ ∀ x ∈ ds, x ∈ delims := by
  induction s with
  | nil => exact ⟨[], rfl, by simp⟩
  | cons c t ih =>
    by_cases h : c ∈ delims
    · obtain ⟨ds, h1, h2⟩ := ih
      refine ⟨c :: ds, ?_, ?_⟩
      · simp only [skip_delims, if_pos h, List.cons_append]
        rw [← h1]
      · intro x hx
        rcases List.mem_cons.1 hx with rfl | hx
        · exact h
        · exact h2 x hx
    · exact ⟨[], by simp [skip_delims, h], by simp⟩

theorem skip_delims_head (delims s : List Char) (c : Char) (u : List Char)
    (h : skip_delims delims s = c :: u) : c ∉ delims := by
  induction s with
  | nil => simp [skip_delims] at h
  | cons x t ih =>
    by_cases hx : x ∈ delims
    · simp only [skip_delims, if_pos hx] at h
      exact ih h
    · simp only [skip_delims, if_neg hx, List.cons.injEq] at h
      rw [← h.1]
      exact hx

theorem spec_runs_delim (delims : List Char) (c : Char) (t : List Char) (h : c ∈ delims) :
    spec_runs delims (c :: t) = spec_runs delims t := by
  simp [spec_runs, h]

theorem spec_runs_of_delims (delims ds s : List Char) (h : ∀ x ∈ ds, x ∈ delims) :
    spec_runs delims (ds ++ s) = spec_runs delims s := by
  induction ds with
  | nil => rfl
  | cons x ds ih =>
    rw [List.cons_append, spec_runs_delim delims x _ (h x (List.mem_cons_self _ _))]
    exact ih (fun y hy => h y (List.mem_cons_of_mem _ hy))

theorem spec_runs_skip (delims s : List Char) :
    spec_runs delims (skip_delims delims s) = spec_runs delims s := by
  obtain ⟨ds, h1, h2⟩ := skip_delims_suffix delims s
  conv_rhs => rw [h1]
  rw [spec_runs_of_delims delims ds _ h2]

theorem spec_runs_text (delims : List Char) (t : List Char) :
    ∀ c : Char, c ∉ delims →
      spec_runs delims (c :: t) =
        (c :: t.takeWhile (non_delim delims)) :: spec_runs delims (t.dropWhile (non_delim delims)) := by
  induction t with
  | nil =>
    intro c hc
    simp [spec_runs, hc]
  | cons d t ih =>
    intro c hc
    by_cases hd : d ∈ delims
    · have e : spec_runs delims (c :: d :: t) = [c] :: spec_runs delims (d :: t) := by
        rw [spec_runs]
        simp only [if_neg hc, if_pos hd]
      rw [e]
      simp [List.takeWhile_cons, List.dropWhile_cons, non_delim, hd]
    · have e : spec_runs delims (c :: d :: t) =
          match spec_runs delims (d :: t) with
          | [] => [[c]]
          | r :: rs => (c :: r) :: rs := by
        rw [spec_runs]
        simp only [if_neg hc, if_neg hd]
      rw [e, ih d hd]
      simp [List.takeWhile_cons, List.dropWhile_cons, non_delim, hd]

theorem spec_runs_join (delims s : List Char) :
    (spec_runs delims s).flatten = s.filter (non_delim delims) := by
  induction s with
  | nil => rfl
  | cons c t ih =>
    by_cases hc : c ∈ delims
    · rw [spec_runs_delim delims c t hc, ih]
      simp [List.filter_cons, non_delim, hc]
    · cases t with
      | nil => simp [spec_runs, hc, non_delim]
      | cons d t =>
        by_cases hd : d ∈ delims
        · have e : spec_runs delims (c :: d :: t) = [c] :: spec_runs delims (d :: t) := by
            rw [spec_runs]
            simp only [if_neg hc, if_pos hd]
          rw [e, List.flatten_cons, ih]
          simp [List.filter_cons, non_delim, hc]
        · have e : spec_runs delims (c :: d :: t) =
              match spec_runs delims (d :: t) with
              | [] => [[c]]
              | r :: rs => (c :: r) :: rs := by
            rw [spec_runs]
            simp only [if_neg hc, if_neg hd]
          rw [e]
          have hf : (c :: d :: t).filter (non_delim delims) =
              c :: (d :: t).filter (non_delim delims) := by
            simp [List.filter_cons, non_delim, hc]
          rw [hf, ← ih]
          cases spec_runs delims (d :: t) with
          | nil => rfl
          | cons r rs => rfl

theorem spec_runs_mem (delims s : List Char) :
    ∀ r ∈ spec_runs delims s, r ≠ [] ∧ ∀ c ∈ r, c ∉ delims := by
  induction s with
  | nil => simp [spec_runs]
  | cons c t ih =>
    by_cases hc : c ∈ delims
    · rw [spec_runs_delim delims c t hc]
      exact ih
    · cases t with
      | nil =>
        intro r hr
        simp only [spec_runs, if_neg hc, List.mem_singleton] at hr
        subst hr
        exact ⟨by simp, by simpa using hc⟩
      | cons d t =>
        by_cases hd : d ∈ delims
        · have e : spec_runs delims (c :: d :: t) = [c] :: spec_runs delims (d :: t) := by
            rw [spec_runs]
            simp only [if_neg hc, if_pos hd]
          rw [e]
          intro r hr
          rcases List.mem_cons.1 hr with rfl | hr
          · exact ⟨by simp, by simpa using hc⟩
          · exact ih r hr
        · have e : spec_runs delims (c :: d :: t) =
              match spec_runs delims (d :: t) with
              | [] => [[c]]
              | r :: rs => (c :: r) :: rs := by
            rw [spec_runs]
            simp only [if_neg hc, if_neg hd]
          rw [e]
          cases hs : spec_runs delims (d :: t) with
          | nil =>
            intro r hr
            simp only [List.mem_singleton] at hr
            subst hr
            exact ⟨by simp, by simpa using hc⟩
          | cons r0 rs =>
            rw [hs] at ih
            intro r hr
            rcases List.mem_cons.1 hr with rfl | hr
            · refine ⟨by simp, ?_⟩
              intro x hx
              rcases List.mem_cons.1 hx with rfl | hx
              · exact hc
              · exact (ih r0 (List.mem_cons_self _ _)).2 x hx
            · exact ih r (List.mem_cons_of_mem _ hr)

theorem spec_runs_nil (delims s : List Char) (h : spec_runs delims s = []) :
    ∀ x ∈ s, x ∈ delims := by
  intro x hx
  by_contra hn
  have hj := spec_runs_join delims s
  rw [h] at hj
  have : x ∈ s.filter (non_delim delims) := by
    simp [List.mem_filter, hx, non_delim, hn]
  rw [← hj] at this
  simp at this

/-- One turn of the `for` loop of `split_args` on a non-empty string. -/
theorem split_args_loop_step (delims : List Char) (k : Nat) (c : Char) (t : List Char) :
    split_args_loop delims (k + 1) (c :: t) =
      match t.dropWhile (non_delim delims) with
      | [] => [c :: t.takeWhile (non_delim delims)]
      | _ :: t1 =>
        match skip_delims delims t1 with
        | [] => [c :: t.takeWhile (non_delim delims)]
        | c1 :: u => (c :: t.takeWhile (non_delim delims)) :: split_args_loop delims k (c1 :: u) := by
  have hsplit := List.takeWhile_append_dropWhile (non_delim delims) t
  rw [split_args_loop]
  simp only [next_str, next_str_scan_eq]
  cases hd : t.dropWhile (non_delim delims) with
  | nil =>
    rw [hd, List.append_nil] at hsplit
    simp only [hsplit]
  | cons d t1 =>
    have htake : (c :: t).take ((c :: t).length - (d :: t1).length) =
        c :: t.takeWhile (non_delim delims) := by
      have hl : (c :: t).length - (d :: t1).length = (c :: t.takeWhile (non_delim delims)).length := by
        have := congrArg List.length hsplit
        rw [hd] at this
        simp only [List.length_append, List.length_cons] at this ⊢
        omega
      have e1 : c :: t = (c :: t.takeWhile (non_delim delims)) ++ d :: t1 := by
        rw [List.cons_append, ← hd, hsplit]
      rw [hl, e1]
      exact List.take_left' rfl
    simp only [htake]

theorem dropWhile_head_delim (delims t : List Char) (d : Char) (t1 : List Char)
    (h : t.dropWhile (non_delim delims) = d :: t1) : d ∈ delims := by
  induction t with
  | nil => simp at h
  | cons x t ih =>
    by_cases hx : x ∈ delims
    · have e : (x :: t).dropWhile (non_delim delims) = x :: t := by
        simp [List.dropWhile_cons, non_delim, hx]
      rw [e] at h
      cases h
      exact hx
    · have e : (x :: t).dropWhile (non_delim delims) = t.dropWhile (non_delim delims) := by
        simp [List.dropWhile_cons, non_delim, hx]
      rw [e] at h
      exact ih h

/-- The number of tokens the loop of `split_args` fills from a non-empty
string with `k` turns left: one more than the runs after the first token,
and at most `k + 1`. -/
theorem split_args_loop_length (delims : List Char) :
    ∀ (k : Nat) (c : Char) (t : List Char),
      (split_args_loop delims k (c :: t)).length =
        min (spec_runs delims (t.dropWhile (non_delim delims))).length k + 1 := by
  intro k
  induction k with
  | zero =>
    intro c t
    simp [split_args_loop]
  | succ k ih =>
    intro c t
    rw [split_args_loop_step]
    cases hd : t.dropWhile (non_delim delims) with
    | nil => simp [spec_runs]
    | cons d t1 =>
      have hdel : d ∈ delims := dropWhile_head_delim delims t d t1 hd
      rw [spec_runs_delim delims d t1 hdel, ← spec_runs_skip]
      cases hs : skip_delims delims t1 with
      | nil => simp [hs, spec_runs]
      | cons c1 u =>
        have hc1 : c1 ∉ delims := skip_delims_head delims t1 c1 u hs
        rw [spec_runs_text delims u c1 hc1]
        simp only [hs, List.length_cons, ih c1 u]
        omega

theorem getLast_append_cons (a : List Char) (c : Char) (u : List Char) :
    (a ++ c :: u).getLast? = (c :: u).getLast? := by
  induction a with
  | nil => rfl
  | cons x a ih =>
    cases a with
    | nil => simp [List.getLast?_cons_cons]
    | cons y a =>
      rw [List.cons_append, List.cons_append, List.getLast?_cons_cons, ← List.cons_append]
      exact ih

/-- The tokens the loop of `split_args` fills are the first token and the
runs after it, as long as the slots suffice: fewer runs than turns left, or
as many and no delimiter at the end of the string. -/
theorem split_args_loop_runs (delims : List Char) :
    ∀ (k : Nat) (c : Char) (t : List Char),
      ((spec_runs delims (t.dropWhile (non_delim delims))).length < k ∨
        ((spec_runs delims (t.dropWhile (non_delim delims))).length = k ∧
          ∀ x ∈ (c :: t).getLast?, x ∉ delims)) →
      split_args_loop delims k (c :: t) =
        (c :: t.takeWhile (non_delim delims)) ::
          spec_runs delims (t.dropWhile (non_delim delims)) := by
  intro k
  induction k with
  | zero =>
    intro c t h
    rcases h with h | ⟨h0, hlast⟩
    · omega
    · have hnil : spec_runs delims (t.dropWhile (non_delim delims)) = [] :=
        List.length_eq_zero.1 h0
      have hall := spec_runs_nil delims _ hnil
      have hsplit := List.takeWhile_append_dropWhile (non_delim delims) t
      cases hd : t.dropWhile (non_delim delims) with
      | nil =>
        rw [hd, List.append_nil] at hsplit
        simp [split_args_loop, hsplit, spec_runs]
      | cons d t1 =>
        exfalso
        have e : c :: t = (c :: t.takeWhile (non_delim delims)) ++ d :: t1 := by
          rw [List.cons_append, ← hd, hsplit]
        have hl : (c :: t).getLast? = (d :: t1).getLast? := by
          rw [e]
          exact getLast_append_cons _ d t1
        have hmem : (d :: t1).getLast (by simp) ∈ d :: t1 := List.getLast_mem _
        have hx := hlast ((d :: t1).getLast (by simp))
          (by rw [hl]; exact List.getLast?_eq_getLast _ _)
        rw [hd] at hall
        exact hx (hall _ hmem)
  | succ k ih =>
    intro c t h
    rw [split_args_loop_step]
    have hsplit := List.takeWhile_append_dropWhile (non_delim delims) t
    cases hd : t.dropWhile (non_delim delims) with
    | nil => simp [spec_runs]
    | cons d t1 =>
      have hdel : d ∈ delims := dropWhile_head_delim delims t d t1 hd
      rw [hd, spec_runs_delim delims d t1 hdel, ← spec_runs_skip] at h
      rw [spec_runs_delim delims d t1 hdel, ← spec_runs_skip]
      obtain ⟨ds, hds, _⟩ := skip_delims_suffix delims t1
      cases hs : skip_delims delims t1 with
      | nil => simp [hs, spec_runs]
      | cons c1 u =>
        have hc1 : c1 ∉ delims := skip_delims_head delims t1 c1 u hs
        rw [hs, spec_runs_text delims u c1 hc1, List.length_cons] at h
        rw [spec_runs_text delims u c1 hc1]
        have e : c :: t = (c :: t.takeWhile (non_delim delims) ++ d :: ds) ++ c1 :: u := by
          rw [← hs, List.append_assoc, List.cons_append d, ← hds, List.cons_append, ← hd,
            hsplit]
        have hl : (c :: t).getLast? = (c1 :: u).getLast? := by
          rw [e]
          exact getLast_append_cons _ c1 u
        simp only [hs]
        rw [ih c1 u]
        rcases h with h | ⟨h, hlast⟩
        · exact Or.inl (by omega)
        · exact Or.inr ⟨by omega, by rw [← hl]; exact hlast⟩

/-- With the delimiters removed, the tokens of the loop of `split_args` in a
row are the string it was given. -/
theorem split_args_loop_flatten (delims : List Char) :
    ∀ (k : Nat) (cur : List Char),
      (split_args_loop delims k cur).flatten.filter (non_delim delims) =
        cur.filter (non_delim delims) := by
  intro k
  induction k with
  | zero =>
    intro cur
    simp [split_args_loop]
  | succ k ih =>
    intro cur
    cases cur with
    | nil => simp [split_args_loop, next_str]
    | cons c t =>
      rw [split_args_loop_step]
      have hsplit := List.takeWhile_append_dropWhile (non_delim delims) t
      have hfil : ∀ ds : List Char, (∀ x ∈ ds, x ∈ delims) →
          ds.filter (non_delim delims) = [] := by
        intro ds h
        rw [List.filter_eq_nil_iff]
        intro x hx
        simp [non_delim, h x hx]
      cases hd : t.dropWhile (non_delim delims) with
      | nil =>
        rw [hd, List.append_nil] at hsplit
        simp [hsplit]
      | cons d t1 =>
        have hdel : d ∈ delims := dropWhile_head_delim delims t d t1 hd
        obtain ⟨ds, hds, hdsd⟩ := skip_delims_suffix delims t1
        have e : (c :: t).filter (non_delim delims) =
            (c :: t.takeWhile (non_delim delims)).filter (non_delim delims) ++
              (skip_delims delims t1).filter (non_delim delims) := by
          have e1 : c :: t = (c :: t.takeWhile (non_delim delims)) ++
              ((d :: ds) ++ skip_delims delims t1) := by
            rw [List.cons_append d, ← hds, List.cons_append, ← hd, hsplit]
          have e2 : (d :: ds).filter (non_delim delims) = [] :=
            hfil (d :: ds) (fun x hx => by
              rcases List.mem_cons.1 hx with rfl | hx
              · exact hdel
              · exact hdsd x hx)
          conv_lhs => rw [e1]
          rw [List.filter_append, List.filter_append, e2, List.nil_append]
        rw [e]
        cases hs : skip_delims delims t1 with
        | nil => simp [hs]
        | cons c1 u =>
          simp only [hs, List.flatten_cons, List.filter_append]
          rw [ih (c1 :: u)]

theorem command_word_cons (c : Char) (t : List Char) :
    command_word (c :: t) = c :: t.takeWhile (non_delim DELIMS) := by
  unfold command_word split_args MAX_ARGS
  simp only [Nat.reduceSub]
  rw [split_args_loop_step]
  split
  · rfl
  · split <;> rfl

theorem drop_takeWhile_length (p : Char → Bool) (l : List Char) :
    l.drop (l.takeWhile p).length = l.dropWhile p := by
  induction l with
  | nil => rfl
  | cons x l ih =>
    by_cases h : p x <;> simp [List.takeWhile_cons, List.dropWhile_cons, h, ih]

theorem argument_runs_cons (c : Char) (t : List Char) :
    argument_runs (c :: t) = spec_runs DELIMS (t.dropWhile (non_delim DELIMS)) := by
  unfold argument_runs
  rw [command_word_cons, List.length_cons, List.drop_succ_cons, drop_takeWhile_length]

theorem spec_of_text_head (c : Char) (t : List Char) (hc : c ∉ DELIMS) :
    spec_command (c :: t) = c :: t.takeWhile (non_delim DELIMS) ∧
      spec_arguments (c :: t) = spec_runs DELIMS (t.dropWhile (non_delim DELIMS)) := by
  unfold spec_command spec_arguments
  constructor
  · simp [List.takeWhile_cons, non_delim, hc]
  · simp [List.dropWhile_cons, non_delim, hc]

/-! ## The dispatcher with checked token reads -/

section CheckedFacts

variable {F : Type} [Zero F] [One F] [NatCast F] [Add F] [Sub F] [Mul F] [Div F]

set_option linter.unusedSectionVars false

theorem read_arg_of_lt (args : List (List Char)) (k : Nat) (h : k < args.length) :
    read_arg args k = some (args.getD k []) := by
  simp [read_arg, h]

theorem one_number_checked_eq (ext : Ext F) (linenr : Nat) (name : List Char)
    (args : List (List Char)) (fld : Dest F) (st : LoadState F) :
    one_number_checked ext linenr name args fld st =
      some (one_number ext linenr name args fld st) := by
  unfold one_number_checked one_number
  by_cases h : args.length = 2
  · simp [h, read_arg]
  · simp [h]

theorem model_load_switch_checked_eq (ext : Ext F) (linenr : Nat) (args : List (List Char))
    (st : LoadState F) :
    model_load_switch_checked ext linenr args st =
      some (model_load_switch ext linenr args st) := by
  unfold model_load_switch_checked model_load_switch
  simp only [one_number_checked_eq]
  generalize char_at (args.headD []) 0 = c
  split
  all_goals (repeat' split)
  all_goals first
    | rfl
    | simp_all [read_arg]

end CheckedFacts

/-! ## Settings line by line: the state after a numeric line -/

section LineSteps

variable {F : Type} [Zero F] [One F] [NatCast F] [Add F] [Sub F] [Mul F] [Div F]

set_option linter.unusedSectionVars false

/-- With no item yet, reads through `item` read the record `def`. -/
theorem load_of_zero (ext : Ext F) {st : LoadState F} (hwf : st.wf)
    (h0 : st.model.nitems = 0) : st.load ext = st.defl := by
  have hi : st.item = ItemPtr.to_def := by
    rcases hwf with ⟨_, h⟩ | ⟨hpos, _⟩
    · exact h
    · omega
  unfold LoadState.load
  rw [hi]

/-- With exactly one item, the items are that one, read through `item`. -/
theorem items_of_one (ext : Ext F) {st : LoadState F} (hwf : st.wf)
    (h1 : st.model.nitems = 1) : st.model.items = [st.load ext] := by
  have hlast := load_eq_getLast ext hwf (by omega)
  have hlen := items_length_of_wf hwf
  rw [h1] at hlen
  generalize st.model.items = l at hlast hlen
  match l, hlen with
  | [x], _ =>
    simp only [List.getLast?_singleton, Option.some.injEq] at hlast
    rw [hlast]

/-- The state after an accepted one-number line whose token resolves to the
value `x`. -/
theorem line_one_number_state (ext : Ext F) (linenr : Nat) (buffer w tok name : List Char)
    (fld : Dest F) (st : LoadState F) (op : NUM_OP) (v x : F)
    (hwf : st.wf)
    (hname : is_name_line buffer = false)
    (hm : (name, fld) ∈ number_settings F)
    (hs : selects w name)
    (hargs : split_args buffer DELIMS = [w, tok])
    (hop : str_to_num ext tok st.val = (op, v))
    (hx : resolve op (fld.get st.defl) v = some x) :
    (model_load_line ext linenr buffer st).wf ∧
      fld.get ((model_load_line ext linenr buffer st).load ext) = x ∧
      (model_load_line ext linenr buffer st).model.nitems = st.model.nitems ∧
      (0 < st.model.nitems → (model_load_line ext linenr buffer st).defl = st.defl) ∧
      (st.model.nitems = 0 → fld.get (model_load_line ext linenr buffer st).defl = x) := by
  have hline := line_one_number ext linenr buffer w tok name fld st hname hm hs hargs
  have hwf1 := wf_model_load_line ext linenr buffer hwf
  obtain ⟨-, -, hl, -⟩ := get_value_step ext hwf tok fld (Diag.usage linenr name) op v hop
  rw [← hline, hx] at hl
  have hn9 : name ∈ ["ALPHA".toList, "COLOR".toList, "ELONGATION".toList, "MAJOR".toList,
      "MINOR".toList, "NUMBER".toList, "RANGE".toList, "TRIANGULARITY".toList,
      "PITCH".toList] := by
    simp only [number_settings, List.mem_cons, Prod.mk.injEq, List.mem_singleton,
      List.not_mem_nil, or_false] at hm
    rcases hm with h | h | h | h | h
    all_goals rw [h.1]
    all_goals decide
  have hkeep := line_keeps_count ext linenr buffer w name [tok] st hn9 hs hargs
  have hget : fld.get ((model_load_line ext linenr buffer st).load ext) = x := by
    rw [hl]
    exact get_set_of_mem hm x _
  refine ⟨hwf1, hget, hkeep.1, ?_, ?_⟩
  · intro hpos
    exact (line_frame ext linenr buffer hwf hpos).2.2.1
  · intro h0
    rw [← load_of_zero ext hwf1 (by rw [hkeep.1]; exact h0)]
    exact hget

/-- The record read through `item` after an accepted `RANGE` line with two
argument tokens. -/
theorem line_range_load (ext : Ext F) (st : LoadState F) (linenr : Nat)
    (buffer w t0 t1 : List Char) (op0 op1 : NUM_OP) (v0 v1 : F)
    (hwf : st.wf)
    (hname : is_name_line buffer = false)
    (hs : selects w "RANGE".toList)
    (hargs : split_args buffer DELIMS = [w, t0, t1])
    (hop0 : str_to_num ext t0 st.val = (op0, v0))
    (hop1 : str_to_num ext t1 v0 = (op1, v1)) :
    (model_load_line ext linenr buffer st).load ext =
      { st.load ext with
        phi0 := (resolve_range ext.PI op0 st.defl.phi0 v0).getD (st.load ext).phi0
        phi1 := (resolve_range ext.PI op1 st.defl.phi1 v1).getD (st.load ext).phi1 } := by
  have hline := line_range ext linenr buffer w t0 t1 st hname hs hargs
  rw [RANGE_VALUE_eq ext t0 Dest.phi0 _ st op0 v0 hop0] at hline
  obtain ⟨hw1, hv1, hl1, hd1⟩ := value_step ext hwf Dest.phi0
    (Diag.usage linenr "RANGE".toList) v0 (resolve_range ext.PI op0 (Dest.phi0.get st.defl) v0)
  have hbase := hd1 F (fun it => it.phi1) (fun _ _ => rfl)
  generalize hs1 : (match resolve_range ext.PI op0 (Dest.phi0.get st.defl) v0 with
      | some x => LoadState.store { st with val := v0 } (Dest.phi0.set x)
      | none => LoadState.print { st with val := v0 } (Diag.usage linenr "RANGE".toList)) = s1
    at hline hw1 hv1 hl1 hbase
  rw [RANGE_VALUE_eq ext t1 Dest.phi1 _ s1 op1 v1 (by rw [hv1]; exact hop1)] at hline
  obtain ⟨-, -, hl2, -⟩ := value_step ext hw1 Dest.phi1
    (Diag.usage linenr "RANGE".toList) v1 (resolve_range ext.PI op1 (Dest.phi1.get s1.defl) v1)
  rw [← hline] at hl2
  have hb : Dest.phi1.get s1.defl = st.defl.phi1 := hbase
  rw [hb, hl1] at hl2
  rw [hl2]
  cases resolve_range ext.PI op1 st.defl.phi1 v1 <;>
    cases h0 : resolve_range ext.PI op0 (Dest.phi0.get st.defl) v0 <;>
    (have h0' : resolve_range ext.PI op0 st.defl.phi0 v0 = _ := h0
     rw [h0']
     rfl)

/-- The record read through `item` after an accepted `COLOR` line with three
argument tokens. -/
theorem line_color_load (ext : Ext F) (st : LoadState F) (linenr : Nat)
    (buffer w t1 t2 t3 : List Char) (o1 o2 o3 : NUM_OP) (v1 v2 v3 : F)
    (hwf : st.wf)
    (hname : is_name_line buffer = false)
    (hs : selects w "COLOR".toList)
    (hargs : split_args buffer DELIMS = [w, t1, t2, t3])
    (h1 : str_to_num ext t1 st.val = (o1, v1))
    (h2 : str_to_num ext t2 v1 = (o2, v2))
    (h3 : str_to_num ext t3 v2 = (o3, v3)) :
    (model_load_line ext linenr buffer st).load ext =
      { st.load ext with
        color :=
          { r := (resolve o1 st.defl.color.r v1).getD (st.load ext).color.r
            g := (resolve o2 st.defl.color.g v2).getD (st.load ext).color.g
            b := (resolve o3 st.defl.color.b v3).getD (st.load ext).color.b
            alpha := (st.load ext).color.alpha } } := by
  have hline := line_color_triple ext linenr buffer w t1 t2 t3 st hname hs hargs
  obtain ⟨hw1, hv1, hl1, hd1⟩ := get_value_step ext hwf t1 Dest.r
    (Diag.usage linenr "COLOR".toList) o1 v1 h1
  have hg1 := hd1 F (fun it => it.color.g) (fun _ _ => rfl)
  have hb1 := hd1 F (fun it => it.color.b) (fun _ _ => rfl)
  generalize GET_VALUE ext t1 Dest.r (Diag.usage linenr "COLOR".toList) st = s1
    at hline hw1 hv1 hl1 hg1 hb1
  obtain ⟨hw2, hv2, hl2, hd2⟩ := get_value_step ext hw1 t2 Dest.g
    (Diag.usage linenr "COLOR".toList) o2 v2 (by rw [hv1]; exact h2)
  have hb2 := hd2 F (fun it => it.color.b) (fun _ _ => rfl)
  generalize GET_VALUE ext t2 Dest.g (Diag.usage linenr "COLOR".toList) s1 = s2
    at hline hw2 hv2 hl2 hb2
  obtain ⟨-, -, hl3, -⟩ := get_value_step ext hw2 t3 Dest.b
    (Diag.usage linenr "COLOR".toList) o3 v3 (by rw [hv2]; exact h3)
  rw [← hline] at hl3
  have e1 : Dest.r.get st.defl = st.defl.color.r := rfl
  have e2 : Dest.g.get s1.defl = st.defl.color.g := hg1
  have e3 : Dest.b.get s2.defl = st.defl.color.b := hb2.trans hb1
  rw [e3, hl2, e2, hl1, e1] at hl3
  rw [hl3]
  cases resolve o1 st.defl.color.r v1 <;> cases resolve o2 st.defl.color.g v2 <;>
    cases resolve o3 st.defl.color.b v3 <;> rfl

/-- A token that starts with `-` is read as a subtraction or not at all. -/
theorem str_to_num_minus (ext : Ext F) (t : List Char) (val : F) :
    str_to_num ext ('-' :: t) val =
      match ext.sscanf_f t with
      | none => (NUM_INVALID, val)
      | some v => (NUM_SUB, v) := by
  simp only [str_to_num, str_to_num_op]

/-- A token that `sscanf` reads gives its operation and the number read,
whatever `*val` held. -/
theorem str_to_num_of_scan (ext : Ext F) (s : List Char) (v : F)
    (h : ext.sscanf_f (str_to_num_op s).2 = some v) :
    ∀ val, str_to_num ext s val = ((str_to_num_op s).1, v) := by
  intro val
  simp only [str_to_num, h]

/-- A token that `sscanf` does not read is invalid and leaves `*val`. -/
theorem str_to_num_of_no_scan (ext : Ext F) (s : List Char)
    (h : ext.sscanf_f (str_to_num_op s).2 = none) :
    ∀ val, str_to_num ext s val = (NUM_INVALID, val) := by
  intro val
  simp only [str_to_num, h]

end LineSteps

/-! ## The claims -/

section Claims

variable {F : Type} [Zero F] [One F] [NatCast F] [Add F] [Sub F] [Mul F] [Div F]

set_option linter.unusedSectionVars false

/-- **C1.** Once at least one item has been started, a relative setting
(`+v`, `-v`, `*v`, `/v`) of ALPHA, ELONGATION, MAJOR, MINOR or TRIANGULARITY
sets the field of the current (newest) item to `D op v`, where `D` is the value
of that field in the record `def`, whatever lines came before and whatever
the item held; `def` and the item count are unchanged. -/
theorem relative_setting_uses_defaults (ext : Ext F) (model : TModel F)
    (pre : List (Nat × List Char)) (linenr : Nat) (buffer w tok name : List Char)
    (fld : Dest F) (op : NUM_OP) (v : F)
    (hpos : 0 < (reached ext model pre).model.nitems)
    (hname : is_name_line buffer = false)
    (hm : (name, fld) ∈ number_settings F)
    (hs : selects w name)
    (hargs : split_args buffer DELIMS = [w, tok])
    (hop : str_to_num ext tok (reached ext model pre).val = (op, v))
    (hrel : op = NUM_ADD ∨ op = NUM_SUB ∨ op = NUM_MUL ∨ op = NUM_DIV) :
    (model_load_line ext linenr buffer (reached ext model pre)).model.items.getLast? =
        some ((model_load_line ext linenr buffer (reached ext model pre)).load ext) ∧
      some (fld.get ((model_load_line ext linenr buffer (reached ext model pre)).load ext)) =
        resolve op (fld.get (reached ext model pre).defl) v ∧
      (model_load_line ext linenr buffer (reached ext model pre)).defl =
        (reached ext model pre).defl ∧
      (model_load_line ext linenr buffer (reached ext model pre)).model.nitems =
        (reached ext model pre).model.nitems := by
  have hwf := wf_reached ext model pre
  generalize reached ext model pre = st at hpos hop hwf
  have hwf' := wf_model_load_line ext linenr buffer hwf
  have hfr := line_frame ext linenr buffer hwf hpos
  have hline := line_one_number ext linenr buffer w tok name fld st hname hm hs hargs
  rw [GET_VALUE_eq ext tok fld _ st op v hop] at hline
  obtain ⟨x, hx⟩ : ∃ x, resolve op (fld.get st.defl) v = some x := by
    rcases hrel with rfl | rfl | rfl | rfl <;> exact ⟨_, rfl⟩
  rw [hx] at hline
  have hn : (model_load_line ext linenr buffer st).model.nitems = st.model.nitems := by
    rw [hline]; simp
  refine ⟨load_eq_getLast ext hwf' (by omega), ?_, hfr.2.2.1, hn⟩
  rw [hx, hline, load_store ext (wf_val hwf v), get_set_of_mem hm]

/-- Witness of C1: the fifth line `MAJOR +1.0`, met after the default
`MAJOR 2.0` and a first item already raised to 3, gives the second item
3 again; a further `MAJOR 5` followed by `MAJOR +1.0` on the same item gives
3, not 6. -/
theorem relative_setting_uses_defaults_witness :
    (0 < (reached ext_rat (empty_model ℚ) (relative_example.take 4)).model.nitems ∧
      is_name_line "MAJOR +1.0".toList = false ∧
      selects "MAJOR".toList "MAJOR".toList ∧
      split_args "MAJOR +1.0".toList DELIMS = ["MAJOR".toList, "+1.0".toList] ∧
      str_to_num ext_rat "+1.0".toList
        (reached ext_rat (empty_model ℚ) (relative_example.take 4)).val = (NUM_ADD, 1)) ∧
    ((model_load_line ext_rat 5 "MAJOR +1.0".toList
        (reached ext_rat (empty_model ℚ) (relative_example.take 4))).model.items.getLast? =
        some ((model_load_line ext_rat 5 "MAJOR +1.0".toList
          (reached ext_rat (empty_model ℚ) (relative_example.take 4))).load ext_rat) ∧
      some (Dest.major_radius.get ((model_load_line ext_rat 5 "MAJOR +1.0".toList
          (reached ext_rat (empty_model ℚ) (relative_example.take 4))).load ext_rat)) =
        resolve NUM_ADD
          (Dest.major_radius.get (reached ext_rat (empty_model ℚ) (relative_example.take 4)).defl)
          1 ∧
      (model_load_line ext_rat 5 "MAJOR +1.0".toList
          (reached ext_rat (empty_model ℚ) (relative_example.take 4))).defl =
        (reached ext_rat (empty_model ℚ) (relative_example.take 4)).defl ∧
      (model_load_line ext_rat 5 "MAJOR +1.0".toList
          (reached ext_rat (empty_model ℚ) (relative_example.take 4))).model.nitems =
        (reached ext_rat (empty_model ℚ) (relative_example.take 4)).model.nitems) ∧
    (reached ext_rat (empty_model ℚ) relative_example).model.items.map
        (fun it => it.major_radius) = [3, 5] ∧
    (model_load_line ext_rat 7 "MAJOR +1.0".toList
        (reached ext_rat (empty_model ℚ) relative_example)).model.items.map
        (fun it => it.major_radius) = [3, 3] :=
  ⟨⟨by decide!, by decide!, by decide!, by decide!, by decide!⟩,
    relative_setting_uses_defaults ext_rat (empty_model ℚ) (relative_example.take 4) 5
      "MAJOR +1.0".toList "MAJOR".toList "+1.0".toList "MAJOR".toList Dest.major_radius
      NUM_ADD 1 (by decide!) (by decide!) (by simp [number_settings]) (by decide!)
      (by decide!) (by decide!) (Or.inl rfl),
    by decide!, by decide!⟩

/-- **C2.** In every well-formed parser state, an accepted item-start line
(a command word selecting SOLID, LINES or PLANES, whatever argument tokens
follow it) raises the item count by one, appends as last item the copy of
`def` with only the type tag set, leaves the earlier items, `def` and the
output unchanged, and makes the new item the target of `item`. -/
theorem item_start_appends_copy (ext : Ext F) (st : LoadState F) (linenr : Nat)
    (buffer name : List Char) (ty : DrawType)
    (hwf : st.wf)
    (hname : is_name_line buffer = false)
    (hm : (name, ty) ∈ item_starts)
    (hs : selects (command_word buffer) name) :
    (model_load_line ext linenr buffer st).model.nitems = st.model.nitems + 1 ∧
      (model_load_line ext linenr buffer st).model.items =
        st.model.items ++ [{ st.defl with type := some ty }] ∧
      (model_load_line ext linenr buffer st).item = ItemPtr.to_item st.model.nitems.toNat ∧
      (model_load_line ext linenr buffer st).load ext = { st.defl with type := some ty } ∧
      (model_load_line ext linenr buffer st).defl = st.defl ∧
      (model_load_line ext linenr buffer st).out = st.out := by
  rw [line_item_start ext linenr buffer name ty st hname hm hs]
  obtain ⟨h1, h2, h3, h4, h5, h6, -⟩ := start_item_fields ext ty hwf
  exact ⟨h1, h2, h3, h4, h5, h6⟩

/-- Witness of C2: the line `SOLID 1 2`, with two extra tokens, met in the
state after `MAJOR 2.0`, `PL`. -/
theorem item_start_appends_copy_witness :
    ((reached ext_rat (empty_model ℚ) (file_of ["MAJOR 2.0", "PL"])).wf ∧
      is_name_line "SOLID 1 2".toList = false ∧
      ("SOLID".toList, DRAW_SOLID) ∈ item_starts ∧
      selects (command_word "SOLID 1 2".toList) "SOLID".toList) ∧
    ((model_load_line ext_rat 3 "SOLID 1 2".toList
        (reached ext_rat (empty_model ℚ) (file_of ["MAJOR 2.0", "PL"]))).model.nitems =
        (reached ext_rat (empty_model ℚ) (file_of ["MAJOR 2.0", "PL"])).model.nitems + 1 ∧
      (model_load_line ext_rat 3 "SOLID 1 2".toList
        (reached ext_rat (empty_model ℚ) (file_of ["MAJOR 2.0", "PL"]))).model.items =
        (reached ext_rat (empty_model ℚ) (file_of ["MAJOR 2.0", "PL"])).model.items ++
          [{ (reached ext_rat (empty_model ℚ) (file_of ["MAJOR 2.0", "PL"])).defl with
              type := some DRAW_SOLID }] ∧
      (model_load_line ext_rat 3 "SOLID 1 2".toList
        (reached ext_rat (empty_model ℚ) (file_of ["MAJOR 2.0", "PL"]))).item =
        ItemPtr.to_item
          (reached ext_rat (empty_model ℚ) (file_of ["MAJOR 2.0", "PL"])).model.nitems.toNat ∧
      (model_load_line ext_rat 3 "SOLID 1 2".toList
        (reached ext_rat (empty_model ℚ) (file_of ["MAJOR 2.0", "PL"]))).load ext_rat =
        { (reached ext_rat (empty_model ℚ) (file_of ["MAJOR 2.0", "PL"])).defl with
            type := some DRAW_SOLID } ∧
      (model_load_line ext_rat 3 "SOLID 1 2".toList
        (reached ext_rat (empty_model ℚ) (file_of ["MAJOR 2.0", "PL"]))).defl =
        (reached ext_rat (empty_model ℚ) (file_of ["MAJOR 2.0", "PL"])).defl ∧
      (model_load_line ext_rat 3 "SOLID 1 2".toList
        (reached ext_rat (empty_model ℚ) (file_of ["MAJOR 2.0", "PL"]))).out =
        (reached ext_rat (empty_model ℚ) (file_of ["MAJOR 2.0", "PL"])).out) ∧
    (model_load_line ext_rat 3 "SOLID 1 2".toList
        (reached ext_rat (empty_model ℚ) (file_of ["MAJOR 2.0", "PL"]))).model.items.map
        (fun it => (it.type, it.major_radius)) =
      [(some DRAW_PLANES, 2), (some DRAW_SOLID, 2)] :=
  ⟨⟨wf_reached _ _ _, by decide!, by decide!, by decide!⟩,
    item_start_appends_copy ext_rat
      (reached ext_rat (empty_model ℚ) (file_of ["MAJOR 2.0", "PL"])) 3
      "SOLID 1 2".toList "SOLID".toList DRAW_SOLID (wf_reached _ _ _) (by decide!)
      (by decide!) (by decide!),
    by decide!⟩

/-- **C3.** Once an item exists, a line whose command word is a setting
changes only the newest item: `def`, the item count, the pointer `item` and
every earlier item are unchanged, so an item started afterwards is again the
copy of the unchanged `def`. -/
theorem setting_changes_only_newest_item (ext : Ext F) (st : LoadState F) (linenr : Nat)
    (buffer : List Char) (ty : DrawType)
    (hwf : st.wf) (hpos : 0 < st.model.nitems)
    (hw : is_setting_word (command_word buffer)) :
    (model_load_line ext linenr buffer st).defl = st.defl ∧
      (model_load_line ext linenr buffer st).model.nitems = st.model.nitems ∧
      (model_load_line ext linenr buffer st).item = st.item ∧
      (model_load_line ext linenr buffer st).model.items.take (st.model.nitems - 1).toNat =
        st.model.items.take (st.model.nitems - 1).toNat ∧
      (start_item ext ty (model_load_line ext linenr buffer st)).load ext =
        { st.defl with type := some ty } := by
  have hfr := line_frame ext linenr buffer hwf hpos
  have hkeep : (model_load_line ext linenr buffer st).model.nitems = st.model.nitems ∧
      (model_load_line ext linenr buffer st).item = st.item :=
    model_load_line_closed_setting ext
      (fun s => s.model.nitems = st.model.nitems ∧ s.item = st.item)
      (fun _ _ h => h) (fun s f h => by simpa using h) (fun _ _ h => h)
      linenr buffer hw st ⟨rfl, rfl⟩
  have hi := items_of_wf hwf hpos
  have hi' := items_of_wf hfr.1 (by omega)
  refine ⟨hfr.2.2.1, hkeep.1, hkeep.2, ?_, ?_⟩
  · rw [hi, hi']
    exact hfr.2.2.2
  · rw [(start_item_fields ext ty hfr.1).2.2.2.1, hfr.2.2.1]

/-- Witness of C3: the line `COLOR 0 0 1` met after `SOLID`, `ALPHA 0.5`,
`LINES`; the four lines yield exactly two items, item 0 of type SOLID with
alpha 0.5 and all other fields at the defaults, item 1 of type LINES with
colour (0, 0, 1) and alpha 1. -/
theorem setting_changes_only_newest_item_witness :
    ((reached ext_rat (empty_model ℚ) (two_items_example.take 3)).wf ∧
      0 < (reached ext_rat (empty_model ℚ) (two_items_example.take 3)).model.nitems ∧
      is_setting_word (command_word "COLOR 0 0 1".toList)) ∧
    ((model_load_line ext_rat 4 "COLOR 0 0 1".toList
        (reached ext_rat (empty_model ℚ) (two_items_example.take 3))).defl =
        (reached ext_rat (empty_model ℚ) (two_items_example.take 3)).defl ∧
      (model_load_line ext_rat 4 "COLOR 0 0 1".toList
        (reached ext_rat (empty_model ℚ) (two_items_example.take 3))).model.nitems =
        (reached ext_rat (empty_model ℚ) (two_items_example.take 3)).model.nitems ∧
      (model_load_line ext_rat 4 "COLOR 0 0 1".toList
        (reached ext_rat (empty_model ℚ) (two_items_example.take 3))).item =
        (reached ext_rat (empty_model ℚ) (two_items_example.take 3)).item ∧
      (model_load_line ext_rat 4 "COLOR 0 0 1".toList
        (reached ext_rat (empty_model ℚ) (two_items_example.take 3))).model.items.take
          ((reached ext_rat (empty_model ℚ) (two_items_example.take 3)).model.nitems - 1).toNat =
        (reached ext_rat (empty_model ℚ) (two_items_example.take 3)).model.items.take
          ((reached ext_rat (empty_model ℚ) (two_items_example.take 3)).model.nitems - 1).toNat ∧
      (start_item ext_rat DRAW_PLANES (model_load_line ext_rat 4 "COLOR 0 0 1".toList
        (reached ext_rat (empty_model ℚ) (two_items_example.take 3)))).load ext_rat =
        { (reached ext_rat (empty_model ℚ) (two_items_example.take 3)).defl with
            type := some DRAW_PLANES }) ∧
    (model_load ext_rat (empty_model ℚ) (FileArg.readable two_items_example)).model.items =
      [ { def_init ext_rat with
            type := some DRAW_SOLID
            color := { r := 0, g := 0, b := 0, alpha := 1 / 2 } },
        { def_init ext_rat with
            type := some DRAW_LINE
            color := { r := 0, g := 0, b := 1, alpha := 1 } } ] :=
  ⟨⟨wf_reached _ _ _, by decide!, by decide!⟩,
    setting_changes_only_newest_item ext_rat
      (reached ext_rat (empty_model ℚ) (two_items_example.take 3)) 4
      "COLOR 0 0 1".toList DRAW_PLANES (wf_reached _ _ _) (by decide!) (by decide!),
    by decide!⟩

/-- **C4.** Invariant of the line loop of `model_load`: after any lines, the
pointer `item` is `&def` exactly while the item count is zero (and then a
write through it changes `def`), and is the newest item of the model once
the count is positive; from then on, whatever lines follow, the count stays
positive, `item` never is `&def` again, `def` is never modified, and every
item started later is the copy of that same `def`. -/
theorem active_target_invariant (ext : Ext F) (model : TModel F)
    (pre post : List (Nat × List Char)) (ty : DrawType) :
    ((reached ext model pre).item = ItemPtr.to_def ↔ (reached ext model pre).model.nitems = 0) ∧
      0 ≤ (reached ext model pre).model.nitems ∧
      ((reached ext model pre).model.nitems = 0 →
        (reached ext model pre).load ext = (reached ext model pre).defl ∧
        (∀ f, ((reached ext model pre).store f).defl = f (reached ext model pre).defl) ∧
        (start_item ext ty (reached ext model pre)).model.items =
          [{ (reached ext model pre).defl with type := some ty }]) ∧
      (0 < (reached ext model pre).model.nitems →
        (reached ext model pre).item =
          ItemPtr.to_item ((reached ext model pre).model.nitems - 1).toNat ∧
        (reached ext model pre).model.items.getLast? = some ((reached ext model pre).load ext) ∧
        0 < (reached ext model (pre ++ post)).model.nitems ∧
        (reached ext model (pre ++ post)).item ≠ ItemPtr.to_def ∧
        (reached ext model (pre ++ post)).defl = (reached ext model pre).defl ∧
        (start_item ext ty (reached ext model (pre ++ post))).load ext =
          { (reached ext model pre).defl with type := some ty }) := by
  have happ : reached ext model (pre ++ post) =
      model_load_lines ext post (reached ext model pre) :=
    model_load_lines_append ext pre post _
  have hwf := wf_reached ext model pre
  rw [happ]
  generalize reached ext model pre = st at hwf
  refine ⟨?_, ?_, ?_, ?_⟩
  · rcases hwf with ⟨h0, hp⟩ | ⟨hpos, hp, -⟩
    · exact ⟨fun _ => h0, fun _ => hp⟩
    · constructor
      · intro h; rw [hp] at h; cases h
      · intro h; omega
  · rcases hwf with ⟨h0, -⟩ | ⟨hpos, -, -⟩ <;> omega
  · intro h0
    have hp : st.item = ItemPtr.to_def := by
      rcases hwf with ⟨-, hp⟩ | ⟨hpos, -, -⟩
      · exact hp
      · omega
    refine ⟨by simp [LoadState.load, hp], fun f => by rw [store_of_to_def hp], ?_⟩
    rw [(start_item_fields ext ty hwf).2.1, items_of_zero h0]
    rfl
  · intro hpos
    have hp : st.item = ItemPtr.to_item (st.model.nitems - 1).toNat := by
      rcases hwf with ⟨h0, -⟩ | ⟨-, hp, -⟩
      · omega
      · exact hp
    obtain ⟨hw2, hn2, hd2, -⟩ := lines_frame ext post hwf hpos
    have hpos2 : 0 < (model_load_lines ext post st).model.nitems := by omega
    refine ⟨hp, load_eq_getLast ext hwf hpos, hpos2, ?_, hd2, ?_⟩
    · rcases hw2 with ⟨h0, -⟩ | ⟨-, hp2, -⟩
      · omega
      · rw [hp2]; exact fun h => by cases h
    · rw [(start_item_fields ext ty hw2).2.2.2.1, hd2]

/-- Witness of C4: `MAJOR 2.0` then `SOLID` gives an item with major radius
2, and the invariant at the state between the two lines and after them. -/
theorem active_target_invariant_witness :
    (model_load ext_rat (empty_model ℚ)
        (FileArg.readable (file_of ["MAJOR 2.0", "SOLID"]))).model.items.map
        (fun it => (it.type, it.major_radius)) = [(some DRAW_SOLID, 2)] ∧
    (reached ext_rat (empty_model ℚ) (file_of ["MAJOR 2.0"])).item = ItemPtr.to_def ∧
    (reached ext_rat (empty_model ℚ) (file_of ["MAJOR 2.0", "SOLID"])).item =
      ItemPtr.to_item 0 ∧
    ((reached ext_rat (empty_model ℚ) (file_of ["MAJOR 2.0"])).item = ItemPtr.to_def ↔
      (reached ext_rat (empty_model ℚ) (file_of ["MAJOR 2.0"])).model.nitems = 0) :=
  ⟨by decide!, by decide!, by decide!,
    (active_target_invariant ext_rat (empty_model ℚ) (file_of ["MAJOR 2.0"])
      (file_of ["SOLID"]) DRAW_SOLID).1⟩

/-- **C5 (as the code behaves).** The claim is false: a line whose command
word is `M` alone is accepted as MINOR.  Here `M 1.0` on the initial state
sets the minor radius of the active record, `def`, from 0 to 1 and prints no
message. -/
theorem bare_m_counterexample :
    command_word "M 1.0".toList = ['M'] ∧
      (load_init ext_rat (empty_model ℚ)).defl.minor_radius = 0 ∧
      (model_load_line ext_rat 1 "M 1.0".toList
        (load_init ext_rat (empty_model ℚ))).defl.minor_radius = 1 ∧
      (model_load_line ext_rat 1 "M 1.0".toList (load_init ext_rat (empty_model ℚ))).out = [] := by
  decide!

/-- **C5 (amended).** In every well-formed parser state and for every
argument list, a line whose command word is `M` alone has exactly the effect
of the same line written with `MINOR`: no setting-mismatch message is
printed (at most the usage message of MINOR), and the major radius of the
active target and of `def` is unchanged. -/
theorem bare_m_is_minor (ext : Ext F) (st : LoadState F) (linenr : Nat) (rest : List Char)
    (hwf : st.wf) (hrest : is_line_rest rest) :
    model_load_line ext linenr ('M' :: rest) st =
        model_load_line ext linenr ("MINOR".toList ++ rest) st ∧
      ((model_load_line ext linenr ('M' :: rest) st).load ext).major_radius =
        (st.load ext).major_radius ∧
      (model_load_line ext linenr ('M' :: rest) st).defl.major_radius =
        st.defl.major_radius ∧
      ((model_load_line ext linenr ('M' :: rest) st).out = st.out ∨
        (model_load_line ext linenr ('M' :: rest) st).out =
          st.out ++ [Diag.usage linenr "MINOR".toList]) := by
  have hn : "MINOR".toList ∈ command_names := by simp [command_names]
  have hs : selects ['M'] "MINOR".toList := by decide
  have heq := line_of_selects ext linenr ['M'] "MINOR".toList rest st hn hs hrest
  obtain ⟨targs, ht⟩ := line_one_number_word ext linenr ['M'] "MINOR".toList rest
    Dest.minor_radius st (by simp [number_settings]) hn hs hrest
  have hfr := one_number_minor_frame ext linenr "MINOR".toList (['M'] :: targs) hwf
  rw [← ht] at hfr
  exact ⟨heq, hfr⟩

/-- Witness of the amended C5: the line `M 1.0` on the state after `SOLID`. -/
theorem bare_m_is_minor_witness :
    ((reached ext_rat (empty_model ℚ) (file_of ["SOLID"])).wf ∧ is_line_rest " 1.0".toList) ∧
    (model_load_line ext_rat 2 ('M' :: " 1.0".toList)
        (reached ext_rat (empty_model ℚ) (file_of ["SOLID"])) =
        model_load_line ext_rat 2 ("MINOR".toList ++ " 1.0".toList)
          (reached ext_rat (empty_model ℚ) (file_of ["SOLID"])) ∧
      ((model_load_line ext_rat 2 ('M' :: " 1.0".toList)
        (reached ext_rat (empty_model ℚ) (file_of ["SOLID"]))).load ext_rat).major_radius =
        ((reached ext_rat (empty_model ℚ) (file_of ["SOLID"])).load ext_rat).major_radius ∧
      (model_load_line ext_rat 2 ('M' :: " 1.0".toList)
        (reached ext_rat (empty_model ℚ) (file_of ["SOLID"]))).defl.major_radius =
        (reached ext_rat (empty_model ℚ) (file_of ["SOLID"])).defl.major_radius ∧
      ((model_load_line ext_rat 2 ('M' :: " 1.0".toList)
        (reached ext_rat (empty_model ℚ) (file_of ["SOLID"]))).out =
          (reached ext_rat (empty_model ℚ) (file_of ["SOLID"])).out ∨
        (model_load_line ext_rat 2 ('M' :: " 1.0".toList)
          (reached ext_rat (empty_model ℚ) (file_of ["SOLID"]))).out =
          (reached ext_rat (empty_model ℚ) (file_of ["SOLID"])).out ++
            [Diag.usage 2 "MINOR".toList])) ∧
    (model_load_line ext_rat 2 ('M' :: " 1.0".toList)
        (reached ext_rat (empty_model ℚ) (file_of ["SOLID"]))).model.items.map
        (fun it => (it.major_radius, it.minor_radius)) = [(0, 1)] :=
  ⟨⟨wf_reached _ _ _, by decide⟩,
    bare_m_is_minor ext_rat (reached ext_rat (empty_model ℚ) (file_of ["SOLID"])) 2
      " 1.0".toList (wf_reached _ _ _) (by decide),
    by decide!⟩

/-- **C6.** In every parser state and for every rest of the line, a line
whose command word selects a full name (a non-empty initial part of it that
the first-character and second-character tests lead to) leaves exactly the
state that the same line with the full name leaves: the same model, the same
`def`, the same target of `item`, the same output. -/
theorem abbreviation_same_effect (ext : Ext F) (st : LoadState F) (linenr : Nat)
    (w name rest : List Char)
    (hm : name ∈ command_names) (hs : selects w name) (hrest : is_line_rest rest) :
    model_load_line ext linenr (w ++ rest) st = model_load_line ext linenr (name ++ rest) st ∧
      (model_load_line ext linenr (w ++ rest) st).model =
        (model_load_line ext linenr (name ++ rest) st).model ∧
      (model_load_line ext linenr (w ++ rest) st).defl =
        (model_load_line ext linenr (name ++ rest) st).defl ∧
      (model_load_line ext linenr (w ++ rest) st).item =
        (model_load_line ext linenr (name ++ rest) st).item := by
  have h := line_of_selects ext linenr w name rest st hm hs hrest
  refine ⟨h, ?_, ?_, ?_⟩ <;> rw [h]

/-- Witness of C6: `MA +1.0` against `MAJOR +1.0` after `MAJOR 2.0`, `SOLID`;
and each abbreviation named in the claim selects its full name. -/
theorem abbreviation_same_effect_witness :
    ("MAJOR".toList ∈ command_names ∧ selects "MA".toList "MAJOR".toList ∧
      is_line_rest " +1.0".toList) ∧
    (model_load_line ext_rat 3 ("MA".toList ++ " +1.0".toList)
        (reached ext_rat (empty_model ℚ) (file_of ["MAJOR 2.0", "SOLID"])) =
        model_load_line ext_rat 3 ("MAJOR".toList ++ " +1.0".toList)
          (reached ext_rat (empty_model ℚ) (file_of ["MAJOR 2.0", "SOLID"])) ∧
      (model_load_line ext_rat 3 ("MA".toList ++ " +1.0".toList)
        (reached ext_rat (empty_model ℚ) (file_of ["MAJOR 2.0", "SOLID"]))).model =
        (model_load_line ext_rat 3 ("MAJOR".toList ++ " +1.0".toList)
          (reached ext_rat (empty_model ℚ) (file_of ["MAJOR 2.0", "SOLID"]))).model ∧
      (model_load_line ext_rat 3 ("MA".toList ++ " +1.0".toList)
        (reached ext_rat (empty_model ℚ) (file_of ["MAJOR 2.0", "SOLID"]))).defl =
        (model_load_line ext_rat 3 ("MAJOR".toList ++ " +1.0".toList)
          (reached ext_rat (empty_model ℚ) (file_of ["MAJOR 2.0", "SOLID"]))).defl ∧
      (model_load_line ext_rat 3 ("MA".toList ++ " +1.0".toList)
        (reached ext_rat (empty_model ℚ) (file_of ["MAJOR 2.0", "SOLID"]))).item =
        (model_load_line ext_rat 3 ("MAJOR".toList ++ " +1.0".toList)
          (reached ext_rat (empty_model ℚ) (file_of ["MAJOR 2.0", "SOLID"]))).item) ∧
    (model_load_line ext_rat 3 ("MA".toList ++ " +1.0".toList)
        (reached ext_rat (empty_model ℚ) (file_of ["MAJOR 2.0", "SOLID"]))).model.items.map
        (fun it => it.major_radius) = [3] ∧
    (selects "C".toList "COLOR".toList ∧ selects "E".toList "ELONGATION".toList ∧
      selects "MA".toList "MAJOR".toList ∧ selects "MI".toList "MINOR".toList ∧
      selects "N".toList "NUMBER".toList ∧ selects "P".toList "PITCH".toList ∧
      selects "PI".toList "PITCH".toList ∧ selects "PL".toList "PLANES".toList ∧
      selects "R".toList "RANGE".toList ∧ selects "T".toList "TRIANGULARITY".toList ∧
      selects "S".toList "SOLID".toList ∧ selects "L".toList "LINES".toList ∧
      selects "A".toList "ALPHA".toList) :=
  ⟨⟨by decide, by decide, by decide⟩,
    abbreviation_same_effect ext_rat
      (reached ext_rat (empty_model ℚ) (file_of ["MAJOR 2.0", "SOLID"])) 3
      "MA".toList "MAJOR".toList " +1.0".toList (by decide) (by decide) (by decide),
    by decide!, by decide⟩

/-- **C7.** In every parser state, a line that does not begin with `NAME` is
ignored, only a message being printed (the model, `def`, the pointer `item`
and `val` are unchanged), (a) when its first character is none of
`S L P A C E M N R T`: "unknown command"; (b) when the first character is
recognised but the command word is not an initial part of the full name the
`switch` expects: "unknown setting". -/
theorem rejected_line_is_ignored (ext : Ext F) (st : LoadState F) (linenr : Nat)
    (buffer : List Char) (hname : is_name_line buffer = false) :
    (char_at buffer 0 ∉ ['S', 'L', 'P', 'A', 'C', 'E', 'M', 'N', 'R', 'T'] →
        model_load_line ext linenr buffer st =
          st.print (Diag.unknown_command linenr (command_word buffer))) ∧
      (∀ name, expected_name (command_word buffer) = some name →
        ¬ command_word buffer <+: name →
        model_load_line ext linenr buffer st =
          st.print (Diag.unknown_setting linenr (command_word buffer) name)) ∧
      (∀ d, (st.print d).model = st.model ∧ (st.print d).defl = st.defl ∧
        (st.print d).item = st.item ∧ (st.print d).val = st.val) := by
  unfold is_name_line at hname
  refine ⟨?_, ?_, fun d => ⟨rfl, rfl, rfl, rfl⟩⟩
  · intro h
    rw [← char_at_command_word] at h
    unfold model_load_line
    rw [hname]
    unfold model_load_switch command_word at *
    simp only [Bool.false_eq_true, ↓reduceIte]
    generalize char_at ((split_args buffer DELIMS).headD []) 0 = c at h ⊢
    split <;> first | rfl | (exfalso; simp at h)
  · intro name hexp hnp
    have hc : CHECK_SETTING (command_word buffer) name (command_word buffer).length = false := by
      unfold CHECK_SETTING
      rw [Bool.eq_false_iff]
      exact fun h => hnp ((strncmp_eq_length_iff _ _).1 h)
    unfold model_load_line
    rw [hname]
    unfold model_load_switch expected_name command_word at *
    simp only [Bool.false_eq_true, ↓reduceIte]
    generalize char_at ((split_args buffer DELIMS).headD []) 0 = c at hexp ⊢
    split at hexp
    all_goals first
      | (simp only [Option.some.injEq] at hexp
         subst hexp
         simp only [hc]
         rfl)
      | (split at hexp <;>
          (simp only [Option.some.injEq] at hexp
           subst hexp
           simp only [hc, *]
           rfl))
      | cases hexp

/-- Witness of C7: `SOLIDS`, `COLOUR 1 0 0`, `LINE5`, `PLX` are unknown
settings and `X 1` is an unknown command; each only prints its message. -/
theorem rejected_line_is_ignored_witness :
    is_name_line "SOLIDS".toList = false ∧
    model_load_line ext_rat 1 "SOLIDS".toList (load_init ext_rat (empty_model ℚ)) =
      (load_init ext_rat (empty_model ℚ)).print
        (Diag.unknown_setting 1 "SOLIDS".toList "SOLID".toList) ∧
    model_load_line ext_rat 1 "COLOUR 1 0 0".toList (load_init ext_rat (empty_model ℚ)) =
      (load_init ext_rat (empty_model ℚ)).print
        (Diag.unknown_setting 1 "COLOUR".toList "COLOR".toList) ∧
    model_load_line ext_rat 1 "LINE5".toList (load_init ext_rat (empty_model ℚ)) =
      (load_init ext_rat (empty_model ℚ)).print
        (Diag.unknown_setting 1 "LINE5".toList "LINES".toList) ∧
    model_load_line ext_rat 1 "PLX".toList (load_init ext_rat (empty_model ℚ)) =
      (load_init ext_rat (empty_model ℚ)).print
        (Diag.unknown_setting 1 "PLX".toList "PLANES".toList) ∧
    model_load_line ext_rat 1 "X 1".toList (load_init ext_rat (empty_model ℚ)) =
      (load_init ext_rat (empty_model ℚ)).print (Diag.unknown_command 1 "X".toList) :=
  ⟨by decide,
    (rejected_line_is_ignored ext_rat (load_init ext_rat (empty_model ℚ)) 1 "SOLIDS".toList
      (by decide)).2.1 "SOLID".toList (by decide) (by decide),
    (rejected_line_is_ignored ext_rat (load_init ext_rat (empty_model ℚ)) 1
      "COLOUR 1 0 0".toList (by decide)).2.1 "COLOR".toList (by decide) (by decide),
    (rejected_line_is_ignored ext_rat (load_init ext_rat (empty_model ℚ)) 1 "LINE5".toList
      (by decide)).2.1 "LINES".toList (by decide) (by decide),
    (rejected_line_is_ignored ext_rat (load_init ext_rat (empty_model ℚ)) 1 "PLX".toList
      (by decide)).2.1 "PLANES".toList (by decide) (by decide),
    (rejected_line_is_ignored ext_rat (load_init ext_rat (empty_model ℚ)) 1 "X 1".toList
      (by decide)).1 (by decide)⟩

/-- **C8.** In every parser state and for every setting, a line whose
command word selects the setting but whose number of argument tokens is not
an accepted one (1 for ALPHA, ELONGATION, MAJOR, MINOR, NUMBER and
TRIANGULARITY, 2 for PITCH and RANGE, 1 or 3 for COLOR) is skipped: only the
usage message is printed; the model with its count and items, `def` and the
pointer `item` are unchanged. -/
theorem wrong_argument_count_skips (ext : Ext F) (st : LoadState F) (linenr : Nat)
    (buffer name : List Char) (counts : List Nat)
    (hname : is_name_line buffer = false)
    (hm : (name, counts) ∈ arg_counts)
    (hs : selects (command_word buffer) name)
    (hcount : (split_args buffer DELIMS).length - 1 ∉ counts) :
    model_load_line ext linenr buffer st = st.print (Diag.usage linenr name) ∧
      (model_load_line ext linenr buffer st).model = st.model ∧
      (model_load_line ext linenr buffer st).defl = st.defl ∧
      (model_load_line ext linenr buffer st).item = st.item := by
  have key : model_load_line ext linenr buffer st = st.print (Diag.usage linenr name) := by
    have h0 := char_at_zero_of_selects hs
    have hc := check_setting_of_selects hs
    have h1 := char_at_one_of_initial hs.2.1
    unfold is_name_line at hname
    unfold command_word at hs h0 hc h1
    unfold model_load_line
    rw [hname]
    simp only [Bool.false_eq_true, ↓reduceIte]
    simp only [arg_counts, List.mem_cons, List.mem_singleton, Prod.mk.injEq,
      List.not_mem_nil, or_false] at hm
    rcases hm with h | h | h | h | h | h | h | h | h
    all_goals obtain ⟨hn, hcn⟩ := h
    all_goals subst hn hcn
    · have hl : (split_args buffer DELIMS).length ≠ 2 := by
        intro h; rw [h] at hcount; simp at hcount
      rw [switch_one_number ext linenr _ st _ Dest.alpha (by simp [number_settings]) hs]
      simp [one_number, hl]
    · have hl : (split_args buffer DELIMS).length ≠ 2 := by
        intro h; rw [h] at hcount; simp at hcount
      rw [switch_one_number ext linenr _ st _ Dest.elongation (by simp [number_settings]) hs]
      simp [one_number, hl]
    · have hl : (split_args buffer DELIMS).length ≠ 2 := by
        intro h; rw [h] at hcount; simp at hcount
      rw [switch_one_number ext linenr _ st _ Dest.major_radius (by simp [number_settings]) hs]
      simp [one_number, hl]
    · have hl : (split_args buffer DELIMS).length ≠ 2 := by
        intro h; rw [h] at hcount; simp at hcount
      rw [switch_one_number ext linenr _ st _ Dest.minor_radius (by simp [number_settings]) hs]
      simp [one_number, hl]
    · have hl : (split_args buffer DELIMS).length ≠ 2 := by
        intro h; rw [h] at hcount; simp at hcount
      have h0' : char_at ((split_args buffer DELIMS).headD []) 0 = 'N' := h0
      unfold model_load_switch
      simp only [h0', hc]
      simp [hl]
    · have hl : (split_args buffer DELIMS).length ≠ 2 := by
        intro h; rw [h] at hcount; simp at hcount
      rw [switch_one_number ext linenr _ st _ Dest.triangularity (by simp [number_settings]) hs]
      simp [one_number, hl]
    · have hl : (split_args buffer DELIMS).length ≠ 3 := by
        intro h; rw [h] at hcount; simp at hcount
      have h0' : char_at ((split_args buffer DELIMS).headD []) 0 = 'P' := h0
      have h1' : char_at ((split_args buffer DELIMS).headD []) 1 ≠ 'L' := by
        rcases h1 with h | h <;> rw [h] <;> decide
      unfold model_load_switch
      simp only [h0', hc, h1']
      simp [hl]
    · have hl : (split_args buffer DELIMS).length ≠ 3 := by
        intro h; rw [h] at hcount; simp at hcount
      have h0' : char_at ((split_args buffer DELIMS).headD []) 0 = 'R' := h0
      unfold model_load_switch
      simp only [h0', hc]
      simp [hl]
    · have hl : (split_args buffer DELIMS).length ≠ 2 ∧ (split_args buffer DELIMS).length ≠ 4 := by
        constructor <;> (intro h; rw [h] at hcount; simp at hcount)
      have h0' : char_at ((split_args buffer DELIMS).headD []) 0 = 'C' := h0
      unfold model_load_switch
      simp only [h0', hc]
      simp [hl]
  rw [key]
  exact ⟨rfl, rfl, rfl, rfl⟩

/-- Witness of C8: `COLOR 1 0` (two tokens where one or three are accepted)
after `SOLID`; `RANGE 90` and `ALPHA` without a token are skipped too. -/
theorem wrong_argument_count_skips_witness :
    (is_name_line "COLOR 1 0".toList = false ∧
      ("COLOR".toList, [1, 3]) ∈ arg_counts ∧
      selects (command_word "COLOR 1 0".toList) "COLOR".toList ∧
      (split_args "COLOR 1 0".toList DELIMS).length - 1 ∉ [1, 3]) ∧
    (model_load_line ext_rat 2 "COLOR 1 0".toList
        (reached ext_rat (empty_model ℚ) (file_of ["SOLID"])) =
        (reached ext_rat (empty_model ℚ) (file_of ["SOLID"])).print
          (Diag.usage 2 "COLOR".toList) ∧
      (model_load_line ext_rat 2 "COLOR 1 0".toList
        (reached ext_rat (empty_model ℚ) (file_of ["SOLID"]))).model =
        (reached ext_rat (empty_model ℚ) (file_of ["SOLID"])).model ∧
      (model_load_line ext_rat 2 "COLOR 1 0".toList
        (reached ext_rat (empty_model ℚ) (file_of ["SOLID"]))).defl =
        (reached ext_rat (empty_model ℚ) (file_of ["SOLID"])).defl ∧
      (model_load_line ext_rat 2 "COLOR 1 0".toList
        (reached ext_rat (empty_model ℚ) (file_of ["SOLID"]))).item =
        (reached ext_rat (empty_model ℚ) (file_of ["SOLID"])).item) ∧
    (model_load_line ext_rat 2 "RANGE 90".toList
        (reached ext_rat (empty_model ℚ) (file_of ["SOLID"]))).model =
      (reached ext_rat (empty_model ℚ) (file_of ["SOLID"])).model ∧
    (model_load_line ext_rat 2 "ALPHA".toList
        (reached ext_rat (empty_model ℚ) (file_of ["SOLID"]))).model =
      (reached ext_rat (empty_model ℚ) (file_of ["SOLID"])).model :=
  ⟨⟨by decide, by decide, by decide, by decide⟩,
    wrong_argument_count_skips ext_rat (reached ext_rat (empty_model ℚ) (file_of ["SOLID"])) 2
      "COLOR 1 0".toList "COLOR".toList [1, 3] (by decide) (by decide) (by decide) (by decide),
    by decide!, by decide!⟩

end Claims

section ClaimsNumbers

variable {F : Type}

/-- **C9.** `str_to_num` chooses the operation from the first character
only: `+` gives ADD, `-` SUB, `*` MUL, `/` DIV, each with the magnitude that
`sscanf` reads from the rest of the token; any other first character gives
SET with the magnitude read from the whole token; and whenever `sscanf` does
not read a number it returns INVALID and leaves `*val` as it was, which is
the case of the empty token and of a bare operator character (on which
`sscanf` is given the empty string). -/
theorem str_to_num_first_char (ext : Ext F) (val : F) (hempty : ext.sscanf_f [] = none) :
    (∀ t, str_to_num ext ('+' :: t) val =
        match ext.sscanf_f t with
        | some v => (NUM_ADD, v)
        | none => (NUM_INVALID, val)) ∧
      (∀ t, str_to_num ext ('-' :: t) val =
        match ext.sscanf_f t with
        | some v => (NUM_SUB, v)
        | none => (NUM_INVALID, val)) ∧
      (∀ t, str_to_num ext ('*' :: t) val =
        match ext.sscanf_f t with
        | some v => (NUM_MUL, v)
        | none => (NUM_INVALID, val)) ∧
      (∀ t, str_to_num ext ('/' :: t) val =
        match ext.sscanf_f t with
        | some v => (NUM_DIV, v)
        | none => (NUM_INVALID, val)) ∧
      (∀ c t, c ∉ ['+', '-', '*', '/'] → str_to_num ext (c :: t) val =
        match ext.sscanf_f (c :: t) with
        | some v => (NUM_SET, v)
        | none => (NUM_INVALID, val)) ∧
      str_to_num ext [] val = (NUM_INVALID, val) ∧
      (∀ c ∈ ['+', '-', '*', '/'], str_to_num ext [c] val = (NUM_INVALID, val)) := by
  refine ⟨?_, ?_, ?_, ?_, ?_, ?_, ?_⟩
  · intro t
    simp only [str_to_num, str_to_num_op]
    cases ext.sscanf_f t <;> rfl
  · intro t
    simp only [str_to_num, str_to_num_op]
    cases ext.sscanf_f t <;> rfl
  · intro t
    simp only [str_to_num, str_to_num_op]
    cases ext.sscanf_f t <;> rfl
  · intro t
    simp only [str_to_num, str_to_num_op]
    cases ext.sscanf_f t <;> rfl
  · intro c t hc
    simp only [List.mem_cons, List.mem_singleton, List.not_mem_nil, or_false, not_or] at hc
    obtain ⟨h1, h2, h3, h4⟩ := hc
    have hop : str_to_num_op (c :: t) = (NUM_SET, c :: t) := by
      unfold str_to_num_op
      split <;> first | rfl | (rename_i heq; cases heq; contradiction)
    simp only [str_to_num, hop]
    cases ext.sscanf_f (c :: t) <;> rfl
  · simp [str_to_num, str_to_num_op, hempty]
  · intro c hc
    simp only [List.mem_cons, List.mem_singleton, List.not_mem_nil, or_false] at hc
    rcases hc with rfl | rfl | rfl | rfl <;> simp [str_to_num, str_to_num_op, hempty]

/-- Witness of C9, with the decimal model of `sscanf`: `+1.5`, `-2`, `*3`,
`/4`, `0.25`, and the invalid `x`, the empty token and the bare `+`. -/
theorem str_to_num_first_char_witness :
    ext_rat.sscanf_f [] = none ∧
    str_to_num ext_rat "+1.5".toList 7 = (NUM_ADD, 3 / 2) ∧
    str_to_num ext_rat "-2".toList 7 = (NUM_SUB, 2) ∧
    str_to_num ext_rat "*3".toList 7 = (NUM_MUL, 3) ∧
    str_to_num ext_rat "/4".toList 7 = (NUM_DIV, 4) ∧
    str_to_num ext_rat "0.25".toList 7 = (NUM_SET, 1 / 4) ∧
    str_to_num ext_rat "x".toList 7 = (NUM_INVALID, 7) ∧
    str_to_num ext_rat [] 7 = (NUM_INVALID, 7) ∧
    str_to_num ext_rat ['+'] 7 = (NUM_INVALID, 7) :=
  ⟨by decide!, by decide!, by decide!, by decide!, by decide!, by decide!, by decide!,
    (str_to_num_first_char ext_rat 7 (by decide!)).2.2.2.2.2.1,
    (str_to_num_first_char ext_rat 7 (by decide!)).2.2.2.2.2.2 '+' (by decide)⟩

end ClaimsNumbers

section ClaimsSettings

variable {F : Type} [Zero F] [One F] [NatCast F] [Add F] [Sub F] [Mul F] [Div F]

set_option linter.unusedSectionVars false

/-- **C10.** For ALPHA, ELONGATION, MAJOR, MINOR and TRIANGULARITY with
exactly one argument token that `str_to_num` reads as operation `op` with
magnitude `v`: the field of the active target becomes `v` for SET, `d + v`
for ADD, `d - v` for SUB, `d * v` for MUL and `d / v` for DIV, where `d` is
the value of the same field of `def`; the active target changes in that field
only, the count, the pointer `item`, the output and (once an item exists)
`def` and the earlier items are unchanged; for INVALID only the usage message
is printed and the field keeps its value. -/
theorem one_number_setting_effect (ext : Ext F) (st : LoadState F) (linenr : Nat)
    (buffer w tok name : List Char) (fld : Dest F) (op : NUM_OP) (v : F)
    (hwf : st.wf)
    (hname : is_name_line buffer = false)
    (hm : (name, fld) ∈ number_settings F)
    (hs : selects w name)
    (hargs : split_args buffer DELIMS = [w, tok])
    (hop : str_to_num ext tok st.val = (op, v)) :
    (∀ x, resolve op (fld.get st.defl) v = some x →
        model_load_line ext linenr buffer st = LoadState.store { st with val := v } (fld.set x) ∧
        (model_load_line ext linenr buffer st).load ext = fld.set x (st.load ext) ∧
        fld.get ((model_load_line ext linenr buffer st).load ext) = x ∧
        (model_load_line ext linenr buffer st).model.nitems = st.model.nitems ∧
        (model_load_line ext linenr buffer st).item = st.item ∧
        (model_load_line ext linenr buffer st).out = st.out ∧
        (0 < st.model.nitems →
          (model_load_line ext linenr buffer st).defl = st.defl ∧
          (model_load_line ext linenr buffer st).model.items.take (st.model.nitems - 1).toNat =
            st.model.items.take (st.model.nitems - 1).toNat) ∧
        (st.model.nitems = 0 → (model_load_line ext linenr buffer st).model = st.model)) ∧
      ((op = NUM_SET → fld.get ((model_load_line ext linenr buffer st).load ext) = v) ∧
        (op = NUM_ADD →
          fld.get ((model_load_line ext linenr buffer st).load ext) = fld.get st.defl + v) ∧
        (op = NUM_SUB →
          fld.get ((model_load_line ext linenr buffer st).load ext) = fld.get st.defl - v) ∧
        (op = NUM_MUL →
          fld.get ((model_load_line ext linenr buffer st).load ext) = fld.get st.defl * v) ∧
        (op = NUM_DIV →
          fld.get ((model_load_line ext linenr buffer st).load ext) = fld.get st.defl / v)) ∧
      (op = NUM_INVALID →
        (model_load_line ext linenr buffer st).load ext = st.load ext ∧
        (model_load_line ext linenr buffer st).model = st.model ∧
        (model_load_line ext linenr buffer st).defl = st.defl ∧
        (model_load_line ext linenr buffer st).item = st.item ∧
        (model_load_line ext linenr buffer st).out = st.out ++ [Diag.usage linenr name]) := by
  have hline := line_one_number ext linenr buffer w tok name fld st hname hm hs hargs
  rw [GET_VALUE_eq ext tok fld _ st op v hop] at hline
  have hwv : LoadState.wf { st with val := v } := wf_val hwf v
  have hA : ∀ x, resolve op (fld.get st.defl) v = some x →
      model_load_line ext linenr buffer st = LoadState.store { st with val := v } (fld.set x) := by
    intro x hx
    rw [hline, hx]
  have hget : ∀ x, resolve op (fld.get st.defl) v = some x →
      fld.get ((model_load_line ext linenr buffer st).load ext) = x := by
    intro x hx
    rw [hA x hx, load_store ext hwv, get_set_of_mem hm]
  refine ⟨?_, ⟨?_, ?_, ?_, ?_, ?_⟩, ?_⟩
  · intro x hx
    have hl := hA x hx
    refine ⟨hl, ?_, hget x hx, ?_, ?_, ?_, ?_, ?_⟩
    · rw [hl, load_store ext hwv]
      rfl
    · rw [hl]; simp
    · rw [hl]; simp
    · rw [hl]; simp
    · intro hpos
      have hfr := store_frame hwv hpos (fld.set x) (le_refl _)
      have hi := items_of_wf hwf hpos
      have hi' : (LoadState.store { st with val := v } (fld.set x)).model.items =
          (LoadState.store { st with val := v } (fld.set x)).model.item :=
        items_of_wf (wf_store hwv _) (by simpa using hpos)
      rw [hl]
      exact ⟨hfr.1, by rw [hi, hi']; exact hfr.2⟩
    · intro h0
      have hp : st.item = ItemPtr.to_def := by
        rcases hwf with ⟨-, hp⟩ | ⟨hpos, -, -⟩
        · exact hp
        · omega
      rw [hl]
      unfold LoadState.store
      simp only [hp]
  · intro h; exact hget v (by rw [h]; rfl)
  · intro h; exact hget _ (by rw [h]; rfl)
  · intro h; exact hget _ (by rw [h]; rfl)
  · intro h; exact hget _ (by rw [h]; rfl)
  · intro h; exact hget _ (by rw [h]; rfl)
  · intro h
    subst h
    have hv : v = st.val := by
      unfold str_to_num at hop
      split at hop
      · exact (Prod.mk.inj hop).2.symm
      · rename_i u hu
        have h1 := (Prod.mk.inj hop).1
        unfold str_to_num_op at h1
        split at h1 <;> cases h1
    subst hv
    have hl : model_load_line ext linenr buffer st = st.print (Diag.usage linenr name) := by
      rw [hline]; rfl
    rw [hl]
    exact ⟨rfl, rfl, rfl, rfl, rfl⟩

/-- Witness of C10: `ALPHA 0.5` (SET) on the item started by `SOLID`, then
`ELONGATION /4` after the default `ELONGATION 0.5`, and the invalid
`MAJOR x`. -/
theorem one_number_setting_effect_witness :
    ((reached ext_rat (empty_model ℚ) (file_of ["ELONGATION 0.5", "SOLID"])).wf ∧
      is_name_line "ELONGATION /4".toList = false ∧
      selects "ELONGATION".toList "ELONGATION".toList ∧
      split_args "ELONGATION /4".toList DELIMS = ["ELONGATION".toList, "/4".toList] ∧
      str_to_num ext_rat "/4".toList
        (reached ext_rat (empty_model ℚ) (file_of ["ELONGATION 0.5", "SOLID"])).val =
          (NUM_DIV, 4)) ∧
    Dest.elongation.get ((model_load_line ext_rat 3 "ELONGATION /4".toList
        (reached ext_rat (empty_model ℚ) (file_of ["ELONGATION 0.5", "SOLID"]))).load ext_rat) =
      Dest.elongation.get
        (reached ext_rat (empty_model ℚ) (file_of ["ELONGATION 0.5", "SOLID"])).defl / 4 ∧
    (model_load_line ext_rat 3 "ELONGATION /4".toList
        (reached ext_rat (empty_model ℚ) (file_of ["ELONGATION 0.5", "SOLID"]))).model.items =
      [{ def_init ext_rat with type := some DRAW_SOLID, elongation := 1 / 8 }] ∧
    (model_load_line ext_rat 3 "ALPHA 0.5".toList
        (reached ext_rat (empty_model ℚ) (file_of ["ELONGATION 0.5", "SOLID"]))).model.items =
      [{ def_init ext_rat with
          type := some DRAW_SOLID
          elongation := 1 / 2
          color := { r := 0, g := 0, b := 0, alpha := 1 / 2 } }] ∧
    (model_load_line ext_rat 3 "MAJOR x".toList
        (reached ext_rat (empty_model ℚ) (file_of ["ELONGATION 0.5", "SOLID"]))).model =
      (reached ext_rat (empty_model ℚ) (file_of ["ELONGATION 0.5", "SOLID"])).model :=
  ⟨⟨wf_reached _ _ _, by decide, by decide, by decide, by decide!⟩,
    (one_number_setting_effect ext_rat
      (reached ext_rat (empty_model ℚ) (file_of ["ELONGATION 0.5", "SOLID"])) 3
      "ELONGATION /4".toList "ELONGATION".toList "/4".toList "ELONGATION".toList
      Dest.elongation NUM_DIV 4 (wf_reached _ _ _) (by decide) (by simp [number_settings])
      (by decide) (by decide) (by decide!)).2.1.2.2.2.2 rfl,
    by decide!, by decide!, by decide!⟩

end ClaimsSettings

section ClaimsValues

variable {F : Type} [Zero F] [One F] [NatCast F] [Add F] [Sub F] [Mul F] [Div F]

set_option linter.unusedSectionVars false

/-- **C11.** For `RANGE t0 t1` with exactly two argument tokens, read by
`str_to_num` as `(op0, v0)` and `(op1, v1)`, the fields `phi0` and `phi1` of
the active target are resolved independently against `phi0` and `phi1` of
`def`: SET gives `v*PI/180`, ADD `d + v*PI/180`, SUB `d - v*PI/180`, MUL `d*v`
and DIV `d/v` without conversion (an INVALID token leaves its field as it
was); no other field, the count or the pointer `item` changes.  In
particular, for the magnitudes 0 and 180 with SET, where the arithmetic gives
`0*PI/180 = 0` and `180*PI/180 = PI`, `phi0` becomes 0 and `phi1` becomes
`PI`. -/
theorem range_effect (ext : Ext F) (st res : LoadState F) (linenr : Nat)
    (buffer w t0 t1 : List Char) (op0 op1 : NUM_OP) (v0 v1 : F)
    (hwf : st.wf)
    (hname : is_name_line buffer = false)
    (hs : selects w "RANGE".toList)
    (hargs : split_args buffer DELIMS = [w, t0, t1])
    (hop0 : str_to_num ext t0 st.val = (op0, v0))
    (hop1 : str_to_num ext t1 v0 = (op1, v1))
    (hres : res = model_load_line ext linenr buffer st) :
    res.load ext =
        { st.load ext with
          phi0 := (resolve_range ext.PI op0 st.defl.phi0 v0).getD (st.load ext).phi0
          phi1 := (resolve_range ext.PI op1 st.defl.phi1 v1).getD (st.load ext).phi1 } ∧
      res.model.nitems = st.model.nitems ∧ res.item = st.item ∧
      ((op1 = NUM_SET → (res.load ext).phi1 = v1 * ext.PI / 180) ∧
        (op1 = NUM_ADD → (res.load ext).phi1 = st.defl.phi1 + v1 * ext.PI / 180) ∧
        (op1 = NUM_SUB → (res.load ext).phi1 = st.defl.phi1 - v1 * ext.PI / 180) ∧
        (op1 = NUM_MUL → (res.load ext).phi1 = st.defl.phi1 * v1) ∧
        (op1 = NUM_DIV → (res.load ext).phi1 = st.defl.phi1 / v1)) ∧
      ((op0 = NUM_SET → (res.load ext).phi0 = v0 * ext.PI / 180) ∧
        (op0 = NUM_ADD → (res.load ext).phi0 = st.defl.phi0 + v0 * ext.PI / 180) ∧
        (op0 = NUM_SUB → (res.load ext).phi0 = st.defl.phi0 - v0 * ext.PI / 180) ∧
        (op0 = NUM_MUL → (res.load ext).phi0 = st.defl.phi0 * v0) ∧
        (op0 = NUM_DIV → (res.load ext).phi0 = st.defl.phi0 / v0)) ∧
      (op0 = NUM_SET → v0 = 0 → op1 = NUM_SET → v1 = 180 →
        (0 : F) * ext.PI / 180 = 0 → (180 : F) * ext.PI / 180 = ext.PI →
        (res.load ext).phi0 = 0 ∧ (res.load ext).phi1 = ext.PI) := by
  have hline := line_range ext linenr buffer w t0 t1 st hname hs hargs
  rw [RANGE_VALUE_eq ext t0 Dest.phi0 _ st op0 v0 hop0] at hline
  obtain ⟨hw1, hv1, hl1, hd1⟩ := value_step ext hwf Dest.phi0
    (Diag.usage linenr "RANGE".toList) v0 (resolve_range ext.PI op0 (Dest.phi0.get st.defl) v0)
  have hbase := hd1 F (fun it => it.phi1) (fun _ _ => rfl)
  generalize hs1 : (match resolve_range ext.PI op0 (Dest.phi0.get st.defl) v0 with
      | some x => LoadState.store { st with val := v0 } (Dest.phi0.set x)
      | none => LoadState.print { st with val := v0 } (Diag.usage linenr "RANGE".toList)) = s1
    at hline hw1 hv1 hl1 hbase
  rw [RANGE_VALUE_eq ext t1 Dest.phi1 _ s1 op1 v1 (by rw [hv1]; exact hop1)] at hline
  obtain ⟨-, -, hl2, -⟩ := value_step ext hw1 Dest.phi1
    (Diag.usage linenr "RANGE".toList) v1 (resolve_range ext.PI op1 (Dest.phi1.get s1.defl) v1)
  rw [← hline, ← hres] at hl2
  have hb : Dest.phi1.get s1.defl = st.defl.phi1 := hbase
  rw [hb, hl1] at hl2
  have hload : res.load ext =
      { st.load ext with
        phi0 := (resolve_range ext.PI op0 st.defl.phi0 v0).getD (st.load ext).phi0
        phi1 := (resolve_range ext.PI op1 st.defl.phi1 v1).getD (st.load ext).phi1 } := by
    rw [hl2]
    cases resolve_range ext.PI op1 st.defl.phi1 v1 <;>
      cases h0 : resolve_range ext.PI op0 (Dest.phi0.get st.defl) v0 <;>
      (have h0' : resolve_range ext.PI op0 st.defl.phi0 v0 = _ := h0
       rw [h0']
       rfl)
  have hkeep : res.model.nitems = st.model.nitems ∧ res.item = st.item := by
    rw [hres]
    exact model_load_line_closed_setting ext
      (fun s => s.model.nitems = st.model.nitems ∧ s.item = st.item)
      (fun _ _ h => h) (fun s f h => by simpa using h) (fun _ _ h => h)
      linenr buffer (by
        unfold command_word
        rw [hargs]
        exact Or.inl (by
          have h0 : char_at w 0 = 'R' := char_at_zero_of_selects hs
          simp [h0])) st ⟨rfl, rfl⟩
  have hphi1 : (res.load ext).phi1 =
      (resolve_range ext.PI op1 st.defl.phi1 v1).getD (st.load ext).phi1 := by
    rw [hload]
  have hphi0 : (res.load ext).phi0 =
      (resolve_range ext.PI op0 st.defl.phi0 v0).getD (st.load ext).phi0 := by
    rw [hload]
  refine ⟨hload, hkeep.1, hkeep.2, ⟨?_, ?_, ?_, ?_, ?_⟩, ⟨?_, ?_, ?_, ?_, ?_⟩, ?_⟩
  · intro h; rw [hphi1, h]; rfl
  · intro h; rw [hphi1, h]; rfl
  · intro h; rw [hphi1, h]; rfl
  · intro h; rw [hphi1, h]; rfl
  · intro h; rw [hphi1, h]; rfl
  · intro h; rw [hphi0, h]; rfl
  · intro h; rw [hphi0, h]; rfl
  · intro h; rw [hphi0, h]; rfl
  · intro h; rw [hphi0, h]; rfl
  · intro h; rw [hphi0, h]; rfl
  · intro h0 hv0 h1 hv1' ha hb'
    refine ⟨?_, ?_⟩
    · rw [hphi0, h0, hv0]; exact ha
    · rw [hphi1, h1, hv1']; exact hb'

/-- Witness of C11: `RANGE 0 180` on the item started by `SOLID`, with the
defaults `phi0 = 0`, `phi1 = 2*PI`, gives `phi0 = 0` and `phi1 = PI`; and
`RANGE +90 /2` gives `0 + 90*PI/180` and `2*PI/2`. -/
theorem range_effect_witness :
    ((reached ext_rat (empty_model ℚ) (file_of ["SOLID"])).wf ∧
      is_name_line "RANGE 0 180".toList = false ∧
      selects "RANGE".toList "RANGE".toList ∧
      split_args "RANGE 0 180".toList DELIMS = ["RANGE".toList, "0".toList, "180".toList] ∧
      str_to_num ext_rat "0".toList (reached ext_rat (empty_model ℚ) (file_of ["SOLID"])).val =
        (NUM_SET, 0) ∧
      str_to_num ext_rat "180".toList 0 = (NUM_SET, 180) ∧
      (0 : ℚ) * ext_rat.PI / 180 = 0 ∧ (180 : ℚ) * ext_rat.PI / 180 = ext_rat.PI) ∧
    ((reached ext_rat (empty_model ℚ) (file_of ["SOLID"])).defl.phi0 = 0 ∧
      (reached ext_rat (empty_model ℚ) (file_of ["SOLID"])).defl.phi1 = 2 * ext_rat.PI) ∧
    (((model_load_line ext_rat 2 "RANGE 0 180".toList
        (reached ext_rat (empty_model ℚ) (file_of ["SOLID"]))).load ext_rat).phi0 = 0 ∧
      ((model_load_line ext_rat 2 "RANGE 0 180".toList
        (reached ext_rat (empty_model ℚ) (file_of ["SOLID"]))).load ext_rat).phi1 =
        ext_rat.PI) ∧
    (model_load_line ext_rat 2 "RANGE +90 /2".toList
        (reached ext_rat (empty_model ℚ) (file_of ["SOLID"]))).model.items.map
        (fun it => (it.phi0, it.phi1)) =
      [(0 + 90 * ext_rat.PI / 180, 2 * ext_rat.PI / 2)] :=
  ⟨⟨wf_reached _ _ _, by decide, by decide, by decide, by decide!, by decide!, by decide!,
      by decide!⟩,
    ⟨by decide!, by decide!⟩,
    (range_effect ext_rat (reached ext_rat (empty_model ℚ) (file_of ["SOLID"])) _ 2
      "RANGE 0 180".toList "RANGE".toList "0".toList "180".toList NUM_SET NUM_SET 0 180
      (wf_reached _ _ _) (by decide) (by decide) (by decide) (by decide!) (by decide!)
      rfl).2.2.2.2.2 rfl rfl rfl rfl (by decide!) (by decide!),
    by decide!⟩

/-- **C12.** `find_color` succeeds (returns 0) exactly for the names WHITE,
BLACK, RED, GREEN and BLUE, and then sets `(r, g, b)` to `(1,1,1)`,
`(0,0,0)`, `(1,0,0)`, `(0,1,0)`, `(0,0,1)` and leaves alpha; for any other
name it returns 1 and leaves the colour as it was.  Hence a `COLOR` line
with one argument token gives the active target the looked-up colour, and
for an unknown name only prints the message. -/
theorem find_color_lookup (ext : Ext F) (st res : LoadState F) (linenr : Nat)
    (buffer w nm : List Char)
    (hwf : st.wf)
    (hname : is_name_line buffer = false)
    (hs : selects w "COLOR".toList)
    (hargs : split_args buffer DELIMS = [w, nm])
    (hres : res = model_load_line ext linenr buffer st) :
    (∀ (name : List Char) (color : TColor F),
        ((find_color name color).1 = 0 ↔ name ∈ color_names) ∧
        (name = "WHITE".toList →
          find_color name color = (0, { color with r := 1, g := 1, b := 1 })) ∧
        (name = "BLACK".toList →
          find_color name color = (0, { color with r := 0, g := 0, b := 0 })) ∧
        (name = "RED".toList →
          find_color name color = (0, { color with r := 1, g := 0, b := 0 })) ∧
        (name = "GREEN".toList →
          find_color name color = (0, { color with r := 0, g := 1, b := 0 })) ∧
        (name = "BLUE".toList →
          find_color name color = (0, { color with r := 0, g := 0, b := 1 })) ∧
        (name ∉ color_names → find_color name color = (1, color))) ∧
      res.load ext = { st.load ext with color := (find_color nm (st.load ext).color).2 } ∧
      res.model.nitems = st.model.nitems ∧ res.item = st.item ∧
      (nm ∈ color_names → res.out = st.out) ∧
      (nm ∉ color_names → res = st.print (Diag.color_not_known linenr nm)) := by
  have htab : ∀ (name : List Char) (color : TColor F),
      ((find_color name color).1 = 0 ↔ name ∈ color_names) ∧
      (name ∉ color_names → find_color name color = (1, color)) := by
    intro name color
    rcases find_color_cases name color with h | h | h | h | h | h
    all_goals obtain ⟨hn, hf⟩ := h
    · exact ⟨⟨fun _ => by rw [hn]; decide, fun _ => by rw [hf]⟩,
        fun hnot => absurd (by rw [hn]; decide) hnot⟩
    · exact ⟨⟨fun _ => by rw [hn]; decide, fun _ => by rw [hf]⟩,
        fun hnot => absurd (by rw [hn]; decide) hnot⟩
    · exact ⟨⟨fun _ => by rw [hn]; decide, fun _ => by rw [hf]⟩,
        fun hnot => absurd (by rw [hn]; decide) hnot⟩
    · exact ⟨⟨fun _ => by rw [hn]; decide, fun _ => by rw [hf]⟩,
        fun hnot => absurd (by rw [hn]; decide) hnot⟩
    · exact ⟨⟨fun _ => by rw [hn]; decide, fun _ => by rw [hf]⟩,
        fun hnot => absurd (by rw [hn]; decide) hnot⟩
    · have h10 : (find_color name color).1 ≠ 0 := by
        rw [hf]
        exact one_ne_zero
      exact ⟨⟨fun h0 => absurd h0 h10, fun hin => absurd hin hn⟩, fun _ => hf⟩
  have hline := line_color_name ext linenr buffer w nm st hname hs hargs
  rw [← hres] at hline
  have hkeep := line_keeps_count ext linenr buffer w "COLOR".toList [nm] st (by decide) hs hargs
  rw [← hres] at hkeep
  refine ⟨fun name color => ⟨(htab name color).1, ?_, ?_, ?_, ?_, ?_, (htab name color).2⟩,
    ?_, hkeep.1, hkeep.2, ?_, ?_⟩
  · intro h; subst h; rfl
  · intro h; subst h; rfl
  · intro h; subst h; rfl
  · intro h; subst h; rfl
  · intro h; subst h; rfl
  · rw [hline]
    split
    · rw [print_load, load_store ext hwf]
    · rw [load_store ext hwf]
  · intro hin
    have h0 := ((htab nm (st.load ext).color).1).2 hin
    rw [hline, if_neg (by simp [h0])]
    simp
  · intro hnot
    have h1 := (htab nm (st.load ext).color).2 hnot
    rw [hline, h1]
    simp only [ne_eq, one_ne_zero, not_false_eq_true, ↓reduceIte]
    rw [store_eq_self ext hwf _ rfl]

/-- Witness of C12: after `SOLID`, `COLOR RED` gives the item the colour
`(1, 0, 0)`, while `COLOR PURPLE` and the abbreviation `COLOR RE` leave the
model as it was and print "not known". -/
theorem find_color_lookup_witness :
    ((reached ext_rat (empty_model ℚ) (file_of ["SOLID"])).wf ∧
      is_name_line "COLOR RED".toList = false ∧
      selects "COLOR".toList "COLOR".toList ∧
      split_args "COLOR RED".toList DELIMS = ["COLOR".toList, "RED".toList]) ∧
    find_color "RED".toList (fresh_rat.color) = (0, { r := 1, g := 0, b := 0, alpha := 9 }) ∧
    (model_load_line ext_rat 2 "COLOR RED".toList
        (reached ext_rat (empty_model ℚ) (file_of ["SOLID"]))).model.items.map
        (fun it => it.color) = [{ r := 1, g := 0, b := 0, alpha := 1 }] ∧
    model_load_line ext_rat 2 "COLOR PURPLE".toList
        (reached ext_rat (empty_model ℚ) (file_of ["SOLID"])) =
      (reached ext_rat (empty_model ℚ) (file_of ["SOLID"])).print
        (Diag.color_not_known 2 "PURPLE".toList) ∧
    model_load_line ext_rat 2 "COLOR RE".toList
        (reached ext_rat (empty_model ℚ) (file_of ["SOLID"])) =
      (reached ext_rat (empty_model ℚ) (file_of ["SOLID"])).print
        (Diag.color_not_known 2 "RE".toList) :=
  ⟨⟨wf_reached _ _ _, by decide, by decide, by decide⟩,
    ((find_color_lookup ext_rat (reached ext_rat (empty_model ℚ) (file_of ["SOLID"])) _ 2
      "COLOR RED".toList "COLOR".toList "RED".toList (wf_reached _ _ _) (by decide)
      (by decide) (by decide) rfl).1 "RED".toList fresh_rat.color).2.2.2.1 rfl,
    by decide!, by decide!,
    (find_color_lookup ext_rat (reached ext_rat (empty_model ℚ) (file_of ["SOLID"])) _ 2
      "COLOR RE".toList "COLOR".toList "RE".toList (wf_reached _ _ _) (by decide)
      (by decide) (by decide) rfl).2.2.2.2.2 (by decide)⟩

/-- **C13.** For `COLOR t1 t2 t3` with exactly three argument tokens, read by
`str_to_num` as `(o1, v1)`, `(o2, v2)`, `(o3, v3)`, the channels `r`, `g`, `b`
of the active target are resolved independently through the value grammar
against `r`, `g`, `b` of `def` (an INVALID token leaves its channel as it
was); alpha, every other field, the count and the pointer `item` are
unchanged. -/
theorem color_triple_effect (ext : Ext F) (st res : LoadState F) (linenr : Nat)
    (buffer w t1 t2 t3 : List Char) (o1 o2 o3 : NUM_OP) (v1 v2 v3 : F)
    (hwf : st.wf)
    (hname : is_name_line buffer = false)
    (hs : selects w "COLOR".toList)
    (hargs : split_args buffer DELIMS = [w, t1, t2, t3])
    (h1 : str_to_num ext t1 st.val = (o1, v1))
    (h2 : str_to_num ext t2 v1 = (o2, v2))
    (h3 : str_to_num ext t3 v2 = (o3, v3))
    (hres : res = model_load_line ext linenr buffer st) :
    res.load ext =
        { st.load ext with
          color :=
            { r := (resolve o1 st.defl.color.r v1).getD (st.load ext).color.r
              g := (resolve o2 st.defl.color.g v2).getD (st.load ext).color.g
              b := (resolve o3 st.defl.color.b v3).getD (st.load ext).color.b
              alpha := (st.load ext).color.alpha } } ∧
      res.model.nitems = st.model.nitems ∧ res.item = st.item := by
  have hline := line_color_triple ext linenr buffer w t1 t2 t3 st hname hs hargs
  have hkeep := line_keeps_count ext linenr buffer w "COLOR".toList [t1, t2, t3] st
    (by decide) hs hargs
  rw [← hres] at hline hkeep
  obtain ⟨hw1, hv1, hl1, hd1⟩ := get_value_step ext hwf t1 Dest.r
    (Diag.usage linenr "COLOR".toList) o1 v1 h1
  have hg1 := hd1 F (fun it => it.color.g) (fun _ _ => rfl)
  have hb1 := hd1 F (fun it => it.color.b) (fun _ _ => rfl)
  generalize GET_VALUE ext t1 Dest.r (Diag.usage linenr "COLOR".toList) st = s1
    at hline hw1 hv1 hl1 hg1 hb1
  obtain ⟨hw2, hv2, hl2, hd2⟩ := get_value_step ext hw1 t2 Dest.g
    (Diag.usage linenr "COLOR".toList) o2 v2 (by rw [hv1]; exact h2)
  have hb2 := hd2 F (fun it => it.color.b) (fun _ _ => rfl)
  generalize GET_VALUE ext t2 Dest.g (Diag.usage linenr "COLOR".toList) s1 = s2
    at hline hw2 hv2 hl2 hb2
  obtain ⟨-, -, hl3, -⟩ := get_value_step ext hw2 t3 Dest.b
    (Diag.usage linenr "COLOR".toList) o3 v3 (by rw [hv2]; exact h3)
  rw [← hline] at hl3
  have e1 : Dest.r.get st.defl = st.defl.color.r := rfl
  have e2 : Dest.g.get s1.defl = st.defl.color.g := hg1
  have e3 : Dest.b.get s2.defl = st.defl.color.b := hb2.trans hb1
  rw [e3, hl2, e2, hl1, e1] at hl3
  refine ⟨?_, hkeep.1, hkeep.2⟩
  rw [hl3]
  cases resolve o1 st.defl.color.r v1 <;> cases resolve o2 st.defl.color.g v2 <;>
    cases resolve o3 st.defl.color.b v3 <;> rfl

/-- Witness of C13: after `SOLID`, `COLOR 0 0 1` gives the colour `(0, 0, 1)`
with alpha 1; after the defaults `COLOR 0.5 0.5 0.5`, the line
`COLOR +0.25 *2 /5` gives `(0.75, 1, 0.1)`. -/
theorem color_triple_effect_witness :
    ((reached ext_rat (empty_model ℚ) (file_of ["SOLID"])).wf ∧
      is_name_line "COLOR 0 0 1".toList = false ∧
      selects "COLOR".toList "COLOR".toList ∧
      split_args "COLOR 0 0 1".toList DELIMS =
        ["COLOR".toList, "0".toList, "0".toList, "1".toList] ∧
      str_to_num ext_rat "0".toList (reached ext_rat (empty_model ℚ) (file_of ["SOLID"])).val =
        (NUM_SET, 0) ∧
      str_to_num ext_rat "0".toList 0 = (NUM_SET, 0) ∧
      str_to_num ext_rat "1".toList 0 = (NUM_SET, 1)) ∧
    ((model_load_line ext_rat 2 "COLOR 0 0 1".toList
        (reached ext_rat (empty_model ℚ) (file_of ["SOLID"]))).load ext_rat).color =
      { r := 0, g := 0, b := 1, alpha := 1 } ∧
    (model_load_line ext_rat 3 "COLOR +0.25 *2 /5".toList
        (reached ext_rat (empty_model ℚ) (file_of ["COLOR 0.5 0.5 0.5", "SOLID"]))).model.items.map
        (fun it => it.color) = [{ r := 3 / 4, g := 1, b := 1 / 10, alpha := 1 }] :=
  ⟨⟨wf_reached _ _ _, by decide, by decide, by decide, by decide!, by decide!, by decide!⟩,
    (congrArg (fun it => it.color)
      (color_triple_effect ext_rat (reached ext_rat (empty_model ℚ) (file_of ["SOLID"])) _ 2
        "COLOR 0 0 1".toList "COLOR".toList "0".toList "0".toList "1".toList
        NUM_SET NUM_SET NUM_SET 0 0 1 (wf_reached _ _ _) (by decide) (by decide) (by decide)
        (by decide!) (by decide!) (by decide!) rfl).1).trans (by decide!),
    by decide!⟩

/-- **C14.** For `PITCH a b` with exactly two argument tokens: if both are
read as integers, `m` and `n` of the active target become those integers; if
`a` is read and `b` is not, `m` is still set and `n` keeps its value; if `a`
is not read, nothing changes but the message printed.  No other field, the
count or the pointer `item` changes. -/
theorem pitch_effect (ext : Ext F) (st res : LoadState F) (linenr : Nat)
    (buffer w a b : List Char)
    (hwf : st.wf)
    (hname : is_name_line buffer = false)
    (hs : selects w "PITCH".toList)
    (hargs : split_args buffer DELIMS = [w, a, b])
    (hres : res = model_load_line ext linenr buffer st) :
    res.load ext =
        (match ext.sscanf_d a with
          | none => st.load ext
          | some m =>
            match ext.sscanf_d b with
            | none => { st.load ext with m := m }
            | some k => { st.load ext with m := m, n := k }) ∧
      res.model.nitems = st.model.nitems ∧ res.item = st.item ∧
      (∀ m k, ext.sscanf_d a = some m → ext.sscanf_d b = some k →
        (res.load ext).m = m ∧ (res.load ext).n = k) ∧
      (∀ m, ext.sscanf_d a = some m → ext.sscanf_d b = none →
        (res.load ext).m = m ∧ (res.load ext).n = (st.load ext).n) ∧
      (ext.sscanf_d a = none → res = st.print (Diag.usage linenr "PITCH".toList)) := by
  have hline := line_pitch ext linenr buffer w a b st hname hs hargs
  have hkeep := line_keeps_count ext linenr buffer w "PITCH".toList [a, b] st
    (by decide) hs hargs
  rw [← hres] at hline hkeep
  have hload : res.load ext =
      (match ext.sscanf_d a with
        | none => st.load ext
        | some m =>
          match ext.sscanf_d b with
          | none => { st.load ext with m := m }
          | some k => { st.load ext with m := m, n := k }) := by
    rw [hline]
    cases ext.sscanf_d a with
    | none => rfl
    | some m =>
      cases ext.sscanf_d b with
      | none =>
        simp only
        rw [print_load, load_store ext hwf]
      | some k =>
        simp only
        rw [load_store ext (wf_store hwf _), load_store ext hwf]
  refine ⟨hload, hkeep.1, hkeep.2, ?_, ?_, ?_⟩
  · intro m k ha hb
    rw [hload, ha, hb]
    exact ⟨rfl, rfl⟩
  · intro m ha hb
    rw [hload, ha, hb]
    exact ⟨rfl, rfl⟩
  · intro ha
    rw [hline, ha]

/-- Witness of C14: after `SOLID`, `PITCH 1 3` sets `m = 1`, `n = 3`;
`PITCH 2 x` sets `m = 2` and leaves `n = 0`; `PITCH x 3` changes neither. -/
theorem pitch_effect_witness :
    ((reached ext_rat (empty_model ℚ) (file_of ["SOLID"])).wf ∧
      is_name_line "PITCH 2 x".toList = false ∧
      selects "PITCH".toList "PITCH".toList ∧
      split_args "PITCH 2 x".toList DELIMS = ["PITCH".toList, "2".toList, "x".toList] ∧
      ext_rat.sscanf_d "2".toList = some 2 ∧ ext_rat.sscanf_d "x".toList = none) ∧
    (((model_load_line ext_rat 2 "PITCH 2 x".toList
        (reached ext_rat (empty_model ℚ) (file_of ["SOLID"]))).load ext_rat).m = 2 ∧
      ((model_load_line ext_rat 2 "PITCH 2 x".toList
        (reached ext_rat (empty_model ℚ) (file_of ["SOLID"]))).load ext_rat).n =
        ((reached ext_rat (empty_model ℚ) (file_of ["SOLID"])).load ext_rat).n) ∧
    (model_load_line ext_rat 2 "PITCH 1 3".toList
        (reached ext_rat (empty_model ℚ) (file_of ["SOLID"]))).model.items.map
        (fun it => (it.m, it.n)) = [(1, 3)] ∧
    (model_load_line ext_rat 2 "PITCH 2 x".toList
        (reached ext_rat (empty_model ℚ) (file_of ["SOLID"]))).model.items.map
        (fun it => (it.m, it.n)) = [(2, 0)] ∧
    (model_load_line ext_rat 2 "PITCH x 3".toList
        (reached ext_rat (empty_model ℚ) (file_of ["SOLID"]))).model.items.map
        (fun it => (it.m, it.n)) = [(0, 0)] :=
  ⟨⟨wf_reached _ _ _, by decide, by decide, by decide, by decide, by decide⟩,
    (pitch_effect ext_rat (reached ext_rat (empty_model ℚ) (file_of ["SOLID"])) _ 2
      "PITCH 2 x".toList "PITCH".toList "2".toList "x".toList (wf_reached _ _ _)
      (by decide) (by decide) (by decide) rfl).2.2.2.2.1 2 (by decide) (by decide),
    by decide!, by decide!, by decide!⟩

/-- **C15.** For `NUMBER t` with exactly one argument token: if `sscanf`
reads the integer `k` from `t`, `number` of the active target becomes `k`,
whatever `def` holds (no operation is derived from the token); otherwise
nothing changes but the message printed.  No other field, the count or the
pointer `item` changes. -/
theorem number_effect (ext : Ext F) (st res : LoadState F) (linenr : Nat)
    (buffer w t : List Char)
    (hwf : st.wf)
    (hname : is_name_line buffer = false)
    (hs : selects w "NUMBER".toList)
    (hargs : split_args buffer DELIMS = [w, t])
    (hres : res = model_load_line ext linenr buffer st) :
    res.load ext =
        (match ext.sscanf_d t with
          | none => st.load ext
          | some k => { st.load ext with number := k }) ∧
      res.model.nitems = st.model.nitems ∧ res.item = st.item ∧
      (∀ k, ext.sscanf_d t = some k → (res.load ext).number = k) ∧
      (ext.sscanf_d t = none → res = st.print (Diag.usage linenr "NUMBER".toList)) := by
  have hline := line_number ext linenr buffer w t st hname hs hargs
  have hkeep := line_keeps_count ext linenr buffer w "NUMBER".toList [t] st
    (by decide) hs hargs
  rw [← hres] at hline hkeep
  have hload : res.load ext =
      (match ext.sscanf_d t with
        | none => st.load ext
        | some k => { st.load ext with number := k }) := by
    rw [hline]
    cases ext.sscanf_d t with
    | none => rfl
    | some k =>
      simp only
      rw [load_store ext hwf]
  refine ⟨hload, hkeep.1, hkeep.2, ?_, ?_⟩
  · intro k hk
    rw [hload, hk]
  · intro hk
    rw [hline, hk]

/-- Witness of C15: after the default `NUMBER 20` and `SOLID`, `NUMBER 30`
sets 30; `NUMBER +5` sets 5 (the sign belongs to the integer, nothing is added
to 20); `NUMBER *2` and `NUMBER /2` are not integers and leave 20. -/
theorem number_effect_witness :
    ((reached ext_rat (empty_model ℚ) (file_of ["SOLID"])).wf ∧
      is_name_line "NUMBER 30".toList = false ∧
      selects "NUMBER".toList "NUMBER".toList ∧
      split_args "NUMBER 30".toList DELIMS = ["NUMBER".toList, "30".toList] ∧
      ext_rat.sscanf_d "30".toList = some 30) ∧
    ((model_load_line ext_rat 2 "NUMBER 30".toList
        (reached ext_rat (empty_model ℚ) (file_of ["SOLID"]))).load ext_rat).number = 30 ∧
    (model_load_line ext_rat 2 "NUMBER +5".toList
        (reached ext_rat (empty_model ℚ) (file_of ["SOLID"]))).model.items.map
        (fun it => it.number) = [5] ∧
    (model_load_line ext_rat 2 "NUMBER *2".toList
        (reached ext_rat (empty_model ℚ) (file_of ["SOLID"]))).model.items.map
        (fun it => it.number) = [20] ∧
    (model_load_line ext_rat 2 "NUMBER /2".toList
        (reached ext_rat (empty_model ℚ) (file_of ["SOLID"]))).model.items.map
        (fun it => it.number) = [20] :=
  ⟨⟨wf_reached _ _ _, by decide, by decide, by decide, by decide⟩,
    (number_effect ext_rat (reached ext_rat (empty_model ℚ) (file_of ["SOLID"])) _ 2
      "NUMBER 30".toList "NUMBER".toList "30".toList (wf_reached _ _ _)
      (by decide) (by decide) (by decide) rfl).2.2.2.1 30 (by decide),
    by decide!, by decide!, by decide!⟩

/-- **C16.** In every parser state, a line beginning with `NAME` only prints
its message: it creates no item and changes neither the model, nor `def`,
nor the pointer `item`; it is tested before `split_args` and the `switch`,
and the lines that follow are processed exactly as if the line were absent
(the same model, `def` and `item` result, from any state and in any file). -/
theorem name_line_changes_nothing (ext : Ext F) (model : TModel F) (st : LoadState F)
    (linenr : Nat) (buffer : List Char) (pre post : List (Nat × List Char))
    (hname : is_name_line buffer = true) :
    model_load_line ext linenr buffer st = st.print (Diag.reading (buffer.drop 4)) ∧
      ((model_load_line ext linenr buffer st).model = st.model ∧
        (model_load_line ext linenr buffer st).defl = st.defl ∧
        (model_load_line ext linenr buffer st).item = st.item) ∧
      ((model_load_lines ext post (model_load_line ext linenr buffer st)).model =
          (model_load_lines ext post st).model ∧
        (model_load_lines ext post (model_load_line ext linenr buffer st)).defl =
          (model_load_lines ext post st).defl ∧
        (model_load_lines ext post (model_load_line ext linenr buffer st)).item =
          (model_load_lines ext post st).item) ∧
      ((reached ext model (pre ++ (linenr, buffer) :: post)).model =
          (reached ext model (pre ++ post)).model ∧
        (reached ext model (pre ++ (linenr, buffer) :: post)).defl =
          (reached ext model (pre ++ post)).defl ∧
        (reached ext model (pre ++ (linenr, buffer) :: post)).item =
          (reached ext model (pre ++ post)).item) := by
  have hline : ∀ s : LoadState F,
      model_load_line ext linenr buffer s = s.print (Diag.reading (buffer.drop 4)) := by
    intro s
    unfold is_name_line at hname
    unfold model_load_line
    rw [hname]
    rfl
  have hpost : ∀ s : LoadState F,
      (model_load_lines ext post (model_load_line ext linenr buffer s)).model =
          (model_load_lines ext post s).model ∧
        (model_load_lines ext post (model_load_line ext linenr buffer s)).defl =
          (model_load_lines ext post s).defl ∧
        (model_load_lines ext post (model_load_line ext linenr buffer s)).item =
          (model_load_lines ext post s).item := by
    intro s
    obtain ⟨h1, h2, h3, -⟩ := lines_same_but_out ext post
      (model_load_line ext linenr buffer s) s (by rw [hline s]; exact ⟨rfl, rfl, rfl, rfl⟩)
    exact ⟨h1, h2, h3⟩
  refine ⟨hline st, by rw [hline st]; exact ⟨rfl, rfl, rfl⟩, hpost st, ?_⟩
  unfold reached
  rw [model_load_lines_append, model_load_lines_append]
  exact hpost _

/-- Witness of C16: the example file with and without its first line
`NAME EXAMPLE MODEL` gives the same model, and that line alone leaves the
initial state's model, `def` and `item`. -/
theorem name_line_changes_nothing_witness :
    is_name_line "NAME EXAMPLE MODEL".toList = true ∧
    model_load_line ext_rat 1 "NAME EXAMPLE MODEL".toList (load_init ext_rat (empty_model ℚ)) =
      (load_init ext_rat (empty_model ℚ)).print (Diag.reading " EXAMPLE MODEL".toList) ∧
    (reached ext_rat (empty_model ℚ)
        ([] ++ (1, "NAME EXAMPLE MODEL".toList) :: model_example_lines.tail)).model =
      (reached ext_rat (empty_model ℚ) ([] ++ model_example_lines.tail)).model ∧
    (reached ext_rat (empty_model ℚ) (file_of ["NAME X", "SOLID"])).model.items.length = 1 :=
  ⟨by decide,
    (name_line_changes_nothing ext_rat (empty_model ℚ) (load_init ext_rat (empty_model ℚ)) 1
      "NAME EXAMPLE MODEL".toList [] [] (by decide)).1,
    (name_line_changes_nothing ext_rat (empty_model ℚ) (load_init ext_rat (empty_model ℚ)) 1
      "NAME EXAMPLE MODEL".toList [] model_example_lines.tail (by decide)).2.2.2.1,
    by decide!⟩

/-- **C17 (as the code behaves).** The claim is false for a model that holds
items: `model_load` returns before `model->nitems = 0` when the file name is
`NULL` or the file cannot be opened, so a model with one item still has one
item after the failed call. -/
theorem open_failure_counterexample :
    (model_load ext_rat { nitems := 1, item := [fresh_rat] } FileArg.null).ret = 1 ∧
      (model_load ext_rat { nitems := 1, item := [fresh_rat] } FileArg.null).model.items.length
        = 1 ∧
      (model_load ext_rat { nitems := 1, item := [fresh_rat] } FileArg.unreadable).ret = 1 ∧
      (model_load ext_rat { nitems := 1, item := [fresh_rat] }
        FileArg.unreadable).model.items.length = 1 := by
  decide!

/-- **C17 (amended).** For every prior state of the model, `model_load` on a
`NULL` file name or on a file that cannot be opened returns 1 without opening
a handle or entering the line loop, and leaves the model exactly as it was;
so the model has zero items afterwards when it had zero items before, as it
has after `model_free` or after the caller's `nitems = 0`. -/
theorem open_failure_leaves_model (ext : Ext F) (model : TModel F) :
    ((model_load ext model FileArg.null).ret = 1 ∧
        (model_load ext model FileArg.null).model = model ∧
        (model_load ext model FileArg.null).opened = false ∧
        (model_load ext model FileArg.null).final = none) ∧
      ((model_load ext model FileArg.unreadable).ret = 1 ∧
        (model_load ext model FileArg.unreadable).model = model ∧
        (model_load ext model FileArg.unreadable).opened = false ∧
        (model_load ext model FileArg.unreadable).final = none) ∧
      (model.nitems = 0 →
        (model_load ext model FileArg.null).model.items = [] ∧
        (model_load ext model FileArg.unreadable).model.items = []) ∧
      (∀ prior : TModel F,
        (model_free (some prior)).map (fun m => (model_load ext m FileArg.unreadable).model.items)
          = some []) := by
  refine ⟨⟨rfl, rfl, rfl, rfl⟩, ⟨rfl, rfl, rfl, rfl⟩, ?_, ?_⟩
  · intro h0
    have hi : model.items = [] := by
      unfold TModel.items
      rw [h0]
      rfl
    exact ⟨hi, hi⟩
  · intro prior
    simp only [model_free]
    split <;> rfl

/-- Witness of the amended C17: a failed load after `model_free` leaves zero
items; a failed load on a model with one item leaves that item. -/
theorem open_failure_leaves_model_witness :
    (model_load ext_rat (empty_model ℚ) FileArg.unreadable).ret = 1 ∧
    (model_load ext_rat (empty_model ℚ) FileArg.unreadable).model.items = [] ∧
    (model_load ext_rat { nitems := 1, item := [fresh_rat] } FileArg.null).model =
      { nitems := 1, item := [fresh_rat] } :=
  ⟨(open_failure_leaves_model ext_rat (empty_model ℚ)).2.1.1,
    ((open_failure_leaves_model ext_rat (empty_model ℚ)).2.2.1 rfl).2,
    (open_failure_leaves_model ext_rat { nitems := 1, item := [fresh_rat] }).1.2.1⟩

/-- **C18 (as the code behaves).** The claim is false for a file without any
significant line (empty, or comments only): the first `parse_nextline`
returns -1 and `model_load` returns 1. -/
theorem empty_file_counterexample :
    (model_load ext_rat (empty_model ℚ) (FileArg.readable [])).ret = 1 ∧
      (model_load ext_rat (empty_model ℚ) (FileArg.readable [])).opened = true := by
  decide!

/-- **C18 (amended).** For every file that can be opened and has at least
one significant line, whatever the lines are, `model_load` runs the loop over
all of them, to the end of input, and returns 0; no diagnostic makes it
return an error.  A file with no significant line makes it return 1. -/
theorem load_returns_success (ext : Ext F) (model : TModel F) (l : Nat × List Char)
    (rest : List (Nat × List Char)) :
    (model_load ext model (FileArg.readable (l :: rest))).ret = 0 ∧
      (model_load ext model (FileArg.readable (l :: rest))).final =
        some (model_load_lines ext (l :: rest) (load_init ext model)) ∧
      (model_load ext model (FileArg.readable (l :: rest))).model =
        (model_load_lines ext (l :: rest) (load_init ext model)).model ∧
      (model_load ext model (FileArg.readable [])).ret = 1 := by
  exact ⟨rfl, rfl, rfl, rfl⟩

/-- Witness of the amended C18: a file of three lines that each produce a
diagnostic returns 0, with the three messages printed and no item. -/
theorem load_returns_success_witness :
    (model_load ext_rat (empty_model ℚ)
        (FileArg.readable (file_of ["X 1", "SOLIDS", "ALPHA"]))).ret = 0 ∧
    (model_load ext_rat (empty_model ℚ)
        (FileArg.readable (file_of ["X 1", "SOLIDS", "ALPHA"]))).final.map (fun s => s.out) =
      some [Diag.unknown_command 1 "X".toList,
        Diag.unknown_setting 2 "SOLIDS".toList "SOLID".toList,
        Diag.usage 3 "ALPHA".toList] ∧
    (model_load ext_rat (empty_model ℚ)
        (FileArg.readable (file_of ["X 1", "SOLIDS", "ALPHA"]))).model.items = [] :=
  ⟨(load_returns_success ext_rat (empty_model ℚ) (1, "X 1".toList)
      [(2, "SOLIDS".toList), (3, "ALPHA".toList)]).1,
    by decide!, by decide!⟩

/-- **C19.** For every file that can be opened and every prior content of
the model, after `model_load` the item count is the number of accepted
item-start lines of the file and the i-th item has the type of the i-th
such line (file order); the count and the items depend on the lines only,
not on the model passed in. -/
theorem load_builds_items_in_file_order (ext : Ext F) (model model' : TModel F)
    (lines : List (Nat × List Char)) :
    (model_load ext model (FileArg.readable lines)).model.nitems =
        ((lines.filterMap (fun l => start_type l.2)).length : Int) ∧
      (model_load ext model (FileArg.readable lines)).model.items.length =
        (lines.filterMap (fun l => start_type l.2)).length ∧
      (model_load ext model (FileArg.readable lines)).model.items.map (fun it => it.type) =
        (lines.filterMap (fun l => start_type l.2)).map some ∧
      (model_load ext model (FileArg.readable lines)).model.nitems =
        (model_load ext model' (FileArg.readable lines)).model.nitems ∧
      (model_load ext model (FileArg.readable lines)).model.items =
        (model_load ext model' (FileArg.readable lines)).model.items := by
  have hmodel : ∀ m : TModel F, (model_load ext m (FileArg.readable lines)).model =
      (model_load_lines ext lines (load_init ext m)).model := by
    intro m
    cases lines <;> rfl
  have hwf := wf_model_load_lines ext lines (wf_load_init ext model)
  have htypes := lines_types ext lines (wf_load_init ext model)
  rw [items_of_zero (show (load_init ext model).model.nitems = 0 from rfl)] at htypes
  simp only [List.map_nil, List.nil_append] at htypes
  have hlen : (model_load_lines ext lines (load_init ext model)).model.items.length =
      (lines.filterMap (fun l => start_type l.2)).length := by
    have := congrArg List.length htypes
    simpa using this
  have hcount := items_length_of_wf hwf
  have hnn : 0 ≤ (model_load_lines ext lines (load_init ext model)).model.nitems := by
    rcases hwf with ⟨h0, -⟩ | ⟨hpos, -, -⟩ <;> omega
  have hind := lines_prior_model ext lines (load_init ext model) (load_init ext model')
    ⟨wf_load_init ext model, wf_load_init ext model', rfl, rfl, rfl, rfl, rfl,
      fun h => absurd h (lt_irrefl (0 : Int))⟩
  rw [hmodel model, hmodel model']
  refine ⟨?_, hlen, htypes, hind.1, hind.2⟩
  rw [← hlen, hcount]
  omega

/-- Witness of C19: the built-in example file yields exactly two items,
SOLID then LINES, also when the model passed in held an item. -/
theorem load_builds_items_in_file_order_witness :
    model_example_lines.filterMap (fun l => start_type l.2) = [DRAW_SOLID, DRAW_LINE] ∧
    (model_load ext_rat { nitems := 1, item := [fresh_rat] }
        (FileArg.readable model_example_lines)).model.nitems = 2 ∧
    (model_load ext_rat { nitems := 1, item := [fresh_rat] }
        (FileArg.readable model_example_lines)).model.items.map (fun it => it.type) =
      [some DRAW_SOLID, some DRAW_LINE] ∧
    (model_load ext_rat { nitems := 1, item := [fresh_rat] }
        (FileArg.readable model_example_lines)).model.items =
      (model_load ext_rat (empty_model ℚ) (FileArg.readable model_example_lines)).model.items ∧
    (model_load ext_rat (empty_model ℚ) (FileArg.readable model_example_lines)).model.items.map
        (fun it => (it.number, it.major_radius, it.color.r, it.color.b, it.m, it.n)) =
      [(30, 2, 1, 0, 0, 0), (10, 2, 0, 1, 1, 3)] :=
  ⟨by decide, by decide!, by decide!,
    (load_builds_items_in_file_order ext_rat { nitems := 1, item := [fresh_rat] }
      (empty_model ℚ) model_example_lines).2.2.2.2,
    by decide!⟩

/-- **C20 (as the code behaves).** The claim is false as a statement about
every file: after the accepted item start `SOLID`, the line `NUMBER 30`
changes the first item, which then has `number = 30`, not 20. -/
theorem first_item_counterexample :
    start_type "SOLID".toList = some DRAW_SOLID ∧
      (model_load ext_rat (empty_model ℚ)
        (FileArg.readable (file_of ["SOLID", "NUMBER 30"]))).model.items.map
        (fun it => it.number) = [30] := by
  decide!

/-- **C20 (amended).** For every file whose first significant line is an
accepted item-start command, the first item is created with `number = 20`,
`color.alpha = 1`, `phi0 = 0`, `phi1 = 2*PI` and every other numeric field
0: this is the model right after that line, and the model `model_load`
leaves when the file has no further line; whatever lines follow, `def` keeps
these values, so every later item is created with them too. -/
theorem first_item_created_with_defaults (ext : Ext F) (model : TModel F) (linenr : Nat)
    (buffer : List Char) (rest : List (Nat × List Char)) (ty ty' : DrawType)
    (hstart : start_type buffer = some ty) :
    (reached ext model [(linenr, buffer)]).model.items =
        [{ type := some ty
           color := { r := 0, g := 0, b := 0, alpha := 1 }
           elongation := 0
           triangularity := 0
           major_radius := 0
           minor_radius := 0
           number := 20
           m := 0
           n := 0
           phi0 := 0
           phi1 := 2 * ext.PI }] ∧
      (model_load ext model (FileArg.readable [(linenr, buffer)])).model.items =
        [{ def_init ext with type := some ty }] ∧
      (reached ext model ((linenr, buffer) :: rest)).defl = def_init ext ∧
      (start_item ext ty' (reached ext model ((linenr, buffer) :: rest))).load ext =
        { def_init ext with type := some ty' } := by
  obtain ⟨hn, name, hm, hs⟩ := start_type_some hstart
  have hw0 := wf_load_init ext model
  have h1 : reached ext model [(linenr, buffer)] = start_item ext ty (load_init ext model) :=
    line_item_start ext linenr buffer name ty _ hn hm hs
  have hf := start_item_fields ext ty hw0
  have hitems : (reached ext model [(linenr, buffer)]).model.items =
      [{ def_init ext with type := some ty }] := by
    rw [h1, hf.2.1, items_of_zero (show (load_init ext model).model.nitems = 0 from rfl)]
    rfl
  have hw1 : (reached ext model [(linenr, buffer)]).wf := wf_reached ext model _
  have hpos : 0 < (reached ext model [(linenr, buffer)]).model.nitems := by
    rw [h1, hf.1]
    show (0 : Int) < 0 + 1
    omega
  have happ : reached ext model ((linenr, buffer) :: rest) =
      model_load_lines ext rest (reached ext model [(linenr, buffer)]) := rfl
  obtain ⟨hw2, -, hd2, -⟩ := lines_frame ext rest hw1 hpos
  have hd1 : (reached ext model [(linenr, buffer)]).defl = def_init ext := by
    rw [h1, hf.2.2.2.2.1]
    rfl
  refine ⟨hitems, hitems, ?_, ?_⟩
  · rw [happ, hd2, hd1]
  · rw [happ, (start_item_fields ext ty' hw2).2.2.2.1, hd2, hd1]

/-- Witness of the amended C20: the file whose only line is `PLANES`, and
the file `SOLID`, `NUMBER 30`, `LINES`, whose second item again starts from
`number = 20`. -/
theorem first_item_created_with_defaults_witness :
    start_type "PLANES".toList = some DRAW_PLANES ∧
    (model_load ext_rat (empty_model ℚ) (FileArg.readable [(1, "PLANES".toList)])).model.items =
      [{ def_init ext_rat with type := some DRAW_PLANES }] ∧
    (def_init ext_rat).number = 20 ∧ (def_init ext_rat).color.alpha = 1 ∧
    (def_init ext_rat).phi0 = 0 ∧ (def_init ext_rat).phi1 = 2 * ext_rat.PI ∧
    (model_load ext_rat (empty_model ℚ)
        (FileArg.readable (file_of ["SOLID", "NUMBER 30", "LINES"]))).model.items.map
        (fun it => it.number) = [30, 20] :=
  ⟨by decide,
    (first_item_created_with_defaults ext_rat (empty_model ℚ) 1 "PLANES".toList []
      DRAW_PLANES DRAW_SOLID (by decide)).2.1,
    by decide!, by decide!, by decide!, by decide!, by decide!⟩

end ClaimsValues

/-! ## The model store, the file handle and the camera -/

section ClaimsStore

variable {F : Type} [Zero F] [One F] [NatCast F] [Add F] [Sub F] [Mul F] [Div F]

set_option linter.unusedSectionVars false

/-- **C21.** For every model, `model_free` leaves the item count zero and no
item; it is idempotent, a second call in a row giving the state of the first
(the second call meets `nitems = 0` and does not release again), also on an
already empty model; on a `NULL` model it does nothing. -/
theorem model_free_idempotent (model : TModel F) :
    (model_free (some model)).map (fun m => m.nitems) = some 0 ∧
      (model_free (some model)).map (fun m => m.items) = some [] ∧
      model_free (model_free (some model)) = model_free (some model) ∧
      (∀ m, model_free (some model) = some m → ¬ m.nitems > 0) ∧
      (model.nitems = 0 → model_free (some model) = some model) ∧
      model_free (none : Option (TModel F)) = none := by
  refine ⟨?_, ?_, ?_, ?_, ?_, rfl⟩
  · simp only [model_free]
    split <;> rfl
  · simp only [model_free]
    split <;> rfl
  · by_cases h : model.nitems > 0
    · simp [model_free, h]
    · simp [model_free, h]
  · intro m hm
    by_cases h : model.nitems > 0
    · simp only [model_free, if_pos h, Option.some.injEq] at hm
      subst hm
      exact lt_irrefl (0 : Int)
    · simp only [model_free, if_neg h, Option.some.injEq] at hm
      subst hm
      exact lt_irrefl (0 : Int)
  · intro h0
    simp only [model_free]
    rw [if_neg (by omega)]
    cases model
    simp only at h0
    subst h0
    rfl

/-- Witness of C21: a model of two items, freed twice, and the empty model. -/
theorem model_free_idempotent_witness :
    model_free (model_free (some ({ nitems := 2, item := [fresh_rat, fresh_rat] } : TModel ℚ))) =
        model_free (some { nitems := 2, item := [fresh_rat, fresh_rat] }) ∧
      (empty_model ℚ).nitems = 0 ∧
      model_free (some (empty_model ℚ)) = some (empty_model ℚ) :=
  ⟨(model_free_idempotent _).2.2.1, rfl, (model_free_idempotent (empty_model ℚ)).2.2.2.2.1 rfl⟩

/-- **C24 (as the code behaves).** With at least one significant line the
handle is closed when `model_load` returns; but on the exit path "end of
input before any significant line" (`if(linenr == -1) return 1;`) the handle
that `fopen` returned is still open at the return. -/
theorem handle_closed_unless_no_line (ext : Ext F) (model : TModel F) (l : Nat × List Char)
    (rest : List (Nat × List Char)) :
    ((model_load ext model (FileArg.readable (l :: rest))).opened = true ∧
        (model_load ext model (FileArg.readable (l :: rest))).closed = true) ∧
      ((model_load ext model (FileArg.readable [])).opened = true ∧
        (model_load ext model (FileArg.readable [])).closed = false ∧
        (model_load ext model (FileArg.readable [])).ret = 1) ∧
      ((model_load ext model FileArg.unreadable).opened = false ∧
        (model_load ext model FileArg.null).opened = false) := by
  exact ⟨⟨rfl, rfl⟩, ⟨rfl, rfl, rfl⟩, ⟨rfl, rfl⟩⟩

end ClaimsStore

section ClaimsCamera

variable {K : Type} [LinearOrderedField K]

/-- The state after `move_camera`, whatever the camera and the increment. -/
theorem move_camera_post (PI : K) (cam : TCamera K) (dR dtheta dphi : K)
    (hPI : 1 / 5 ≤ PI) :
    3 / 2 ≤ (move_camera PI cam dR dtheta dphi).R ∧
      -PI / 2 + 1 / 10 ≤ (move_camera PI cam dR dtheta dphi).phi ∧
      (move_camera PI cam dR dtheta dphi).phi ≤ PI / 2 - 1 / 10 ∧
      (0 ≤ cam.theta → cam.theta ≤ 2 * PI → |dtheta| ≤ 2 * PI →
        0 ≤ (move_camera PI cam dR dtheta dphi).theta ∧
        (move_camera PI cam dR dtheta dphi).theta ≤ 2 * PI) := by
  have hlohi : -PI / 2 + 1 / 10 ≤ PI / 2 - 1 / 10 := by linarith
  refine ⟨?_, ?_, ?_, ?_⟩
  · simp only [move_camera]
    split_ifs <;> linarith
  · simp only [move_camera]
    split_ifs <;> linarith
  · simp only [move_camera]
    split_ifs <;> linarith
  · intro h0 h1 hd
    have hd' := abs_le.1 hd
    simp only [move_camera]
    split_ifs <;> constructor <;> linarith

/-- **C29.** For every camera state and every increment, with the macro `PI`
at least `0.2` (so that the two limits of the elevation are in order), after
`move_camera` the distance is at least `1.5` and the elevation lies between
`-PI/2 + 0.1` and `PI/2 - 0.1`; and if before the call `0 ≤ theta ≤ 2*PI` and
`|dtheta| ≤ 2*PI`, then `0 ≤ theta ≤ 2*PI` after it.  The camera starts
within these bounds, and each increment of the key handlers keeps them. -/
theorem move_camera_bounds (PI : K) (cam : TCamera K) (dR dtheta dphi : K)
    (hPI : 1 / 5 ≤ PI) :
    3 / 2 ≤ (move_camera PI cam dR dtheta dphi).R ∧
      -PI / 2 + 1 / 10 ≤ (move_camera PI cam dR dtheta dphi).phi ∧
      (move_camera PI cam dR dtheta dphi).phi ≤ PI / 2 - 1 / 10 ∧
      (0 ≤ cam.theta → cam.theta ≤ 2 * PI → |dtheta| ≤ 2 * PI →
        0 ≤ (move_camera PI cam dR dtheta dphi).theta ∧
        (move_camera PI cam dR dtheta dphi).theta ≤ 2 * PI) ∧
      ((3 : K) / 2 ≤ (camera_start : TCamera K).R ∧
        -PI / 2 + 1 / 10 ≤ (camera_start : TCamera K).phi ∧
        (camera_start : TCamera K).phi ≤ PI / 2 - 1 / 10 ∧
        0 ≤ (camera_start : TCamera K).theta ∧ (camera_start : TCamera K).theta ≤ 2 * PI) ∧
      (∀ inc ∈ (key_increments : List (K × K × K)), 0 ≤ cam.theta → cam.theta ≤ 2 * PI →
        3 / 2 ≤ (move_camera PI cam inc.1 inc.2.1 inc.2.2).R ∧
        -PI / 2 + 1 / 10 ≤ (move_camera PI cam inc.1 inc.2.1 inc.2.2).phi ∧
        (move_camera PI cam inc.1 inc.2.1 inc.2.2).phi ≤ PI / 2 - 1 / 10 ∧
        0 ≤ (move_camera PI cam inc.1 inc.2.1 inc.2.2).theta ∧
        (move_camera PI cam inc.1 inc.2.1 inc.2.2).theta ≤ 2 * PI) := by
  obtain ⟨h1, h2, h3, h4⟩ := move_camera_post PI cam dR dtheta dphi hPI
  refine ⟨h1, h2, h3, h4, ?_, ?_⟩
  · simp only [camera_start]
    refine ⟨?_, ?_, ?_, le_refl _, ?_⟩ <;> linarith
  · intro inc hinc h0 hle
    obtain ⟨k1, k2, k3, k4⟩ := move_camera_post PI cam inc.1 inc.2.1 inc.2.2 hPI
    have hsmall : |inc.2.1| ≤ 2 * PI := by
      simp only [key_increments, List.mem_cons, List.mem_singleton, List.not_mem_nil,
        or_false] at hinc
      rcases hinc with h | h | h | h | h | h
      all_goals rw [h]
      all_goals rw [abs_le]
      all_goals constructor <;> linarith
    exact ⟨k1, k2, k3, k4 h0 hle hsmall⟩

/-- Witness of C29, with `PI = 3.1415926` over the rationals: the arrow keys'
increments from the camera at `R = 1.5`, `theta = 0`, `phi` at its upper
limit. -/
theorem move_camera_bounds_witness :
    (1 : ℚ) / 5 ≤ ext_rat.PI ∧
    (3 / 2 ≤ (move_camera ext_rat.PI { R := 3 / 2, theta := 0, phi := 3 / 2 } (-1) (-1 / 10)
        (1 / 10)).R ∧
      -ext_rat.PI / 2 + 1 / 10 ≤
        (move_camera ext_rat.PI { R := 3 / 2, theta := 0, phi := 3 / 2 } (-1) (-1 / 10)
          (1 / 10)).phi ∧
      (move_camera ext_rat.PI { R := 3 / 2, theta := 0, phi := 3 / 2 } (-1) (-1 / 10)
          (1 / 10)).phi ≤ ext_rat.PI / 2 - 1 / 10) ∧
    move_camera ext_rat.PI { R := 3 / 2, theta := 0, phi := 3 / 2 } (-1) (-1 / 10) (1 / 10) =
      { R := 3 / 2, theta := 2 * ext_rat.PI + (0 + -1 / 10), phi := ext_rat.PI / 2 - 1 / 10 } :=
  ⟨by decide!,
    ⟨(move_camera_bounds ext_rat.PI { R := 3 / 2, theta := 0, phi := 3 / 2 } (-1) (-1 / 10)
        (1 / 10) (by decide!)).1,
      (move_camera_bounds ext_rat.PI { R := 3 / 2, theta := 0, phi := 3 / 2 } (-1) (-1 / 10)
        (1 / 10) (by decide!)).2.1,
      (move_camera_bounds ext_rat.PI { R := 3 / 2, theta := 0, phi := 3 / 2 } (-1) (-1 / 10)
        (1 / 10) (by decide!)).2.2.1⟩,
    by decide!⟩

end ClaimsCamera

/-! ## The tokenizer -/

section ClaimsTokens

/-- Counterexample to C22 as stated: with ten arguments the last token is the
unsplit rest `9 10` of the line, which contains a space, and the tokens in a
row are not the line without its delimiters; and on a line that begins with
a delimiter the command word is not the (empty) text up to the first
delimiter. -/
theorem split_args_counterexample :
    split_args "C 1 2 3 4 5 6 7 8 9 10".toList DELIMS =
        ["C".toList, "1".toList, "2".toList, "3".toList, "4".toList, "5".toList, "6".toList,
          "7".toList, "8".toList, "9 10".toList] ∧
      spec_arguments "C 1 2 3 4 5 6 7 8 9 10".toList =
        ["1".toList, "2".toList, "3".toList, "4".toList, "5".toList, "6".toList, "7".toList,
          "8".toList, "9".toList, "10".toList] ∧
      ¬ (∀ a ∈ (split_args "C 1 2 3 4 5 6 7 8 9 10".toList DELIMS).tail,
          a ≠ [] ∧ ∀ c ∈ a, c ∉ DELIMS) ∧
      (split_args "C 1 2 3 4 5 6 7 8 9 10".toList DELIMS).flatten ≠
        "C 1 2 3 4 5 6 7 8 9 10".toList.filter (non_delim DELIMS) ∧
      (command_word ",X 1".toList = ",X".toList ∧ spec_command ",X 1".toList = []) := by
  decide

/-- **C22 (amended).** For every line, the tokens of `split_args` in a row,
delimiters removed, are the line with its delimiters removed, and the command
word is the first character and the text after it up to the first delimiter.
For a line
that does not begin with a delimiter and has at most eight argument runs, or
nine and no delimiter at its end: the command word is the text up to the
first delimiter, the argument tokens are, in order, the maximal runs of
non-delimiter characters that follow, each non-empty and free of space and
comma, and all tokens in a row are the line with its delimiters removed. -/
theorem split_args_runs (line : List Char) :
    (split_args line DELIMS).flatten.filter (non_delim DELIMS) =
        line.filter (non_delim DELIMS) ∧
      (∀ c t, line = c :: t → command_word line = c :: t.takeWhile (non_delim DELIMS)) ∧
      ((∀ c ∈ line.head?, c ∉ DELIMS) →
        ((spec_arguments line).length < 9 ∨
          ((spec_arguments line).length = 9 ∧ ∀ c ∈ line.getLast?, c ∉ DELIMS)) →
        command_word line = spec_command line ∧
          (split_args line DELIMS).tail = spec_arguments line ∧
          (split_args line DELIMS).length = (spec_arguments line).length + 1 ∧
          (∀ a ∈ (split_args line DELIMS).tail, a ≠ [] ∧ ∀ c ∈ a, c ∉ DELIMS) ∧
          (split_args line DELIMS).flatten = line.filter (non_delim DELIMS)) := by
  refine ⟨split_args_loop_flatten DELIMS _ line, ?_, ?_⟩
  · intro c t h
    rw [h, command_word_cons]
  intro hhead hfit
  cases line with
  | nil =>
    refine ⟨rfl, rfl, rfl, ?_, rfl⟩
    intro a ha
    simp [split_args, MAX_ARGS, split_args_loop, next_str] at ha
  | cons c t =>
    have hc : c ∉ DELIMS := hhead c (by simp)
    obtain ⟨hcmd, hargs⟩ := spec_of_text_head c t hc
    have hsplit : split_args (c :: t) DELIMS = spec_command (c :: t) :: spec_arguments (c :: t) := by
      rw [hcmd, hargs]
      rw [hargs] at hfit
      exact split_args_loop_runs DELIMS 9 c t hfit
    have hflat : (spec_command (c :: t) :: spec_arguments (c :: t)).flatten =
        (c :: t).filter (non_delim DELIMS) := by
      have hj := spec_runs_join DELIMS (c :: t)
      rw [spec_runs_text DELIMS t c hc] at hj
      rw [hcmd, hargs]
      exact hj
    refine ⟨?_, ?_, ?_, ?_, ?_⟩
    · rw [command_word_cons, hcmd]
    · rw [hsplit]
      rfl
    · rw [hsplit]
      rfl
    · rw [hsplit]
      exact spec_runs_mem DELIMS _
    · rw [hsplit]
      exact hflat


/-- Witness of C22 on the line `RANGE 0, 216`. -/
theorem split_args_runs_witness :
    ((∀ c ∈ "RANGE 0, 216".toList.head?, c ∉ DELIMS) ∧
      ((spec_arguments "RANGE 0, 216".toList).length < 9 ∨
        ((spec_arguments "RANGE 0, 216".toList).length = 9 ∧
          ∀ c ∈ "RANGE 0, 216".toList.getLast?, c ∉ DELIMS))) ∧
    (command_word "RANGE 0, 216".toList = spec_command "RANGE 0, 216".toList ∧
      (split_args "RANGE 0, 216".toList DELIMS).tail = spec_arguments "RANGE 0, 216".toList ∧
      (split_args "RANGE 0, 216".toList DELIMS).length =
        (spec_arguments "RANGE 0, 216".toList).length + 1 ∧
      (∀ a ∈ (split_args "RANGE 0, 216".toList DELIMS).tail, a ≠ [] ∧ ∀ c ∈ a, c ∉ DELIMS) ∧
      (split_args "RANGE 0, 216".toList DELIMS).flatten =
        "RANGE 0, 216".toList.filter (non_delim DELIMS)) ∧
    split_args "RANGE 0, 216".toList DELIMS = ["RANGE".toList, "0".toList, "216".toList] ∧
    split_args "C 1 2 3 4 5 6 7 8 9".toList DELIMS =
      spec_command "C 1 2 3 4 5 6 7 8 9".toList :: spec_arguments "C 1 2 3 4 5 6 7 8 9".toList :=
  ⟨⟨by decide, by decide⟩,
    (split_args_runs "RANGE 0, 216".toList).2.2 (by decide) (by decide),
    by decide, by decide⟩

/-- **C23.** For every line, the count `nargs` of `split_args` (the length
of the list of filled slots) is at least 1 and at most `MAX_ARGS = 10`; it is
one more than the number of argument runs, capped at 9, so with `k ≤ 9` runs
after the command word `nargs = k + 1`; on a line that does not begin with a
delimiter these runs are the runs after the text up to the first delimiter;
the empty line gives the empty command word and no argument token. -/
theorem split_args_count (line : List Char) :
    1 ≤ (split_args line DELIMS).length ∧
      (split_args line DELIMS).length ≤ MAX_ARGS ∧
      (split_args line DELIMS).length = min (argument_runs line).length 9 + 1 ∧
      ((argument_runs line).length ≤ 9 →
        (split_args line DELIMS).length = (argument_runs line).length + 1) ∧
      ((∀ c ∈ line.head?, c ∉ DELIMS) → argument_runs line = spec_arguments line) ∧
      (split_args [] DELIMS = [[]] ∧ argument_runs [] = []) := by
  have hlen : (split_args line DELIMS).length = min (argument_runs line).length 9 + 1 := by
    cases line with
    | nil => rfl
    | cons c t =>
      rw [argument_runs_cons]
      exact split_args_loop_length DELIMS 9 c t
  refine ⟨by omega, ?_, hlen, ?_, ?_, rfl, rfl⟩
  · rw [hlen]
    unfold MAX_ARGS
    omega
  · intro h
    rw [hlen]
    omega
  · intro hhead
    cases line with
    | nil => rfl
    | cons c t =>
      rw [argument_runs_cons, (spec_of_text_head c t (hhead c (by simp))).2]
/-- Witness of C23: `COLOR 0 0 1` has three argument runs and `nargs = 4`; a
line with eleven runs gives `nargs = 10`. -/
theorem split_args_count_witness :
    ((argument_runs "COLOR 0 0 1".toList).length ≤ 9 ∧
      (∀ c ∈ "COLOR 0 0 1".toList.head?, c ∉ DELIMS)) ∧
    ((split_args "COLOR 0 0 1".toList DELIMS).length =
        (argument_runs "COLOR 0 0 1".toList).length + 1 ∧
      argument_runs "COLOR 0 0 1".toList = spec_arguments "COLOR 0 0 1".toList) ∧
    (argument_runs "COLOR 0 0 1".toList).length = 3 ∧
    (split_args "C 1 2 3 4 5 6 7 8 9 10 11".toList DELIMS).length = 10 :=
  ⟨⟨by decide, by decide⟩,
    ⟨(split_args_count "COLOR 0 0 1".toList).2.2.2.1 (by decide),
      (split_args_count "COLOR 0 0 1".toList).2.2.2.2.1 (by decide)⟩,
    by decide, by decide⟩

end ClaimsTokens

/-! ## Lines in sequence, signs, invalid tokens and token reads -/

section ClaimsCompound

variable {F : Type} [Zero F] [One F] [NatCast F] [Add F] [Sub F] [Mul F] [Div F]

set_option linter.unusedSectionVars false

/-- **C25.** Before any item has been started the pointer `item` is `&def`, so
relative settings compound on the record `def`: for every `d` and `v`, the
lines `MAJOR d`, `MAJOR +v`, `MAJOR +v` (any accepted abbreviation) followed
by an item start give the one item the major radius `(d + v) + v`, each
relative line applied to the value the line before left; the two relative
lines issued after the item start (the default `MAJOR d` before it) give
`d + v`.  With all three lines after the start the base is the initial
default `0`, and the item gets `0 + v`. -/
theorem relative_settings_compound (ext : Ext F) (model : TModel F) (n0 n1 n2 n3 : Nat)
    (b0 b1 bs w0 w1 t0 t1 sname : List Char) (ty : DrawType) (d v : F)
    (h0name : is_name_line b0 = false)
    (h0s : selects w0 "MAJOR".toList)
    (h0args : split_args b0 DELIMS = [w0, t0])
    (h0op : ∀ val, str_to_num ext t0 val = (NUM_SET, d))
    (h1name : is_name_line b1 = false)
    (h1s : selects w1 "MAJOR".toList)
    (h1args : split_args b1 DELIMS = [w1, t1])
    (h1op : ∀ val, str_to_num ext t1 val = (NUM_ADD, v))
    (hsname : is_name_line bs = false)
    (hsm : (sname, ty) ∈ item_starts)
    (hss : selects (command_word bs) sname) :
    ((reached ext model [(n0, b0), (n1, b1), (n2, b1)]).item = ItemPtr.to_def ∧
        (reached ext model [(n0, b0), (n1, b1), (n2, b1)]).defl.major_radius = (d + v) + v ∧
        (reached ext model [(n0, b0), (n1, b1), (n2, b1), (n3, bs)]).model.items.map
          (fun it => it.major_radius) = [(d + v) + v]) ∧
      (reached ext model [(n0, b0), (n1, bs), (n2, b1), (n3, b1)]).model.items.map
        (fun it => it.major_radius) = [d + v] ∧
      (reached ext model [(n0, bs), (n1, b0), (n2, b1), (n3, b1)]).model.items.map
        (fun it => it.major_radius) = [0 + v] := by
  have hm : ("MAJOR".toList, (Dest.major_radius : Dest F)) ∈ number_settings F := by
    simp [number_settings]
  have hw0 := wf_load_init ext model
  have hz0 : (load_init ext model).model.nitems = 0 := rfl
  have hd0 : (load_init ext model).defl.major_radius = 0 := rfl
  -- the default line `MAJOR d`, met first
  obtain ⟨hwa, -, hna, -, hda⟩ := line_one_number_state ext n0 b0 w0 t0 "MAJOR".toList
    Dest.major_radius (load_init ext model) NUM_SET d d hw0 h0name hm h0s h0args (h0op _) rfl
  rw [hz0] at hna
  have hda1 := hda hz0
  refine ⟨?_, ?_, ?_⟩
  · -- two relative lines on the record `def`, then the start
    generalize hsa : model_load_line ext n0 b0 (load_init ext model) = sa at hwa hna hda1
    obtain ⟨hwb, -, hnb, -, hdb⟩ := line_one_number_state ext n1 b1 w1 t1 "MAJOR".toList
      Dest.major_radius sa NUM_ADD v (d + v) hwa h1name hm h1s h1args (h1op _)
      (by rw [hda1]; rfl)
    rw [hna] at hnb
    have hdb1 := hdb hna
    generalize hsb : model_load_line ext n1 b1 sa = sb at hwb hnb hdb1
    obtain ⟨hwc, -, hnc, -, hdc⟩ := line_one_number_state ext n2 b1 w1 t1 "MAJOR".toList
      Dest.major_radius sb NUM_ADD v ((d + v) + v) hwb h1name hm h1s h1args (h1op _)
      (by rw [hdb1]; rfl)
    rw [hnb] at hnc
    have hdc1 := hdc hnb
    generalize hsc : model_load_line ext n2 b1 sb = sc at hwc hnc hdc1
    have e3 : reached ext model [(n0, b0), (n1, b1), (n2, b1)] = sc := by
      simp only [reached, model_load_lines, hsa, hsb, hsc]
    have e4 : reached ext model [(n0, b0), (n1, b1), (n2, b1), (n3, bs)] =
        start_item ext ty sc := by
      simp only [reached, model_load_lines, hsa, hsb, hsc]
      exact line_item_start ext n3 bs sname ty sc hsname hsm hss
    have hi : sc.item = ItemPtr.to_def := by
      rcases hwc with ⟨_, h⟩ | ⟨hpos, _⟩
      · exact h
      · omega
    refine ⟨by rw [e3]; exact hi, by rw [e3]; exact hdc1, ?_⟩
    rw [e4, (start_item_fields ext ty hwc).2.1, items_of_zero hnc]
    simp only [List.nil_append, List.map_cons, List.map_nil]
    rw [← hdc1]
    rfl
  · -- the start after the default line, then the two relative lines
    generalize hsa : model_load_line ext n0 b0 (load_init ext model) = sa at hwa hna hda1
    obtain ⟨hnb, -, -, -, hdb, -, -⟩ := start_item_fields ext ty hwa
    have hwb := wf_start_item ext ty hwa
    rw [hna] at hnb
    have hsb0 := line_item_start ext n1 bs sname ty sa hsname hsm hss
    generalize hsb : start_item ext ty sa = sb at hwb hnb hdb hsb0
    have hx : resolve NUM_ADD (Dest.major_radius.get sb.defl) v = some (d + v) := by
      rw [hdb, hda1]
      rfl
    obtain ⟨hwc, -, hnc, hdc, -⟩ := line_one_number_state ext n2 b1 w1 t1 "MAJOR".toList
      Dest.major_radius sb NUM_ADD v (d + v) hwb h1name hm h1s h1args (h1op _) hx
    have hdc1 := hdc (by omega)
    rw [hnb] at hnc
    generalize hsc : model_load_line ext n2 b1 sb = sc at hwc hnc hdc1
    obtain ⟨hwd, hgd, hnd, -, -⟩ := line_one_number_state ext n3 b1 w1 t1 "MAJOR".toList
      Dest.major_radius sc NUM_ADD v (d + v) hwc h1name hm h1s h1args (h1op _)
      (by rw [hdc1]; exact hx)
    rw [hnc] at hnd
    have e4 : reached ext model [(n0, b0), (n1, bs), (n2, b1), (n3, b1)] =
        model_load_line ext n3 b1 sc := by
      simp only [reached, model_load_lines, hsa, hsb0, hsc]
    rw [e4, items_of_one ext hwd (by simpa using hnd)]
    simp only [List.map_cons, List.map_nil]
    rw [← hgd]
    rfl
  · -- everything after the start: the base stays the initial default
    obtain ⟨hnb, -, -, -, hdb, -, -⟩ := start_item_fields ext ty hw0
    have hwb := wf_start_item ext ty hw0
    rw [hz0] at hnb
    have hsb0 := line_item_start ext n0 bs sname ty (load_init ext model) hsname hsm hss
    generalize hsb : start_item ext ty (load_init ext model) = sb at hwb hnb hdb hsb0
    obtain ⟨hwc, -, hnc, hdc, -⟩ := line_one_number_state ext n1 b0 w0 t0 "MAJOR".toList
      Dest.major_radius sb NUM_SET d d hwb h0name hm h0s h0args (h0op _) rfl
    have hdc1 := hdc (by omega)
    rw [hnb] at hnc
    generalize hsc : model_load_line ext n1 b0 sb = sc at hwc hnc hdc1
    have hx : resolve NUM_ADD (Dest.major_radius.get sc.defl) v = some (0 + v) := by
      rw [hdc1, hdb]
      rfl
    obtain ⟨hwd, -, hnd, hdd, -⟩ := line_one_number_state ext n2 b1 w1 t1 "MAJOR".toList
      Dest.major_radius sc NUM_ADD v (0 + v) hwc h1name hm h1s h1args (h1op _) hx
    have hdd1 := hdd (by omega)
    rw [hnc] at hnd
    generalize hsd : model_load_line ext n2 b1 sc = sd at hwd hnd hdd1
    obtain ⟨hwe, hge, hne, -, -⟩ := line_one_number_state ext n3 b1 w1 t1 "MAJOR".toList
      Dest.major_radius sd NUM_ADD v (0 + v) hwd h1name hm h1s h1args (h1op _)
      (by rw [hdd1]; exact hx)
    rw [hnd] at hne
    have e4 : reached ext model [(n0, bs), (n1, b0), (n2, b1), (n3, b1)] =
        model_load_line ext n3 b1 sd := by
      simp only [reached, model_load_lines, hsb0, hsc, hsd]
    rw [e4, items_of_one ext hwe (by simpa using hne)]
    simp only [List.map_cons, List.map_nil]
    rw [← hge]
    rfl

/-- Witness of C25 over the rationals: `MAJOR 2.0`, twice `MAJOR +1.5` and
`SOLID`, in the three orders, give 5, 3.5 and 1.5. -/
theorem relative_settings_compound_witness :
    (is_name_line "MAJOR 2.0".toList = false ∧
      selects "MAJOR".toList "MAJOR".toList ∧
      split_args "MAJOR 2.0".toList DELIMS = ["MAJOR".toList, "2.0".toList] ∧
      (∀ val, str_to_num ext_rat "2.0".toList val = (NUM_SET, 2)) ∧
      is_name_line "MAJOR +1.5".toList = false ∧
      split_args "MAJOR +1.5".toList DELIMS = ["MAJOR".toList, "+1.5".toList] ∧
      (∀ val, str_to_num ext_rat "+1.5".toList val = (NUM_ADD, 3 / 2)) ∧
      is_name_line "SOLID".toList = false ∧
      ("SOLID".toList, DRAW_SOLID) ∈ item_starts ∧
      selects (command_word "SOLID".toList) "SOLID".toList) ∧
    ((reached ext_rat (empty_model ℚ)
        (file_of ["MAJOR 2.0", "MAJOR +1.5", "MAJOR +1.5", "SOLID"])).model.items.map
        (fun it => it.major_radius) = [(2 + 3 / 2) + 3 / 2] ∧
      (reached ext_rat (empty_model ℚ)
        (file_of ["MAJOR 2.0", "SOLID", "MAJOR +1.5", "MAJOR +1.5"])).model.items.map
        (fun it => it.major_radius) = [2 + 3 / 2] ∧
      (reached ext_rat (empty_model ℚ)
        (file_of ["SOLID", "MAJOR 2.0", "MAJOR +1.5", "MAJOR +1.5"])).model.items.map
        (fun it => it.major_radius) = [0 + 3 / 2]) ∧
    ((2 : ℚ) + 3 / 2) + 3 / 2 = 2 + 2 * (3 / 2) :=
  ⟨⟨by decide, by decide, by decide,
      str_to_num_of_scan ext_rat "2.0".toList 2 (by decide!),
      by decide, by decide,
      str_to_num_of_scan ext_rat "+1.5".toList (3 / 2) (by decide!),
      by decide, by decide, by decide⟩,
    ⟨(relative_settings_compound ext_rat (empty_model ℚ) 1 2 3 4 "MAJOR 2.0".toList
        "MAJOR +1.5".toList "SOLID".toList "MAJOR".toList "MAJOR".toList "2.0".toList
        "+1.5".toList "SOLID".toList DRAW_SOLID 2 (3 / 2) (by decide) (by decide) (by decide)
        (str_to_num_of_scan ext_rat "2.0".toList 2 (by decide!)) (by decide) (by decide)
        (by decide) (str_to_num_of_scan ext_rat "+1.5".toList (3 / 2) (by decide!))
        (by decide) (by decide) (by decide)).1.2.2,
      (relative_settings_compound ext_rat (empty_model ℚ) 1 2 3 4 "MAJOR 2.0".toList
        "MAJOR +1.5".toList "SOLID".toList "MAJOR".toList "MAJOR".toList "2.0".toList
        "+1.5".toList "SOLID".toList DRAW_SOLID 2 (3 / 2) (by decide) (by decide) (by decide)
        (str_to_num_of_scan ext_rat "2.0".toList 2 (by decide!)) (by decide) (by decide)
        (by decide) (str_to_num_of_scan ext_rat "+1.5".toList (3 / 2) (by decide!))
        (by decide) (by decide) (by decide)).2.1,
      (relative_settings_compound ext_rat (empty_model ℚ) 1 2 3 4 "MAJOR 2.0".toList
        "MAJOR +1.5".toList "SOLID".toList "MAJOR".toList "MAJOR".toList "2.0".toList
        "+1.5".toList "SOLID".toList DRAW_SOLID 2 (3 / 2) (by decide) (by decide) (by decide)
        (str_to_num_of_scan ext_rat "2.0".toList 2 (by decide!)) (by decide) (by decide)
        (by decide) (str_to_num_of_scan ext_rat "+1.5".toList (3 / 2) (by decide!))
        (by decide) (by decide) (by decide)).2.2⟩,
    by decide!⟩

/-- **C26.** For every token whose first character is `-`, `str_to_num`
returns `NUM_SUB` or `NUM_INVALID`, never `NUM_SET`.  Hence, when the text
after the `-` is read as `v`: in every well-formed state `MAJOR -…` sets the
major radius of the active target to `def.major_radius - v`, and
`RANGE -… t1` sets its `phi0` to `def.phi0 - v*PI/180`. -/
theorem minus_token_is_relative (ext : Ext F) (t : List Char) (val : F) :
    ((str_to_num ext ('-' :: t) val).1 = NUM_SUB ∨
        (str_to_num ext ('-' :: t) val).1 = NUM_INVALID) ∧
      (str_to_num ext ('-' :: t) val).1 ≠ NUM_SET ∧
      (∀ v : F, ext.sscanf_f t = some v →
        (str_to_num ext ('-' :: t) val = (NUM_SUB, v)) ∧
        (∀ (st : LoadState F) (linenr : Nat) (buffer w : List Char), st.wf →
          is_name_line buffer = false → selects w "MAJOR".toList →
          split_args buffer DELIMS = [w, '-' :: t] →
          ((model_load_line ext linenr buffer st).load ext).major_radius =
            st.defl.major_radius - v) ∧
        (∀ (st : LoadState F) (linenr : Nat) (buffer w t1 : List Char), st.wf →
          is_name_line buffer = false → selects w "RANGE".toList →
          split_args buffer DELIMS = [w, '-' :: t, t1] →
          ((model_load_line ext linenr buffer st).load ext).phi0 =
            st.defl.phi0 - v * ext.PI / 180)) := by
  have hminus := str_to_num_minus ext t
  refine ⟨?_, ?_, ?_⟩
  · rw [hminus val]
    cases ext.sscanf_f t
    · exact Or.inr rfl
    · exact Or.inl rfl
  · rw [hminus val]
    cases ext.sscanf_f t
    · simp
    · simp
  · intro v hv
    have hsub : ∀ x, str_to_num ext ('-' :: t) x = (NUM_SUB, v) := by
      intro x
      rw [hminus x, hv]
    refine ⟨hsub val, ?_, ?_⟩
    · intro st linenr buffer w hwf hname hs hargs
      have hm : ("MAJOR".toList, (Dest.major_radius : Dest F)) ∈ number_settings F := by
        simp [number_settings]
      exact (line_one_number_state ext linenr buffer w ('-' :: t) "MAJOR".toList
        Dest.major_radius st NUM_SUB v (st.defl.major_radius - v) hwf hname hm hs hargs
        (hsub _) rfl).2.1
    · intro st linenr buffer w t1 hwf hname hs hargs
      have hl := line_range_load ext st linenr buffer w ('-' :: t) t1 NUM_SUB
        (str_to_num ext t1 v).1 v (str_to_num ext t1 v).2 hwf hname hs hargs (hsub _) rfl
      rw [hl]
      rfl

/-- Witness of C26 over the rationals: with the default `MAJOR 2.0` and the
item of `SOLID`, `MAJOR -1` gives 1 (not -1), and `RANGE -90 90` gives
`phi0 = 0 - 90*PI/180`. -/
theorem minus_token_is_relative_witness :
    (ext_rat.sscanf_f "1".toList = some 1 ∧
      (reached ext_rat (empty_model ℚ) (file_of ["MAJOR 2.0", "SOLID"])).wf ∧
      is_name_line "MAJOR -1".toList = false ∧
      selects "MAJOR".toList "MAJOR".toList ∧
      split_args "MAJOR -1".toList DELIMS = ["MAJOR".toList, '-' :: "1".toList]) ∧
    ((model_load_line ext_rat 3 "MAJOR -1".toList
        (reached ext_rat (empty_model ℚ) (file_of ["MAJOR 2.0", "SOLID"]))).load
        ext_rat).major_radius =
      (reached ext_rat (empty_model ℚ) (file_of ["MAJOR 2.0", "SOLID"])).defl.major_radius - 1 ∧
    (reached ext_rat (empty_model ℚ)
        (file_of ["MAJOR 2.0", "SOLID", "MAJOR -1", "RANGE -90 90"])).model.items.map
        (fun it => (it.major_radius, it.phi0, it.phi1)) =
      [(1, 0 - 90 * ext_rat.PI / 180, 90 * ext_rat.PI / 180)] :=
  ⟨⟨by decide!, wf_reached _ _ _, by decide, by decide, by decide⟩,
    ((minus_token_is_relative ext_rat "1".toList 0).2.2 1 (by decide!)).2.1
      (reached ext_rat (empty_model ℚ) (file_of ["MAJOR 2.0", "SOLID"])) 3
      "MAJOR -1".toList "MAJOR".toList (wf_reached _ _ _) (by decide) (by decide) (by decide),
    by decide!⟩

/-- **C27.** In every well-formed state an invalid token of `RANGE` or of the
three-token `COLOR` does not stop the later tokens of the line: `RANGE x t1`
with `x` not read as a number and `t1` read as the plain number `v1` leaves
`phi0` and sets `phi1 = v1*PI/180` (`PI` for `v1 = 180`, where the arithmetic
gives `180*PI/180 = PI`), and `COLOR x t2 y` with `x`, `y` not read and `t2`
read as the plain number `v2` leaves `r` and `b` and sets `g = v2`; no other
field changes. -/
theorem invalid_token_skips_its_field_only (ext : Ext F) (st : LoadState F) (linenr : Nat)
    (hwf : st.wf) :
    (∀ (buffer w x t1 : List Char) (v1 : F),
        is_name_line buffer = false → selects w "RANGE".toList →
        split_args buffer DELIMS = [w, x, t1] →
        (∀ val, str_to_num ext x val = (NUM_INVALID, val)) →
        (∀ val, str_to_num ext t1 val = (NUM_SET, v1)) →
        (model_load_line ext linenr buffer st).load ext =
            { st.load ext with phi1 := v1 * ext.PI / 180 } ∧
          ((model_load_line ext linenr buffer st).load ext).phi0 = (st.load ext).phi0 ∧
          ((model_load_line ext linenr buffer st).load ext).phi1 = v1 * ext.PI / 180 ∧
          (v1 = 180 → (180 : F) * ext.PI / 180 = ext.PI →
            ((model_load_line ext linenr buffer st).load ext).phi1 = ext.PI)) ∧
      (∀ (buffer w x t2 y : List Char) (v2 : F),
        is_name_line buffer = false → selects w "COLOR".toList →
        split_args buffer DELIMS = [w, x, t2, y] →
        (∀ val, str_to_num ext x val = (NUM_INVALID, val)) →
        (∀ val, str_to_num ext t2 val = (NUM_SET, v2)) →
        (∀ val, str_to_num ext y val = (NUM_INVALID, val)) →
        (model_load_line ext linenr buffer st).load ext =
            { st.load ext with color := { (st.load ext).color with g := v2 } } ∧
          ((model_load_line ext linenr buffer st).load ext).color.r = (st.load ext).color.r ∧
          ((model_load_line ext linenr buffer st).load ext).color.g = v2 ∧
          ((model_load_line ext linenr buffer st).load ext).color.b = (st.load ext).color.b) := by
  refine ⟨?_, ?_⟩
  · intro buffer w x t1 v1 hname hs hargs hx h1
    have hl := line_range_load ext st linenr buffer w x t1 NUM_INVALID NUM_SET st.val v1
      hwf hname hs hargs (hx _) (h1 _)
    have hl' : (model_load_line ext linenr buffer st).load ext =
        { st.load ext with phi1 := v1 * ext.PI / 180 } := by
      rw [hl]
      rfl
    refine ⟨hl', by rw [hl'], by rw [hl'], ?_⟩
    intro h180 hpi
    rw [hl', h180]
    exact hpi
  · intro buffer w x t2 y v2 hname hs hargs hx h2 hy
    have hl := line_color_load ext st linenr buffer w x t2 y NUM_INVALID NUM_SET NUM_INVALID
      st.val v2 v2 hwf hname hs hargs (hx _) (h2 _) (hy _)
    have hl' : (model_load_line ext linenr buffer st).load ext =
        { st.load ext with color := { (st.load ext).color with g := v2 } } := by
      rw [hl]
      rfl
    exact ⟨hl', by rw [hl'], by rw [hl'], by rw [hl']⟩

/-- Witness of C27 over the rationals, on the item of `SOLID`: `RANGE X 180`
keeps `phi0 = 0` and gives `phi1 = PI`; `COLOR X 0.5 Y` keeps `r = 0`,
`b = 0` and gives `g = 0.5`. -/
theorem invalid_token_skips_its_field_only_witness :
    ((reached ext_rat (empty_model ℚ) (file_of ["SOLID"])).wf ∧
      is_name_line "RANGE X 180".toList = false ∧
      selects "RANGE".toList "RANGE".toList ∧
      split_args "RANGE X 180".toList DELIMS = ["RANGE".toList, "X".toList, "180".toList] ∧
      (∀ val, str_to_num ext_rat "X".toList val = (NUM_INVALID, val)) ∧
      (∀ val, str_to_num ext_rat "180".toList val = (NUM_SET, 180)) ∧
      (180 : ℚ) * ext_rat.PI / 180 = ext_rat.PI) ∧
    ((model_load_line ext_rat 2 "RANGE X 180".toList
        (reached ext_rat (empty_model ℚ) (file_of ["SOLID"]))).load ext_rat).phi1 =
      ext_rat.PI ∧
    (is_name_line "COLOR X 0.5 Y".toList = false ∧
      selects "COLOR".toList "COLOR".toList ∧
      split_args "COLOR X 0.5 Y".toList DELIMS =
        ["COLOR".toList, "X".toList, "0.5".toList, "Y".toList] ∧
      (∀ val, str_to_num ext_rat "0.5".toList val = (NUM_SET, 1 / 2)) ∧
      (∀ val, str_to_num ext_rat "Y".toList val = (NUM_INVALID, val))) ∧
    ((model_load_line ext_rat 2 "COLOR X 0.5 Y".toList
        (reached ext_rat (empty_model ℚ) (file_of ["SOLID"]))).load ext_rat).color.g = 1 / 2 ∧
    (reached ext_rat (empty_model ℚ)
        (file_of ["SOLID", "RANGE X 180", "COLOR X 0.5 Y"])).model.items.map
        (fun it => (it.phi0, it.phi1, it.color)) =
      [(0, ext_rat.PI, { r := 0, g := 1 / 2, b := 0, alpha := 1 })] :=
  ⟨⟨wf_reached _ _ _, by decide, by decide, by decide,
      str_to_num_of_no_scan ext_rat "X".toList (by decide!),
      str_to_num_of_scan ext_rat "180".toList 180 (by decide!), by decide!⟩,
    ((invalid_token_skips_its_field_only ext_rat
        (reached ext_rat (empty_model ℚ) (file_of ["SOLID"])) 2 (wf_reached _ _ _)).1
      "RANGE X 180".toList "RANGE".toList "X".toList "180".toList 180 (by decide) (by decide)
      (by decide) (str_to_num_of_no_scan ext_rat "X".toList (by decide!))
      (str_to_num_of_scan ext_rat "180".toList 180 (by decide!))).2.2.2 rfl (by decide!),
    ⟨by decide, by decide, by decide,
      str_to_num_of_scan ext_rat "0.5".toList (1 / 2) (by decide!),
      str_to_num_of_no_scan ext_rat "Y".toList (by decide!)⟩,
    ((invalid_token_skips_its_field_only ext_rat
        (reached ext_rat (empty_model ℚ) (file_of ["SOLID"])) 2 (wf_reached _ _ _)).2
      "COLOR X 0.5 Y".toList "COLOR".toList "X".toList "0.5".toList "Y".toList (1 / 2)
      (by decide) (by decide) (by decide)
      (str_to_num_of_no_scan ext_rat "X".toList (by decide!))
      (str_to_num_of_scan ext_rat "0.5".toList (1 / 2) (by decide!))
      (str_to_num_of_no_scan ext_rat "Y".toList (by decide!))).2.2.1,
    by decide!⟩

/-- **C28.** For every line, every read of a token slot `args[k]` that the
`switch` of `model_load` makes is in bounds: run with each read checked
against the number of slots `split_args` filled, the `switch` never meets a
read out of bounds and gives the state of the unchecked `switch`; the number
of filled slots is at least 1 and at most `MAX_ARGS`, the size of the array,
and a read at or beyond that number is the one the check refuses. -/
theorem token_reads_in_bounds (ext : Ext F) (linenr : Nat) (buffer : List Char)
    (st : LoadState F) :
    model_load_switch_checked ext linenr (split_args buffer DELIMS) st =
        some (model_load_switch ext linenr (split_args buffer DELIMS) st) ∧
      (∀ args : List (List Char), model_load_switch_checked ext linenr args st =
        some (model_load_switch ext linenr args st)) ∧
      1 ≤ (split_args buffer DELIMS).length ∧
      (split_args buffer DELIMS).length ≤ MAX_ARGS ∧
      (∀ k, (read_arg (split_args buffer DELIMS) k).isSome ↔
        k < (split_args buffer DELIMS).length) ∧
      (∀ fld : Dest F, one_number_checked ext linenr "ALPHA".toList ["ALPHA".toList] fld st =
          some (st.print (Diag.usage linenr "ALPHA".toList))) ∧
      read_arg ["ALPHA".toList] 1 = none := by
  have hlen : (split_args buffer DELIMS).length = min (argument_runs buffer).length 9 + 1 := by
    cases buffer with
    | nil => rfl
    | cons c t =>
      rw [argument_runs_cons]
      exact split_args_loop_length DELIMS 9 c t
  refine ⟨model_load_switch_checked_eq ext linenr _ st,
    fun args => model_load_switch_checked_eq ext linenr args st, by omega, ?_, ?_,
    fun _ => rfl, rfl⟩
  · rw [hlen]
    unfold MAX_ARGS
    omega
  · intro k
    unfold read_arg
    split <;> simp_all

end ClaimsCompound

end TokamakDraw
